import Mathlib

/-!
xmrigCC: Job arithmetic, the remote-control command dispatcher and the
command-line configuration transform.

A shallow embedding of `src/base/net/stratum/Job.h`, `src/App.cpp` and
`src/base/kernel/config/BaseTransform.cpp`.

* Unsigned 64-bit values are natural numbers below `2 ^ 64`.
* A C++ operation the language leaves undefined (a shift by 64 or more bits,
  a call through a released `shared_ptr`, a member lookup in a JSON value that
  is not an object) yields `none`.
* Calls into collaborators outside these files (controller, logger, event
  loop, operating system, configuration chain) are recorded, in program order,
  in a trace.
-/

namespace xmrig

/-! ## Job.h -/

/-- Number of values of `uint64_t`. -/
def U64 : Nat := 2 ^ 64

/-- Modelled from the spec: `base/tools/String.h` is not among the sources.
`String::size()` is the length of the text in bytes. -/
def strSize (s : String) : Nat := s.utf8ByteSize

/-- Modelled from the spec: `base/tools/String.h` is not among the sources.
`String::isEmpty()` holds exactly when the size is zero. -/
def strIsEmpty (s : String) : Bool := strSize s == 0

/-- Modelled from the spec: `base/crypto/Algorithm.h` is not among the sources.
An algorithm identifies a hash family; `KAWPOW` is the wide-nonce family, every
other family is told apart by a tag. -/
inductive Family where
  | KAWPOW
  | OTHER (tag : Nat)
  deriving DecidableEq, Repr

/-- Modelled from the spec: `base/crypto/Algorithm.h` is not among the sources.
Only the identifier and `family()` of an algorithm are used by `Job.h`. -/
structure Algorithm where
  id : Nat
  family : Family
  deriving DecidableEq, Repr

/-- The data members of `class Job`. The members of both preprocessor variants
(`XMRIG_PROXY_PROJECT` defined or not) are carried. -/
structure Job where
  m_algorithm : Algorithm
  m_nicehash : Bool
  m_donate : Bool
  m_seed : List Nat
  m_size : Nat
  m_clientId : String
  m_extraNonce : String
  m_id : String
  m_poolWallet : String
  m_backend : Nat
  m_diff : Nat
  m_height : Nat
  m_target : Nat
  m_blob : List Nat
  m_index : Nat
  -- #ifdef XMRIG_PROXY_PROJECT
  m_rawBlob : List Nat
  m_rawTarget : List Nat
  m_rawSeedHash : String
  m_rawSigKey : String
  m_spendSecretKey : List Nat
  m_viewSecretKey : List Nat
  m_spendPublicKey : List Nat
  m_viewPublicKey : List Nat
  m_minerTxPrefix : List Nat
  m_minerTxEphPubKeyOffset : Nat
  m_minerTxPubKeyOffset : Nat
  m_minerTxExtraNonceOffset : Nat
  m_minerTxExtraNonceSize : Nat
  m_minerTxMerkleTreeBranch : List Nat
  m_hasViewTag : Bool
  -- #else
  m_ephPublicKey : List Nat
  m_ephSecretKey : List Nat
  -- #endif
  m_hasMinerSignature : Bool
  deriving DecidableEq, Repr

namespace Job

/-- The default-constructed job (`Job() = default` with the member initialisers). -/
def default : Job where
  m_algorithm := ⟨0, Family.OTHER 0⟩
  m_nicehash := false
  m_donate := false
  m_seed := []
  m_size := 0
  m_clientId := ""
  m_extraNonce := ""
  m_id := ""
  m_poolWallet := ""
  m_backend := 0
  m_diff := 0
  m_height := 0
  m_target := 0
  m_blob := List.replicate 408 0
  m_index := 0
  m_rawBlob := []
  m_rawTarget := []
  m_rawSeedHash := ""
  m_rawSigKey := ""
  m_spendSecretKey := []
  m_viewSecretKey := []
  m_spendPublicKey := []
  m_viewPublicKey := []
  m_minerTxPrefix := []
  m_minerTxEphPubKeyOffset := 0
  m_minerTxPubKeyOffset := 0
  m_minerTxExtraNonceOffset := 0
  m_minerTxExtraNonceSize := 0
  m_minerTxMerkleTreeBranch := []
  m_hasViewTag := false
  m_ephPublicKey := []
  m_ephSecretKey := []
  m_hasMinerSignature := false

/-- `static uint64_t toDiff(uint64_t target)`:
`target ? (0xFFFFFFFFFFFFFFFFULL / target) : 0`. -/
def toDiff (target : Nat) : Nat :=
  if target ≠ 0 then 0xFFFFFFFFFFFFFFFF / target else 0

/-- `bool isNicehash() const`. -/
def isNicehash (j : Job) : Bool := j.m_nicehash

/-- `const String &extraNonce() const`. -/
def extraNonce (j : Job) : String := j.m_extraNonce

/-- `bool isValid() const`:
`(m_size > 0 && m_diff > 0) || !m_poolWallet.isEmpty()`. -/
def isValid (j : Job) : Bool :=
  (decide (j.m_size > 0) && decide (j.m_diff > 0)) || !strIsEmpty j.m_poolWallet

/-- `size_t nonceSize() const`:
`(algorithm().family() == Algorithm::KAWPOW) ? 8 : 4`. -/
def nonceSize (j : Job) : Nat :=
  if j.m_algorithm.family = Family.KAWPOW then 8 else 4

/-- Right shift of a `uint64_t` by a `size_t` count (`x >> n`). The result is
undefined, `none`, when the count is not below the width of 64 bits. -/
def shr64 (x n : Nat) : Option Nat :=
  if n < 64 then some (x >>> n) else none

/-- `uint64_t nonceMask() const`:
`isNicehash() ? 0xFFFFFFULL : (nonceSize() == sizeof(uint64_t) ?
(static_cast<uint64_t>(-1LL) >> (extraNonce().size() * 4)) : 0xFFFFFFFFULL)`.
The product `size() * 4` is computed in the 64-bit `size_t`. -/
def nonceMask (j : Job) : Option Nat :=
  if j.isNicehash then some 0xFFFFFF
  else if j.nonceSize = 8 then shr64 (U64 - 1) ((strSize j.extraNonce * 4) % U64)
  else some 0xFFFFFFFF

/-- `void reset()`: `m_size = 0; m_diff = 0;`. -/
def reset (j : Job) : Job :=
  { j with m_size := 0, m_diff := 0 }

/-- `void setAlgorithm(...)`: `m_algorithm = ...`. -/
def setAlgorithm (algorithm : Algorithm) (j : Job) : Job :=
  { j with m_algorithm := algorithm }

/-- `void setExtraNonce(const String &extraNonce)`: `m_extraNonce = extraNonce`. -/
def setExtraNonce (extraNonce : String) (j : Job) : Job :=
  { j with m_extraNonce := extraNonce }

/-- `void setPoolWallet(const String &poolWallet)`: `m_poolWallet = poolWallet`. -/
def setPoolWallet (poolWallet : String) (j : Job) : Job :=
  { j with m_poolWallet := poolWallet }

end Job

/-! ## App.cpp -/

/-- Build-time configuration of `App.cpp`: the two preprocessor switches, and
the exit-code constants `RC_OK` and `RC_RESTART` of `cc/XMRigd.h`, which is not
among the sources. -/
structure Build where
  XMRIG_FEATURE_CC_CLIENT : Bool
  XMRIG_FEATURE_CC_CLIENT_SHELL_EXECUTE : Bool
  RC_OK : Int
  RC_RESTART : Int
  deriving DecidableEq, Repr

/-- Modelled from the spec: `cc/ControlCommand.h` is not among the sources.
The nine command kinds of the remote-control channel. -/
inductive Command where
  | START
  | STOP
  | UPDATE
  | RESTART
  | SHUTDOWN
  | REBOOT
  | EXECUTE
  | UPDATE_CONFIG
  | PUBLISH_CONFIG
  deriving DecidableEq, Repr

/-- Modelled from the spec: `cc/ControlCommand.h` is not among the sources.
A decoded command is a kind (`getCommand()`) plus a text payload
(`getPayload()`). -/
structure ControlCommand where
  getCommand : Command
  getPayload : String
  deriving DecidableEq, Repr

/-- Modelled from the spec: `core/Controller.h` and `core/config/Config.h` are
not among the sources. What `App.cpp` reads from the controller and its
configuration: `rebootCmd` is the nullable text `config()->ccClient().rebootCmd()`. -/
structure Controller where
  isReady : Bool
  isDaemonized : Bool
  isBackground : Bool
  isDryRun : Bool
  rebootCmd : Option String
  deriving DecidableEq, Repr

/-- Severity of a log line, after the `LOG_EMERG`, `LOG_WARN` and `LOG_NOTICE`
calls of `App.cpp`. -/
inductive LogLevel where
  | EMERG
  | WARN
  | NOTICE
  deriving DecidableEq, Repr

/-- A call from `App.cpp` into a collaborator outside it. -/
inductive Effect where
  /-- The call `m_controller->execCommand(command)`. -/
  | execCommand (command : Char)
  /-- The call `m_controller->stop()`. -/
  | controllerStop
  /-- The call `m_controller.reset()`. -/
  | controllerReset
  /-- The call `m_signals.reset()`. -/
  | signalsReset
  /-- The call `m_console.reset()`. -/
  | consoleReset
  /-- The call `Log::destroy()`. -/
  | logDestroy
  /-- The call `uv_stop(uv_default_loop())`. -/
  | uvStop
  /-- A log line of the given severity; `text` is the message after formatting,
  without the tag and colour codes. -/
  | log (level : LogLevel) (text : String)
  /-- The call `system(cmd)`. -/
  | system (cmd : String)
  /-- The detached `std::thread` started by `execute`, which captured `command`. -/
  | spawnWorker (command : String)
  /-- The call `background(rc)`. -/
  | background
  /-- The assignment `m_signals = std::make_shared<Signals>(this)`. -/
  | signalsCreate
  /-- The call `m_controller->init()`. -/
  | controllerInit
  /-- The assignment `m_console = std::make_shared<Console>(this)`. -/
  | consoleCreate
  /-- The call `Summary::print(m_controller.get())`. -/
  | summaryPrint
  /-- The call `m_controller->start()`. -/
  | controllerStart
  /-- The call `m_controller->ccClient()->addCommandListener(this)`. -/
  | addCommandListener
  /-- The call `uv_run(uv_default_loop(), UV_RUN_DEFAULT)`. -/
  | uvRun
  /-- The call `uv_loop_close(uv_default_loop())`. -/
  | uvLoopClose
  /-- The construction of the `std::ofstream` on `path` (out, binary, trunc). -/
  | ofstreamOpen (path : String)
  /-- The statements `os << command; os.close();` on the file `path`. -/
  | write (path : String) (content : String)
  /-- The call `chmod(path, S_IRWXU)`. -/
  | chmod (path : String)
  /-- The call `popen(cmdline, "r")`. -/
  | popen (cmdline : String)
  /-- The call `pclose(pipe)`. -/
  | pclose
  /-- The call `std::remove(path)`. -/
  | remove (path : String)
  deriving DecidableEq, Repr

/-- The data members of `class App`: the recorded exit code and the three
shared handles (`m_signals` and `m_console` by whether they are held). -/
structure App where
  m_rc : Int
  m_controller : Option Controller
  m_signals : Bool
  m_console : Bool
  deriving DecidableEq, Repr

/-- A point of an execution: the members of the `App` and the calls made so
far, oldest first. -/
structure Run where
  app : App
  trace : List Effect
  deriving DecidableEq, Repr

/-- Record one call at the end of the trace. -/
def emit (e : Effect) (r : Run) : Run :=
  { r with trace := r.trace ++ [e] }

/-- `SIGHUP` of `<csignal>`. -/
def SIGHUP : Int := 1
/-- `SIGINT` of `<csignal>`. -/
def SIGINT : Int := 2
/-- `SIGTERM` of `<csignal>`. -/
def SIGTERM : Int := 15

namespace App

/-- `void App::close(int rc)`. The call `m_controller->stop()` through a
released handle is undefined: `none`. -/
def close (rc : Int) (r : Run) : Option Run :=
  -- m_rc = rc;
  let r := { r with app := { r.app with m_rc := rc } }
  match r.app.m_controller with
  | none => none
  | some _ =>
    -- m_controller->stop();
    let r := emit Effect.controllerStop r
    -- m_controller.reset();
    let r := emit Effect.controllerReset { r with app := { r.app with m_controller := none } }
    -- m_signals.reset();
    let r := emit Effect.signalsReset { r with app := { r.app with m_signals := false } }
    -- m_console.reset();
    let r := emit Effect.consoleReset { r with app := { r.app with m_console := false } }
    -- Log::destroy();
    let r := emit Effect.logDestroy r
    -- uv_stop(uv_default_loop());
    some (emit Effect.uvStop r)

/-- `void App::onConsoleCommand(char command)`. -/
def onConsoleCommand (b : Build) (command : Char) (r : Run) : Option Run :=
  if command = Char.ofNat 3 ∨ command = 'q' ∨ command = 'Q' then
    close b.RC_OK (emit (Effect.log LogLevel.WARN "Quit command received, exiting") r)
  else
    match r.app.m_controller with
    | none => none
    | some _ => some (emit (Effect.execCommand command) r)

/-- `void App::onSignal(int signum)`. -/
def onSignal (b : Build) (signum : Int) (r : Run) : Option Run :=
  if signum = SIGHUP ∨ signum = SIGTERM ∨ signum = SIGINT then
    close b.RC_OK r
  else
    some r

/-- `void App::reboot()`, compiled only with `XMRIG_FEATURE_CC_CLIENT`. -/
def reboot (b : Build) (r : Run) : Option Run :=
  if b.XMRIG_FEATURE_CC_CLIENT_SHELL_EXECUTE then
    -- auto rebootCmd = m_controller->config()->ccClient().rebootCmd();
    match r.app.m_controller with
    | none => none
    | some controller =>
      match controller.rebootCmd with
      | some rebootCmd =>
        -- system(rebootCmd); close(RC_OK);
        close b.RC_OK (emit (Effect.system rebootCmd) r)
      | none => some r
  else
    some (emit (Effect.log LogLevel.EMERG "Shell execute disabled. Skipping REBOOT.") r)

/-- `void App::execute(const std::string& command)`, compiled only with
`XMRIG_FEATURE_CC_CLIENT`. The body of the detached thread is not run here. -/
def execute (b : Build) (command : String) (r : Run) : Option Run :=
  if b.XMRIG_FEATURE_CC_CLIENT_SHELL_EXECUTE then
    if ¬ command = "" then
      some (emit (Effect.spawnWorker command) r)
    else
      some r
  else
    some (emit (Effect.log LogLevel.EMERG ("Shell execute disabled. Skipping " ++ command)) r)

/-- `void App::onCommandReceived(ControlCommand& command)`. -/
def onCommandReceived (b : Build) (command : ControlCommand) (r : Run) : Option Run :=
  if b.XMRIG_FEATURE_CC_CLIENT then
    match command.getCommand with
    | Command.START =>
      match r.app.m_controller with
      | none => none
      | some _ => some (emit (Effect.execCommand 'r') r)
    | Command.STOP =>
      match r.app.m_controller with
      | none => none
      | some _ => some (emit (Effect.execCommand 'p') r)
    | Command.UPDATE => close b.RC_RESTART r
    | Command.RESTART => close b.RC_RESTART r
    | Command.SHUTDOWN => close b.RC_OK r
    | Command.REBOOT => reboot b r
    | Command.EXECUTE => execute b command.getPayload r
    | Command.UPDATE_CONFIG => some r
    | Command.PUBLISH_CONFIG => some r
  else
    some r

/-- What `App::exec` receives from outside `App.cpp`: the text of the macro
`APP_ID`, the outcome of `background(rc)` (`some rc` when it returns true having
set `rc`), the result of `m_controller->init()`, and the event loop, which maps
the point reached when `uv_run` is entered to the point at which it returns
together with its result (`none` when a handler run by the loop is undefined). -/
structure ExecEnv where
  APP_ID : String
  background : Option Int
  init : Int
  uv_run : Run → Option (Run × Int)

/-- `int App::exec()`. The result pairs the point reached with the returned
code. -/
def exec (b : Build) (env : ExecEnv) (r : Run) : Option (Run × Int) :=
  match r.app.m_controller with
  | none => none
  | some controller =>
    if !controller.isReady then
      -- LOG_EMERG("no valid configuration found."); return 2;
      some (emit (Effect.log LogLevel.EMERG "no valid configuration found.") r, 2)
    else if b.XMRIG_FEATURE_CC_CLIENT && !controller.isDaemonized then
      some (emit (Effect.log LogLevel.EMERG
        (env.APP_ID ++ " is compiled with CC support, please start the daemon instead.\n")) r, 2)
    else
      -- int rc = 0; if (background(rc)) return rc;
      let r := emit Effect.background r
      match env.background with
      | some rc => some (r, rc)
      | none =>
        -- m_signals = std::make_shared<Signals>(this);
        let r := emit Effect.signalsCreate { r with app := { r.app with m_signals := true } }
        -- rc = m_controller->init(); if (rc != 0) return rc;
        let r := emit Effect.controllerInit r
        if env.init ≠ 0 then some (r, env.init)
        else
          -- if (!m_controller->isBackground()) m_console = std::make_shared<Console>(this);
          let r := if !controller.isBackground then
              emit Effect.consoleCreate { r with app := { r.app with m_console := true } }
            else r
          -- Summary::print(m_controller.get());
          let r := emit Effect.summaryPrint r
          if controller.isDryRun then
            some (emit (Effect.log LogLevel.NOTICE "OK") r, 0)
          else
            -- m_controller->start();
            let r := emit Effect.controllerStart r
            let r := if b.XMRIG_FEATURE_CC_CLIENT then emit Effect.addCommandListener r else r
            -- rc = uv_run(uv_default_loop(), UV_RUN_DEFAULT);
            match env.uv_run (emit Effect.uvRun r) with
            | none => none
            | some (r, rc) =>
              -- uv_loop_close(uv_default_loop());
              let r := emit Effect.uvLoopClose r
              -- return m_rc > 0 ? m_rc : rc;
              some (r, if r.app.m_rc > 0 then r.app.m_rc else rc)

/-- What the worker thread of `App::execute` receives from outside `App.cpp`:
whether `_WIN32` or `WIN32` is defined, the clock reading
`Chrono::currentMSecsSinceEpoch()`, the path `Process::location(Process::CwdLocation, name)`,
whether the output file opened (`os.is_open()`), whether `popen` returned a
pipe, the chunks returned by `std::fread` up to the first empty one, whether
an exception was raised inside the `try` block, and the value of `pclose`. -/
structure WorkerEnv where
  win32 : Bool
  currentMSecsSinceEpoch : Nat
  location : String → String
  is_open : Bool
  pipe : Bool
  chunks : List String
  throws : Bool
  pcloseResult : Int

/-- The macro `WEXITSTATUS`: bits 8 to 15 of the wait status of `<sys/wait.h>`;
on Windows `App.cpp` defines it empty, which leaves the value as it is. -/
def WEXITSTATUS (win32 : Bool) (status : Int) : Int :=
  if win32 then status else (status % 65536) / 256

/-- The path `tmpFile` computed by the worker:
`Process::location(Process::CwdLocation, std::to_string(currentTimeEpoch) + extension)`,
where `extension` is `.bat` on Windows and `.tmp` elsewhere. -/
def tmpFile (env : WorkerEnv) : String :=
  let extension := if env.win32 then ".bat" else ".tmp"
  env.location (toString env.currentMSecsSinceEpoch ++ extension)

/-- The body of the detached thread of `App::execute`, as the calls it makes in
order. When an exception is caught the pipe is closed in the handler and
closed again after it, which is undefined: `none`. -/
def executeWorker (env : WorkerEnv) (command : String) : Option (List Effect) :=
  -- int rc{0}; std::string result;
  let tmpFile := tmpFile env
  let t := [Effect.log LogLevel.NOTICE ("Creating temp script: " ++ tmpFile ++ "...")]
  -- std::ofstream os(tmpFile, ...);
  let t := t ++ [Effect.ofstreamOpen tmpFile]
  if env.is_open then
    -- os << command; os.close();
    let t := t ++ [Effect.write tmpFile command]
    let t := if env.win32 then t else t ++ [Effect.chmod tmpFile]
    -- FILE *pipe = popen((tmpFile + " 2>&1").c_str(), "r");
    let t := t ++ [Effect.popen (tmpFile ++ " 2>&1")]
    let afterRun : Option (List Effect) :=
      if env.pipe then
        if env.throws then none
        else
          let result := String.join env.chunks
          -- rc = pclose(pipe); rc = WEXITSTATUS(rc);
          let t := t ++ [Effect.pclose]
          let rc := WEXITSTATUS env.win32 env.pcloseResult
          if rc = 0 then
            some (t ++ [Effect.log LogLevel.NOTICE
              ("Processing...\n###START EXECUTE###\nScript:\n" ++ command
                ++ "\n\nOutput:\n" ++ result ++ "###END EXECUTE###")])
          else
            some (t ++ [Effect.log LogLevel.WARN
              ("Processing...\n###START EXECUTE###\nScript:\n" ++ command
                ++ "\n\nOutput:\n" ++ result ++ "###END EXECUTE###")])
      else
        some (t ++ [Effect.log LogLevel.WARN
          ("Processing...\n###START EXECUTE###\nScript:\n" ++ command
            ++ "\n\nError: FAILED to open pipe.\n###END EXECUTE###")])
    match afterRun with
    | none => none
    | some t =>
      -- std::remove(tmpFile.c_str());
      let t := t ++ [Effect.remove tmpFile]
      some (t ++ [Effect.log LogLevel.NOTICE ("Removing temp script: " ++ tmpFile ++ "...")])
  else
    some t

end App

/-- Modelled from the spec: the member-name constants (`Pools::kPools`,
`Pool::kUrl`, `BaseConfig::kHttp`, ...) are declared in headers that are not
among the sources. Each constant used by `BaseTransform.cpp` is one member
name, distinct from the others; `other` is any further name a fragment read
from a file may hold. -/
inductive Name where
  | Pools_kPools | Pools_kRetries | Pools_kRetryPause | Pools_kDonateLevel
  | Pool_kAlgo | Pool_kCoin | Pool_kUrl | Pool_kUser | Pool_kPass
  | Pool_kSpendSecretKey | Pool_kRigId | Pool_kFingerprint | Pool_kSelfSelect
  | Pool_kSOCKS5 | Pool_kKeepalive | Pool_kTls | Pool_kSubmitToOrigin
  | Pool_kDaemon | Pool_kNicehash | Pool_kDaemonPollInterval
  | Pool_kDaemonJobTimeout | Pool_kDaemonZMQPort
  | BaseConfig_kLogFile | BaseConfig_kHttp | BaseConfig_kApi
  | BaseConfig_kApiWorkerId | BaseConfig_kApiId | BaseConfig_kUserAgent
  | BaseConfig_kTitle | BaseConfig_kTls | BaseConfig_kCCClient
  | BaseConfig_kBackground | BaseConfig_kSyslog | BaseConfig_kColors
  | BaseConfig_kDryRun | BaseConfig_kVerbose | BaseConfig_kPrintTime
  | BaseConfig_kDaemonized
  | Http_kToken | Http_kHost | Http_kRestricted | Http_kEnabled | Http_kPort
  | TlsConfig_kCert | TlsConfig_kCertKey | TlsConfig_kDhparam
  | TlsConfig_kCiphers | TlsConfig_kCipherSuites | TlsConfig_kProtocols
  | TlsConfig_kGen
  | CCClientConfig_kRebootCmd | CCClientConfig_kWorkerId
  | CCClientConfig_kServers | CCClientConfig_kUrl | CCClientConfig_kAccessToken
  | CCClientConfig_kProxyServer | CCClientConfig_kSocksProxyServer
  | CCClientConfig_kEnabled | CCClientConfig_kUploadConfigOnStartup
  | CCClientConfig_kUseRemoteLog | CCClientConfig_kUseTLS
  | CCClientConfig_kUpdateInterval | CCClientConfig_kRetriesToFailover
  | DnsConfig_kField | DnsConfig_kIPv | DnsConfig_kTTL
  | other (text : String)
  deriving Repr

/-- A code for each member name, from which equality of names is decided. -/
def Name.toCode : Name → Nat ⊕ String
  | Name.Pools_kPools => Sum.inl 0
  | Name.Pools_kRetries => Sum.inl 1
  | Name.Pools_kRetryPause => Sum.inl 2
  | Name.Pools_kDonateLevel => Sum.inl 3
  | Name.Pool_kAlgo => Sum.inl 4
  | Name.Pool_kCoin => Sum.inl 5
  | Name.Pool_kUrl => Sum.inl 6
  | Name.Pool_kUser => Sum.inl 7
  | Name.Pool_kPass => Sum.inl 8
  | Name.Pool_kSpendSecretKey => Sum.inl 9
  | Name.Pool_kRigId => Sum.inl 10
  | Name.Pool_kFingerprint => Sum.inl 11
  | Name.Pool_kSelfSelect => Sum.inl 12
  | Name.Pool_kSOCKS5 => Sum.inl 13
  | Name.Pool_kKeepalive => Sum.inl 14
  | Name.Pool_kTls => Sum.inl 15
  | Name.Pool_kSubmitToOrigin => Sum.inl 16
  | Name.Pool_kDaemon => Sum.inl 17
  | Name.Pool_kNicehash => Sum.inl 18
  | Name.Pool_kDaemonPollInterval => Sum.inl 19
  | Name.Pool_kDaemonJobTimeout => Sum.inl 20
  | Name.Pool_kDaemonZMQPort => Sum.inl 21
  | Name.BaseConfig_kLogFile => Sum.inl 22
  | Name.BaseConfig_kHttp => Sum.inl 23
  | Name.BaseConfig_kApi => Sum.inl 24
  | Name.BaseConfig_kApiWorkerId => Sum.inl 25
  | Name.BaseConfig_kApiId => Sum.inl 26
  | Name.BaseConfig_kUserAgent => Sum.inl 27
  | Name.BaseConfig_kTitle => Sum.inl 28
  | Name.BaseConfig_kTls => Sum.inl 29
  | Name.BaseConfig_kCCClient => Sum.inl 30
  | Name.BaseConfig_kBackground => Sum.inl 31
  | Name.BaseConfig_kSyslog => Sum.inl 32
  | Name.BaseConfig_kColors => Sum.inl 33
  | Name.BaseConfig_kDryRun => Sum.inl 34
  | Name.BaseConfig_kVerbose => Sum.inl 35
  | Name.BaseConfig_kPrintTime => Sum.inl 36
  | Name.BaseConfig_kDaemonized => Sum.inl 37
  | Name.Http_kToken => Sum.inl 38
  | Name.Http_kHost => Sum.inl 39
  | Name.Http_kRestricted => Sum.inl 40
  | Name.Http_kEnabled => Sum.inl 41
  | Name.Http_kPort => Sum.inl 42
  | Name.TlsConfig_kCert => Sum.inl 43
  | Name.TlsConfig_kCertKey => Sum.inl 44
  | Name.TlsConfig_kDhparam => Sum.inl 45
  | Name.TlsConfig_kCiphers => Sum.inl 46
  | Name.TlsConfig_kCipherSuites => Sum.inl 47
  | Name.TlsConfig_kProtocols => Sum.inl 48
  | Name.TlsConfig_kGen => Sum.inl 49
  | Name.CCClientConfig_kRebootCmd => Sum.inl 50
  | Name.CCClientConfig_kWorkerId => Sum.inl 51
  | Name.CCClientConfig_kServers => Sum.inl 52
  | Name.CCClientConfig_kUrl => Sum.inl 53
  | Name.CCClientConfig_kAccessToken => Sum.inl 54
  | Name.CCClientConfig_kProxyServer => Sum.inl 55
  | Name.CCClientConfig_kSocksProxyServer => Sum.inl 56
  | Name.CCClientConfig_kEnabled => Sum.inl 57
  | Name.CCClientConfig_kUploadConfigOnStartup => Sum.inl 58
  | Name.CCClientConfig_kUseRemoteLog => Sum.inl 59
  | Name.CCClientConfig_kUseTLS => Sum.inl 60
  | Name.CCClientConfig_kUpdateInterval => Sum.inl 61
  | Name.CCClientConfig_kRetriesToFailover => Sum.inl 62
  | Name.DnsConfig_kField => Sum.inl 63
  | Name.DnsConfig_kIPv => Sum.inl 64
  | Name.DnsConfig_kTTL => Sum.inl 65
  | Name.other text => Sum.inr text

/-- The member name of a code; `Name.toCode` followed by it gives the name back. -/
def Name.ofCode : Nat ⊕ String → Name
  | Sum.inl 0 => Name.Pools_kPools
  | Sum.inl 1 => Name.Pools_kRetries
  | Sum.inl 2 => Name.Pools_kRetryPause
  | Sum.inl 3 => Name.Pools_kDonateLevel
  | Sum.inl 4 => Name.Pool_kAlgo
  | Sum.inl 5 => Name.Pool_kCoin
  | Sum.inl 6 => Name.Pool_kUrl
  | Sum.inl 7 => Name.Pool_kUser
  | Sum.inl 8 => Name.Pool_kPass
  | Sum.inl 9 => Name.Pool_kSpendSecretKey
  | Sum.inl 10 => Name.Pool_kRigId
  | Sum.inl 11 => Name.Pool_kFingerprint
  | Sum.inl 12 => Name.Pool_kSelfSelect
  | Sum.inl 13 => Name.Pool_kSOCKS5
  | Sum.inl 14 => Name.Pool_kKeepalive
  | Sum.inl 15 => Name.Pool_kTls
  | Sum.inl 16 => Name.Pool_kSubmitToOrigin
  | Sum.inl 17 => Name.Pool_kDaemon
  | Sum.inl 18 => Name.Pool_kNicehash
  | Sum.inl 19 => Name.Pool_kDaemonPollInterval
  | Sum.inl 20 => Name.Pool_kDaemonJobTimeout
  | Sum.inl 21 => Name.Pool_kDaemonZMQPort
  | Sum.inl 22 => Name.BaseConfig_kLogFile
  | Sum.inl 23 => Name.BaseConfig_kHttp
  | Sum.inl 24 => Name.BaseConfig_kApi
  | Sum.inl 25 => Name.BaseConfig_kApiWorkerId
  | Sum.inl 26 => Name.BaseConfig_kApiId
  | Sum.inl 27 => Name.BaseConfig_kUserAgent
  | Sum.inl 28 => Name.BaseConfig_kTitle
  | Sum.inl 29 => Name.BaseConfig_kTls
  | Sum.inl 30 => Name.BaseConfig_kCCClient
  | Sum.inl 31 => Name.BaseConfig_kBackground
  | Sum.inl 32 => Name.BaseConfig_kSyslog
  | Sum.inl 33 => Name.BaseConfig_kColors
  | Sum.inl 34 => Name.BaseConfig_kDryRun
  | Sum.inl 35 => Name.BaseConfig_kVerbose
  | Sum.inl 36 => Name.BaseConfig_kPrintTime
  | Sum.inl 37 => Name.BaseConfig_kDaemonized
  | Sum.inl 38 => Name.Http_kToken
  | Sum.inl 39 => Name.Http_kHost
  | Sum.inl 40 => Name.Http_kRestricted
  | Sum.inl 41 => Name.Http_kEnabled
  | Sum.inl 42 => Name.Http_kPort
  | Sum.inl 43 => Name.TlsConfig_kCert
  | Sum.inl 44 => Name.TlsConfig_kCertKey
  | Sum.inl 45 => Name.TlsConfig_kDhparam
  | Sum.inl 46 => Name.TlsConfig_kCiphers
  | Sum.inl 47 => Name.TlsConfig_kCipherSuites
  | Sum.inl 48 => Name.TlsConfig_kProtocols
  | Sum.inl 49 => Name.TlsConfig_kGen
  | Sum.inl 50 => Name.CCClientConfig_kRebootCmd
  | Sum.inl 51 => Name.CCClientConfig_kWorkerId
  | Sum.inl 52 => Name.CCClientConfig_kServers
  | Sum.inl 53 => Name.CCClientConfig_kUrl
  | Sum.inl 54 => Name.CCClientConfig_kAccessToken
  | Sum.inl 55 => Name.CCClientConfig_kProxyServer
  | Sum.inl 56 => Name.CCClientConfig_kSocksProxyServer
  | Sum.inl 57 => Name.CCClientConfig_kEnabled
  | Sum.inl 58 => Name.CCClientConfig_kUploadConfigOnStartup
  | Sum.inl 59 => Name.CCClientConfig_kUseRemoteLog
  | Sum.inl 60 => Name.CCClientConfig_kUseTLS
  | Sum.inl 61 => Name.CCClientConfig_kUpdateInterval
  | Sum.inl 62 => Name.CCClientConfig_kRetriesToFailover
  | Sum.inl 63 => Name.DnsConfig_kField
  | Sum.inl 64 => Name.DnsConfig_kIPv
  | Sum.inl 65 => Name.DnsConfig_kTTL
  | Sum.inl _ => Name.Pools_kPools
  | Sum.inr text => Name.other text

/-- Equality of member names is decidable: two names are equal exactly when
their codes are. -/
instance : DecidableEq Name := fun a b =>
  decidable_of_iff (a.toCode = b.toCode)
    ⟨fun h => by
      have ha : Name.ofCode (Name.toCode a) = a := by cases a <;> rfl
      have hb : Name.ofCode (Name.toCode b) = b := by cases b <;> rfl
      rw [← ha, ← hb, h],
     fun h => by rw [h]⟩

/-- A `rapidjson::Value`: null, boolean, `int`, `uint64_t`, text, array, or
object with its members in insertion order. -/
inductive Json where
  | null
  | bool (b : Bool)
  | int (i : Int)
  | uint64 (n : Nat)
  | str (s : String)
  | array (items : List Json)
  | object (members : List (Name × Json))

/-- The members of a JSON object, in insertion order. -/
abbrev Members := List (Name × Json)

/-- A `rapidjson::Document` of object type, as `load` creates it
(`Document doc(kObjectType)`); a configuration fragment. -/
abbrev Document := Members

/-- `obj.FindMember(key)`: the value of the first member named `key`. -/
def FindMember : Members → Name → Option Json
  | [], _ => none
  | (n, v) :: ms, key => if n = key then some v else FindMember ms key

/-- `obj.HasMember(key)`. -/
def HasMember (obj : Members) (key : Name) : Bool :=
  (FindMember obj key).isSome

/-- `obj[key] = value`: the first member named `key` takes the new value. -/
def assign : Members → Name → Json → Members
  | [], _, _ => []
  | (n, v) :: ms, key, value =>
    if n = key then (n, value) :: ms else (n, v) :: assign ms key value

/-- `obj.AddMember(key, value, allocator)`: a new last member. -/
def AddMember (obj : Members) (key : Name) (value : Json) : Members :=
  obj ++ [(key, value)]

/-- `IsObject()`. -/
def Json.IsObject : Json → Bool
  | Json.object _ => true
  | _ => false

/-- Modelled from the spec: the enumeration `IConfig::Keys` is declared in a
header that is not among the sources. One constructor per option key named in
`BaseTransform.cpp`; `OtherKey` is any key its switches leave to `default`. -/
inductive IConfig where
  | AlgorithmKey | CoinKey | UserpassKey | UrlKey | StressKey | UserKey
  | PasswordKey | SpendSecretKey | RigIdKey | FingerprintKey | SelfSelectKey
  | ProxyKey | LogFileKey | HttpAccessTokenKey | HttpHostKey | ApiWorkerIdKey
  | ApiIdKey | UserAgentKey | TitleKey
  | TlsCertKey | TlsCertKeyKey | TlsDHparamKey | TlsCiphersKey
  | TlsCipherSuitesKey | TlsProtocolsKey | TlsGenKey
  | CCRebootCmd | CCWorkerId | CCUrl | CCAccessToken | CCProxyServer
  | CCSocksProxyServer
  | RetriesKey | RetryPauseKey | PrintTimeKey | HttpPort | DonateLevelKey
  | DaemonPollKey | DaemonJobTimeoutKey | DnsTtlKey | DaemonZMQPortKey
  | CCUpdateInterval | CCRetriesToFailover
  | BackgroundKey | SyslogKey | KeepAliveKey | NicehashKey | TlsKey | DryRunKey
  | HttpEnabledKey | DaemonKey | SubmitToOriginKey | VerboseKey | DnsIPv4Key
  | DnsIPv6Key | CCDaemonizedKey | CCUploadConfigOnStartup | CCUseRemoteLog
  | CCUseTLS
  | ColorKey | HttpRestrictedKey | NoTitleKey | CCEnabledKey
  | ConfigKey
  | OtherKey
  deriving DecidableEq, Repr

/-- The preprocessor switches read by `BaseTransform.cpp`. -/
structure Features where
  XMRIG_FEATURE_TLS : Bool
  XMRIG_FEATURE_CC_CLIENT : Bool
  XMRIG_FEATURE_HTTP : Bool
  XMRIG_PROXY_PROJECT : Bool
  deriving DecidableEq, Repr

/-- What `BaseTransform.cpp` calls in classes that are not among the sources:
validity and JSON form of the algorithm and of the coin built from an option
text, validity of a pool URL, and `CCClientConfig::Server(value).isValid()`. -/
structure Parsers where
  algorithmIsValid : String → Bool
  algorithmToJSON : String → Json
  coinIsValid : String → Bool
  coinToJSON : String → Json
  urlIsValid : String → Bool
  serverIsValid : Json → Bool

/-- Modelled from the spec: `base/net/stratum/Pool.h` is not among the sources.
`Pool(value).isValid()`: a pool object is complete once it has a URL, here a
text member `url` that is a valid pool URL. -/
def Pool.isValid (P : Parsers) : Json → Bool
  | Json.object ms =>
    match FindMember ms Name.Pool_kUrl with
    | some (Json.str url) => P.urlIsValid url
    | _ => false
  | _ => false

/-- Modelled from the spec: `BaseTransform.h` is not among the sources. The
data members of `class BaseTransform`: the algorithm and the coin, each as the
option text it was last assigned from (`none` while default-constructed, which
is not valid), and the flag `m_http`. -/
structure BaseTransform where
  m_algorithm : Option String
  m_coin : Option String
  m_http : Bool
  deriving DecidableEq, Repr

namespace BaseTransform

/-- Modelled from the spec: `BaseTransform.h` is not among the sources. A newly
constructed transform holds no algorithm, no coin, and `m_http = false`. -/
def init : BaseTransform := ⟨none, none, false⟩

/-- `m_algorithm.isValid()`. -/
def algorithmIsValid (P : Parsers) (t : BaseTransform) : Bool :=
  match t.m_algorithm with
  | some a => P.algorithmIsValid a
  | none => false

/-- `m_algorithm.toJSON()`. -/
def algorithmToJSON (P : Parsers) (t : BaseTransform) : Json :=
  match t.m_algorithm with
  | some a => P.algorithmToJSON a
  | none => Json.null

/-- `m_coin.isValid()`. -/
def coinIsValid (P : Parsers) (t : BaseTransform) : Bool :=
  match t.m_coin with
  | some c => P.coinIsValid c
  | none => false

/-- `m_coin.toJSON()`. -/
def coinToJSON (P : Parsers) (t : BaseTransform) : Json :=
  match t.m_coin with
  | some c => P.coinToJSON c
  | none => Json.null

/-- Modelled from the spec: `BaseTransform.h` is not among the sources.
`set(doc, obj, key, value)`, the scalar set on one object: overwrite the member
`key` when the object has it, add it otherwise. -/
def set_obj (obj : Members) (key : Name) (value : Json) : Members :=
  if HasMember obj key then assign obj key value else AddMember obj key value

/-- Modelled from the spec: `BaseTransform.h` is not among the sources.
`set(doc, key, value)`: the scalar set on the fragment itself. -/
def set_key (doc : Document) (key : Name) (value : Json) : Document :=
  set_obj doc key value

/-- Modelled from the spec: `BaseTransform.h` is not among the sources.
`set(doc, objKey, key, value)`: the scalar set inside the object member
`objKey`, which is created empty when the fragment lacks it. A member `objKey`
that is not an object has no members to search: `none`. -/
def set_objKey (doc : Document) (objKey key : Name) (value : Json) : Option Document :=
  let doc := if !HasMember doc objKey then AddMember doc objKey (Json.object []) else doc
  match FindMember doc objKey with
  | some (Json.object ms) => some (assign doc objKey (Json.object (set_obj ms key value)))
  | _ => none

/-- The array `items` with `set(doc, array[array.Size() - 1], key, value)`
applied to its last element, which has to be an object. -/
def set_last (items : List Json) (key : Name) (value : Json) : Option (List Json) :=
  match items.getLast? with
  | some (Json.object ms) => some (items.dropLast ++ [Json.object (set_obj ms key value)])
  | _ => none

/-- Modelled from the spec: `BaseTransform.h` is not among the sources.
`add(doc, arrayKey, key, value)`, the pool patch: operate on the last element
of the array member `arrayKey`. The array is created when the fragment lacks it
and receives a first, empty object when it has no element. The spec lets a
patch start an element only after a complete one and has repeated `--user`,
`--pass`, `--url` build one object, not one per flag: the patch starts no
element in an array that has one. A member `arrayKey` that is not an array, or
a last element that is not an object, gives `none`. -/
def add (doc : Document) (arrayKey key : Name) (value : Json) : Option Document :=
  let doc := if !HasMember doc arrayKey then AddMember doc arrayKey (Json.array []) else doc
  match FindMember doc arrayKey with
  | some (Json.array items) =>
    let items := if items.length = 0 then items ++ [Json.object []] else items
    match set_last items key value with
    | some items => some (assign doc arrayKey (Json.array items))
    | none => none
  | _ => none

/-- Modelled from the spec: `BaseTransform.h` is not among the sources.
`addToNode(doc, nodeKey, arrayKey, key, value)`: the same patch on the array
member `arrayKey` of the object member `nodeKey`, both created when absent, as
the `CCUrl` case of `transform` creates them. -/
def addToNode (doc : Document) (nodeKey arrayKey key : Name) (value : Json) :
    Option Document :=
  let doc := if !HasMember doc nodeKey then AddMember doc nodeKey (Json.object []) else doc
  match FindMember doc nodeKey with
  | some (Json.object node) =>
    let node := if !HasMember node arrayKey then AddMember node arrayKey (Json.array []) else node
    match FindMember node arrayKey with
    | some (Json.array items) =>
      let items := if items.length = 0 then items ++ [Json.object []] else items
      match set_last items key value with
      | some items =>
        some (assign doc nodeKey (Json.object (assign node arrayKey (Json.array items))))
      | none => none
    | _ => none
  | _ => none

/-- The test `array.Size() == 0 || Pool(array[array.Size() - 1]).isValid()`. -/
def startsPool (P : Parsers) (items : List Json) : Bool :=
  match items.getLast? with
  | none => true
  | some last => Pool.isValid P last

/-- The test `array.Size() == 0 || CCClientConfig::Server(array[array.Size() - 1]).isValid()`. -/
def startsServer (P : Parsers) (items : List Json) : Bool :=
  match items.getLast? with
  | none => true
  | some last => P.serverIsValid last

/-- `isspace` of `<cctype>` in the C locale. -/
def isspace (c : Char) : Bool :=
  c = ' ' ∨ (9 ≤ c.toNat ∧ c.toNat ≤ 13)

/-- The value of the leading decimal digits of a text, continuing from `acc`. -/
def digits : List Char → Nat → Nat
  | [], acc => acc
  | c :: cs, acc =>
    if 48 ≤ c.toNat ∧ c.toNat ≤ 57 then digits cs (acc * 10 + (c.toNat - 48)) else acc

/-- `strtol(arg, nullptr, 10)` with a 64-bit `long`: leading white space, an
optional sign, then decimal digits; 0 without digits, and the nearest of
`LONG_MIN` and `LONG_MAX` when the number is out of range. -/
def strtol (arg : String) : Int :=
  match arg.data.dropWhile isspace with
  | '-' :: rest =>
    if digits rest 0 > 2 ^ 63 then -(2 ^ 63 : Int) else -(digits rest 0 : Int)
  | '+' :: rest =>
    if digits rest 0 > 2 ^ 63 - 1 then (2 ^ 63 - 1 : Int) else (digits rest 0 : Int)
  | rest =>
    if digits rest 0 > 2 ^ 63 - 1 then (2 ^ 63 - 1 : Int) else (digits rest 0 : Int)

/-- `static_cast<uint64_t>(value)` of a `long`. -/
def toUint64 (value : Int) : Nat :=
  (value % (2 ^ 64 : Int)).toNat

/-- `strrchr(arg, c)`, as the offset `p - arg` of the last occurrence of `c`;
`none` for the null pointer. -/
def strrchr : List Char → Char → Option Nat
  | [], _ => none
  | x :: xs, c =>
    match strrchr xs c with
    | some i => some (i + 1)
    | none => if x = c then some 0 else none

/-- Pair a resulting fragment with the members of the transform. -/
def withState (t : BaseTransform) (doc : Option Document) : Option (BaseTransform × Document) :=
  doc.map (fun d => (t, d))

/-- `void BaseTransform::transformBoolean(rapidjson::Document &doc, int key, bool enable)`. -/
def transformBoolean (F : Features) (t : BaseTransform) (doc : Document) (key : IConfig)
    (enable : Bool) : Option (BaseTransform × Document) :=
  match key with
  | IConfig.BackgroundKey =>
    some (t, set_key doc Name.BaseConfig_kBackground (Json.bool enable))
  | IConfig.SyslogKey =>
    some (t, set_key doc Name.BaseConfig_kSyslog (Json.bool enable))
  | IConfig.KeepAliveKey =>
    withState t (add doc Name.Pools_kPools Name.Pool_kKeepalive (Json.bool enable))
  | IConfig.TlsKey =>
    withState t (add doc Name.Pools_kPools Name.Pool_kTls (Json.bool enable))
  | IConfig.SubmitToOriginKey =>
    withState t (add doc Name.Pools_kPools Name.Pool_kSubmitToOrigin (Json.bool enable))
  | IConfig.DaemonKey =>
    if F.XMRIG_FEATURE_HTTP then
      withState t (add doc Name.Pools_kPools Name.Pool_kDaemon (Json.bool enable))
    else some (t, doc)
  | IConfig.NicehashKey =>
    if !F.XMRIG_PROXY_PROJECT then
      withState t (add doc Name.Pools_kPools Name.Pool_kNicehash (Json.bool enable))
    else some (t, doc)
  | IConfig.ColorKey =>
    some (t, set_key doc Name.BaseConfig_kColors (Json.bool enable))
  | IConfig.HttpRestrictedKey =>
    -- m_http = true;
    withState { t with m_http := true }
      (set_objKey doc Name.BaseConfig_kHttp Name.Http_kRestricted (Json.bool enable))
  | IConfig.HttpEnabledKey =>
    -- m_http = true; break;
    some ({ t with m_http := true }, doc)
  | IConfig.DryRunKey =>
    some (t, set_key doc Name.BaseConfig_kDryRun (Json.bool enable))
  | IConfig.VerboseKey =>
    some (t, set_key doc Name.BaseConfig_kVerbose (Json.bool enable))
  | IConfig.NoTitleKey =>
    some (t, set_key doc Name.BaseConfig_kTitle (Json.bool enable))
  | IConfig.DnsIPv4Key =>
    withState t (set_objKey doc Name.DnsConfig_kField Name.DnsConfig_kIPv (Json.int 4))
  | IConfig.DnsIPv6Key =>
    withState t (set_objKey doc Name.DnsConfig_kField Name.DnsConfig_kIPv (Json.int 6))
  | IConfig.CCDaemonizedKey =>
    some (t, set_key doc Name.BaseConfig_kDaemonized (Json.bool enable))
  | IConfig.CCEnabledKey =>
    if F.XMRIG_FEATURE_CC_CLIENT then
      withState t (set_objKey doc Name.BaseConfig_kCCClient Name.CCClientConfig_kEnabled
        (Json.bool enable))
    else some (t, doc)
  | IConfig.CCUploadConfigOnStartup =>
    if F.XMRIG_FEATURE_CC_CLIENT then
      withState t (set_objKey doc Name.BaseConfig_kCCClient
        Name.CCClientConfig_kUploadConfigOnStartup (Json.bool enable))
    else some (t, doc)
  | IConfig.CCUseRemoteLog =>
    if F.XMRIG_FEATURE_CC_CLIENT then
      withState t (set_objKey doc Name.BaseConfig_kCCClient Name.CCClientConfig_kUseRemoteLog
        (Json.bool enable))
    else some (t, doc)
  | IConfig.CCUseTLS =>
    if F.XMRIG_FEATURE_CC_CLIENT then
      withState t (addToNode doc Name.BaseConfig_kCCClient Name.CCClientConfig_kServers
        Name.CCClientConfig_kUseTLS (Json.bool enable))
    else some (t, doc)
  | _ => some (t, doc)

/-- `void BaseTransform::transformUint64(rapidjson::Document &doc, int key, uint64_t arg)`. -/
def transformUint64 (F : Features) (t : BaseTransform) (doc : Document) (key : IConfig)
    (arg : Nat) : Option (BaseTransform × Document) :=
  match key with
  | IConfig.RetriesKey =>
    some (t, set_key doc Name.Pools_kRetries (Json.uint64 arg))
  | IConfig.RetryPauseKey =>
    some (t, set_key doc Name.Pools_kRetryPause (Json.uint64 arg))
  | IConfig.DonateLevelKey =>
    some (t, set_key doc Name.Pools_kDonateLevel (Json.uint64 arg))
  | IConfig.HttpPort =>
    -- m_http = true;
    withState { t with m_http := true }
      (set_objKey doc Name.BaseConfig_kHttp Name.Http_kPort (Json.uint64 arg))
  | IConfig.PrintTimeKey =>
    some (t, set_key doc Name.BaseConfig_kPrintTime (Json.uint64 arg))
  | IConfig.DnsTtlKey =>
    withState t (set_objKey doc Name.DnsConfig_kField Name.DnsConfig_kTTL (Json.uint64 arg))
  | IConfig.DaemonPollKey =>
    if F.XMRIG_FEATURE_HTTP then
      withState t (add doc Name.Pools_kPools Name.Pool_kDaemonPollInterval (Json.uint64 arg))
    else some (t, doc)
  | IConfig.DaemonJobTimeoutKey =>
    if F.XMRIG_FEATURE_HTTP then
      withState t (add doc Name.Pools_kPools Name.Pool_kDaemonJobTimeout (Json.uint64 arg))
    else some (t, doc)
  | IConfig.DaemonZMQPortKey =>
    if F.XMRIG_FEATURE_HTTP then
      withState t (add doc Name.Pools_kPools Name.Pool_kDaemonZMQPort (Json.uint64 arg))
    else some (t, doc)
  | IConfig.CCUpdateInterval =>
    if F.XMRIG_FEATURE_CC_CLIENT then
      withState t (set_objKey doc Name.BaseConfig_kCCClient Name.CCClientConfig_kUpdateInterval
        (Json.uint64 arg))
    else some (t, doc)
  | IConfig.CCRetriesToFailover =>
    if F.XMRIG_FEATURE_CC_CLIENT then
      withState t (set_objKey doc Name.BaseConfig_kCCClient
        Name.CCClientConfig_kRetriesToFailover (Json.uint64 arg))
    else some (t, doc)
  | _ => some (t, doc)

/-- The `UserpassKey` case of `transform`: split `arg` at its last `:`. -/
def transformUserpass (t : BaseTransform) (doc : Document) (arg : String) :
    Option (BaseTransform × Document) :=
  -- const char *p = strrchr(arg, ':'); if (!p) return;
  match strrchr arg.data ':' with
  | none => some (t, doc)
  | some p =>
    -- char *user = new char[p - arg + 1](); strncpy(user, arg, p - arg);
    let user := String.mk (arg.data.take p)
    -- add(doc, Pools::kPools, Pool::kUser, user);
    match add doc Name.Pools_kPools Name.Pool_kUser (Json.str user) with
    | none => none
    | some doc =>
      -- add(doc, Pools::kPools, Pool::kPass, p + 1);
      withState t (add doc Name.Pools_kPools Name.Pool_kPass
        (Json.str (String.mk (arg.data.drop (p + 1)))))

/-- The `UrlKey` and `StressKey` case of `transform`. -/
def transformUrl (P : Parsers) (t : BaseTransform) (doc : Document) (arg : String) :
    Option (BaseTransform × Document) :=
  let doc := if !HasMember doc Name.Pools_kPools then
      AddMember doc Name.Pools_kPools (Json.array []) else doc
  -- rapidjson::Value &array = doc[Pools::kPools];
  match FindMember doc Name.Pools_kPools with
  | some (Json.array array) =>
    -- if (array.Size() == 0 || Pool(array[array.Size() - 1]).isValid()) array.PushBack(kObjectType)
    let array := if startsPool P array then array ++ [Json.object []] else array
    -- set(doc, array[array.Size() - 1], Pool::kUrl, arg);
    match set_last array Name.Pool_kUrl (Json.str arg) with
    | some array => some (t, assign doc Name.Pools_kPools (Json.array array))
    | none => none
  | _ => none

/-- The `CCUrl` case of `transform`. -/
def transformCCUrl (P : Parsers) (t : BaseTransform) (doc : Document) (arg : String) :
    Option (BaseTransform × Document) :=
  let doc := if !HasMember doc Name.BaseConfig_kCCClient then
      AddMember doc Name.BaseConfig_kCCClient (Json.object []) else doc
  -- rapidjson::Value& object = doc[BaseConfig::kCCClient];
  match FindMember doc Name.BaseConfig_kCCClient with
  | some (Json.object object) =>
    let object := if !HasMember object Name.CCClientConfig_kServers then
        AddMember object Name.CCClientConfig_kServers (Json.array []) else object
    -- rapidjson::Value& array = doc[BaseConfig::kCCClient][CCClientConfig::kServers];
    match FindMember object Name.CCClientConfig_kServers with
    | some (Json.array array) =>
      let array := if startsServer P array then array ++ [Json.object []] else array
      -- set(doc, array[array.Size() - 1], CCClientConfig::kUrl, arg);
      match set_last array Name.CCClientConfig_kUrl (Json.str arg) with
      | some array =>
        some (t, assign doc Name.BaseConfig_kCCClient
          (Json.object (assign object Name.CCClientConfig_kServers (Json.array array))))
      | none => none
    | _ => none
  | _ => none

/-- `void BaseTransform::transform(rapidjson::Document &doc, int key, const char *arg)`.
The result pairs the members of the transform with the fragment. -/
def transform (F : Features) (P : Parsers) (t : BaseTransform) (doc : Document)
    (key : IConfig) (arg : String) : Option (BaseTransform × Document) :=
  match key with
  | IConfig.AlgorithmKey =>
    if !HasMember doc Name.Pools_kPools then some ({ t with m_algorithm := some arg }, doc)
    else withState t (add doc Name.Pools_kPools Name.Pool_kAlgo (Json.str arg))
  | IConfig.CoinKey =>
    if !HasMember doc Name.Pools_kPools then some ({ t with m_coin := some arg }, doc)
    else withState t (add doc Name.Pools_kPools Name.Pool_kCoin (Json.str arg))
  | IConfig.UserpassKey => transformUserpass t doc arg
  | IConfig.UrlKey | IConfig.StressKey => transformUrl P t doc arg
  | IConfig.UserKey =>
    withState t (add doc Name.Pools_kPools Name.Pool_kUser (Json.str arg))
  | IConfig.PasswordKey =>
    withState t (add doc Name.Pools_kPools Name.Pool_kPass (Json.str arg))
  | IConfig.SpendSecretKey =>
    withState t (add doc Name.Pools_kPools Name.Pool_kSpendSecretKey (Json.str arg))
  | IConfig.RigIdKey =>
    withState t (add doc Name.Pools_kPools Name.Pool_kRigId (Json.str arg))
  | IConfig.FingerprintKey =>
    withState t (add doc Name.Pools_kPools Name.Pool_kFingerprint (Json.str arg))
  | IConfig.SelfSelectKey =>
    withState t (add doc Name.Pools_kPools Name.Pool_kSelfSelect (Json.str arg))
  | IConfig.ProxyKey =>
    withState t (add doc Name.Pools_kPools Name.Pool_kSOCKS5 (Json.str arg))
  | IConfig.LogFileKey =>
    some (t, set_key doc Name.BaseConfig_kLogFile (Json.str arg))
  | IConfig.HttpAccessTokenKey =>
    -- m_http = true;
    withState { t with m_http := true }
      (set_objKey doc Name.BaseConfig_kHttp Name.Http_kToken (Json.str arg))
  | IConfig.HttpHostKey =>
    -- m_http = true;
    withState { t with m_http := true }
      (set_objKey doc Name.BaseConfig_kHttp Name.Http_kHost (Json.str arg))
  | IConfig.ApiWorkerIdKey =>
    withState t (set_objKey doc Name.BaseConfig_kApi Name.BaseConfig_kApiWorkerId (Json.str arg))
  | IConfig.ApiIdKey =>
    withState t (set_objKey doc Name.BaseConfig_kApi Name.BaseConfig_kApiId (Json.str arg))
  | IConfig.UserAgentKey =>
    some (t, set_key doc Name.BaseConfig_kUserAgent (Json.str arg))
  | IConfig.TitleKey =>
    some (t, set_key doc Name.BaseConfig_kTitle (Json.str arg))
  | IConfig.TlsCertKey =>
    if F.XMRIG_FEATURE_TLS then
      withState t (set_objKey doc Name.BaseConfig_kTls Name.TlsConfig_kCert (Json.str arg))
    else some (t, doc)
  | IConfig.TlsCertKeyKey =>
    if F.XMRIG_FEATURE_TLS then
      withState t (set_objKey doc Name.BaseConfig_kTls Name.TlsConfig_kCertKey (Json.str arg))
    else some (t, doc)
  | IConfig.TlsDHparamKey =>
    if F.XMRIG_FEATURE_TLS then
      withState t (set_objKey doc Name.BaseConfig_kTls Name.TlsConfig_kDhparam (Json.str arg))
    else some (t, doc)
  | IConfig.TlsCiphersKey =>
    if F.XMRIG_FEATURE_TLS then
      withState t (set_objKey doc Name.BaseConfig_kTls Name.TlsConfig_kCiphers (Json.str arg))
    else some (t, doc)
  | IConfig.TlsCipherSuitesKey =>
    if F.XMRIG_FEATURE_TLS then
      withState t (set_objKey doc Name.BaseConfig_kTls Name.TlsConfig_kCipherSuites
        (Json.str arg))
    else some (t, doc)
  | IConfig.TlsProtocolsKey =>
    if F.XMRIG_FEATURE_TLS then
      withState t (set_objKey doc Name.BaseConfig_kTls Name.TlsConfig_kProtocols (Json.str arg))
    else some (t, doc)
  | IConfig.TlsGenKey =>
    if F.XMRIG_FEATURE_TLS then
      withState t (set_objKey doc Name.BaseConfig_kTls Name.TlsConfig_kGen (Json.str arg))
    else some (t, doc)
  | IConfig.CCRebootCmd =>
    if F.XMRIG_FEATURE_CC_CLIENT then
      withState t (set_objKey doc Name.BaseConfig_kCCClient Name.CCClientConfig_kRebootCmd
        (Json.str arg))
    else some (t, doc)
  | IConfig.CCWorkerId =>
    if F.XMRIG_FEATURE_CC_CLIENT then
      withState t (set_objKey doc Name.BaseConfig_kCCClient Name.CCClientConfig_kWorkerId
        (Json.str arg))
    else some (t, doc)
  | IConfig.CCUrl =>
    if F.XMRIG_FEATURE_CC_CLIENT then transformCCUrl P t doc arg else some (t, doc)
  | IConfig.CCAccessToken =>
    if F.XMRIG_FEATURE_CC_CLIENT then
      withState t (addToNode doc Name.BaseConfig_kCCClient Name.CCClientConfig_kServers
        Name.CCClientConfig_kAccessToken (Json.str arg))
    else some (t, doc)
  | IConfig.CCProxyServer =>
    if F.XMRIG_FEATURE_CC_CLIENT then
      withState t (addToNode doc Name.BaseConfig_kCCClient Name.CCClientConfig_kServers
        Name.CCClientConfig_kProxyServer (Json.str arg))
    else some (t, doc)
  | IConfig.CCSocksProxyServer =>
    if F.XMRIG_FEATURE_CC_CLIENT then
      withState t (addToNode doc Name.BaseConfig_kCCClient Name.CCClientConfig_kServers
        Name.CCClientConfig_kSocksProxyServer (Json.str arg))
    else some (t, doc)
  | IConfig.RetriesKey | IConfig.RetryPauseKey | IConfig.PrintTimeKey | IConfig.HttpPort
  | IConfig.DonateLevelKey | IConfig.DaemonPollKey | IConfig.DaemonJobTimeoutKey
  | IConfig.DnsTtlKey | IConfig.DaemonZMQPortKey | IConfig.CCUpdateInterval
  | IConfig.CCRetriesToFailover =>
    transformUint64 F t doc key (toUint64 (strtol arg))
  | IConfig.BackgroundKey | IConfig.SyslogKey | IConfig.KeepAliveKey | IConfig.NicehashKey
  | IConfig.TlsKey | IConfig.DryRunKey | IConfig.HttpEnabledKey | IConfig.DaemonKey
  | IConfig.SubmitToOriginKey | IConfig.VerboseKey | IConfig.DnsIPv4Key | IConfig.DnsIPv6Key
  | IConfig.CCDaemonizedKey | IConfig.CCUploadConfigOnStartup | IConfig.CCUseRemoteLog
  | IConfig.CCUseTLS =>
    transformBoolean F t doc key true
  | IConfig.ColorKey | IConfig.HttpRestrictedKey | IConfig.NoTitleKey | IConfig.CCEnabledKey =>
    transformBoolean F t doc key false
  | _ => some (t, doc)

/-- The loop `for (Value &pool : pools.GetArray()) if (!pool.HasMember(key))
pool.AddMember(key, value)` of `finalize`; an element that is not an object has
no members to search: `none`. -/
def backfill : List Json → Name → Json → Option (List Json)
  | [], _, _ => some []
  | Json.object pool :: rest, key, value =>
    match backfill rest key value with
    | some rest => some (Json.object (if !HasMember pool key then AddMember pool key value
        else pool) :: rest)
    | none => none
  | _ :: _, _, _ => none

/-- One of the two back-fill blocks of `finalize`: when `valid` holds and the
fragment has a `pools` member, run the loop over it. -/
def backfillPools (doc : Document) (valid : Bool) (key : Name) (value : Json) :
    Option Document :=
  if valid && HasMember doc Name.Pools_kPools then
    match FindMember doc Name.Pools_kPools with
    | some (Json.array pools) =>
      match backfill pools key value with
      | some pools => some (assign doc Name.Pools_kPools (Json.array pools))
      | none => none
    | _ => none
  else some doc

/-- `void BaseTransform::finalize(rapidjson::Document &doc)`. -/
def finalize (P : Parsers) (t : BaseTransform) (doc : Document) : Option Document :=
  match backfillPools doc (t.algorithmIsValid P) Name.Pool_kAlgo (t.algorithmToJSON P) with
  | none => none
  | some doc =>
    match backfillPools doc (t.coinIsValid P) Name.Pool_kCoin (t.coinToJSON P) with
    | none => none
    | some doc =>
      if t.m_http then
        set_objKey doc Name.BaseConfig_kHttp Name.Http_kEnabled (Json.bool true)
      else some doc

/-- A call on the `JsonChain` made by `load`. -/
inductive ChainCall where
  /-- The call `chain.add(std::move(doc))`. -/
  | add (doc : Document)
  /-- The call `chain.addFile(optarg)`. -/
  | addFile (fileName : String)

/-- The `while (true)` loop of `load` over the options `getopt_long` returns,
each a key with its `optarg`; `doc` is the fragment being built and `chain` the
calls made so far. -/
def loadLoop (F : Features) (P : Parsers) :
    List (IConfig × String) → BaseTransform → Document → List ChainCall →
      Option (BaseTransform × Document × List ChainCall)
  | [], t, doc, chain => some (t, doc, chain)
  | (key, optarg) :: rest, t, doc, chain =>
    if key = IConfig.ConfigKey then
      -- chain.add(std::move(doc)); chain.addFile(optarg); doc = Document(kObjectType);
      loadLoop F P rest t [] (chain ++ [ChainCall.add doc, ChainCall.addFile optarg])
    else
      match transform F P t doc key optarg with
      | none => none
      | some (t, doc) => loadLoop F P rest t doc chain

/-- `void BaseTransform::load(JsonChain &chain, Process *process, IConfigTransform &transform)`,
with the `transform` and `finalize` of `BaseTransform`. `options` are the
options in command-line order, `argv0` is `argv[0]` and `nonOption` the first
non-option argument when there is one. The result is the transform after the
scan, the calls made on the chain and the log lines. -/
def load (F : Features) (P : Parsers) (argv0 : String) (options : List (IConfig × String))
    (nonOption : Option String) (t : BaseTransform) :
    Option (BaseTransform × List ChainCall × List Effect) :=
  match loadLoop F P options t [] [] with
  | none => none
  | some (t, doc, chain) =>
    -- if (optind < argc) LOG_WARN(...)
    let log := match nonOption with
      | some a => [Effect.log LogLevel.WARN (argv0 ++ ": unsupported non-option argument "
          ++ String.singleton (Char.ofNat 39) ++ a ++ String.singleton (Char.ofNat 39))]
      | none => []
    -- transform.finalize(doc); chain.add(std::move(doc));
    match finalize P t doc with
    | none => none
    | some doc => some (t, chain ++ [ChainCall.add doc], log)

/-- The element a pool patch operates on, for the statements below: `pre` are
the elements of the `pools` array before it and `ms` its members. It is the
last element of the array, or a new empty object after no element when the
fragment has no `pools` member or an empty array. -/
def PoolTarget (doc : Document) (pre : List Json) (ms : Members) : Prop :=
  (FindMember doc Name.Pools_kPools = none ∧ pre = [] ∧ ms = []) ∨
  (FindMember doc Name.Pools_kPools = some (Json.array []) ∧ pre = [] ∧ ms = []) ∨
  FindMember doc Name.Pools_kPools = some (Json.array (pre ++ [Json.object ms]))

/-- The options `--url url_1 --user user_1 ... --url url_n --user user_n`, for
the statements below. -/
def urlUserOptions : List (String × String) → List (IConfig × String)
  | [] => []
  | (url, user) :: rest =>
    (IConfig.UrlKey, url) :: (IConfig.UserKey, user) :: urlUserOptions rest

/-- The pool object with the members `url` and `user`, in this order, for the
statements below. -/
def urlUserPool (pair : String × String) : Json :=
  Json.object [(Name.Pool_kUrl, Json.str pair.1), (Name.Pool_kUser, Json.str pair.2)]

/-- An array all of whose elements are objects, for the statements below. -/
def IsObjectArray : Json → Prop
  | Json.array items => ∀ p ∈ items, Json.IsObject p = true
  | _ => False

/-- The shape `transform` gives to the value of a top-level member, for the
statements below: `pools` is an array of objects, `cc-client` an object whose
`servers` member, when present, is an array of objects, and the `http`, `api`,
`tls` and `dns` members are objects. -/
def Shape (k : Name) (v : Json) : Prop :=
  if k = Name.Pools_kPools then IsObjectArray v
  else if k = Name.BaseConfig_kCCClient then
    match v with
    | Json.object node =>
      ∀ w, FindMember node Name.CCClientConfig_kServers = some w → IsObjectArray w
    | _ => False
  else if k = Name.BaseConfig_kHttp ∨ k = Name.BaseConfig_kApi ∨ k = Name.BaseConfig_kTls
      ∨ k = Name.DnsConfig_kField then Json.IsObject v = true
  else True

/-- A fragment every member of which has the shape `transform` gives it, for
the statements below. The empty fragment is one. -/
def WellFormed (doc : Document) : Prop :=
  ∀ k v, FindMember doc k = some v → Shape k v

/-- The options `--http-enabled`, `--http-host`, `--http-port`,
`--http-access-token` and `--http-no-restricted`, for the statements below. -/
def isHttpKey : IConfig → Bool
  | IConfig.HttpEnabledKey | IConfig.HttpHostKey | IConfig.HttpPort
  | IConfig.HttpAccessTokenKey | IConfig.HttpRestrictedKey => true
  | _ => false

/-- The options of a command line made of a first run of options and, for each
`--config` in turn, its file name and the run of options after it; for the
statements below. -/
def optionsOf : List (IConfig × String) → List (String × List (IConfig × String)) →
    List (IConfig × String)
  | first, [] => first
  | first, (file, segment) :: rest =>
    first ++ (IConfig.ConfigKey, file) :: optionsOf segment rest

/-- The options of one run transformed in order, for the statements below. -/
def transformAll (F : Features) (P : Parsers) :
    List (IConfig × String) → BaseTransform → Document → Option (BaseTransform × Document)
  | [], t, doc => some (t, doc)
  | (key, arg) :: rest, t, doc =>
    match transform F P t doc key arg with
    | none => none
    | some (t, doc) => transformAll F P rest t doc

/-- The fragment built only from one run of options, after the spec: the
options are transformed in order by a new transform, starting from the empty
fragment. -/
def fragmentOf (F : Features) (P : Parsers) (segment : List (IConfig × String)) :
    Option Document :=
  (transformAll F P segment init []).map Prod.snd

/-- The calls the chain is to receive, after the spec: the fragment of the
first run, then for each `--config` its file followed by the fragment of the
run after it, each fragment built only from its own run; `finish` is applied to
the last fragment. -/
def ChainMatches (F : Features) (P : Parsers) (finish : Document → Option Document) :
    List ChainCall → List (IConfig × String) → List (String × List (IConfig × String)) → Prop
  | chain, segment, [] =>
    ∃ d dl, fragmentOf F P segment = some d ∧ finish d = some dl ∧ chain = [ChainCall.add dl]
  | chain, segment, (file, next) :: rest =>
    ∃ d chain', fragmentOf F P segment = some d ∧
      chain = ChainCall.add d :: ChainCall.addFile file :: chain' ∧
      ChainMatches F P finish chain' next rest

end BaseTransform

end xmrig

namespace xmrig

/-! ## Properties of Job.h -/

/-- A text has size zero exactly when it is the empty text. -/
theorem strIsEmpty_iff (s : String) : strIsEmpty s = true ↔ s = "" := by
  cases s with
  | mk cs =>
    simp only [strIsEmpty, strSize, String.utf8ByteSize_mk, beq_iff_eq,
      String.utf8Len_eq_zero]
    constructor
    · intro h; rw [h]
    · intro h; exact congrArg String.data h

/-- C1: `toDiff(0) = 0`, and for every 64-bit target `t` with `1 ≤ t ≤ 2^64 - 1`
the result is the exact quotient `floor((2^64 - 1) / t)`, which is itself a
64-bit value (no overflow). -/
theorem toDiff_spec :
    Job.toDiff 0 = 0 ∧
    ∀ t : Nat, 1 ≤ t → t ≤ 2 ^ 64 - 1 →
      Job.toDiff t = (2 ^ 64 - 1) / t ∧ Job.toDiff t < U64 := by
  refine ⟨by simp [Job.toDiff], ?_⟩
  intro t h1 _
  have ht : t ≠ 0 := by omega
  have hval : Job.toDiff t = (2 ^ 64 - 1) / t := by
    simp [Job.toDiff, ht]
  refine ⟨hval, ?_⟩
  rw [hval]
  have hle : (2 ^ 64 - 1) / t ≤ 2 ^ 64 - 1 := Nat.div_le_self _ _
  have hU : U64 = 2 ^ 64 := rfl
  omega

/-- C1, at the target 3: the difficulty is 6148914691236517205. -/
theorem toDiff_spec_witness :
    1 ≤ 3 ∧ 3 ≤ 2 ^ 64 - 1 ∧
      (Job.toDiff 3 = (2 ^ 64 - 1) / 3 ∧ Job.toDiff 3 < U64) :=
  ⟨by decide, by decide, toDiff_spec.2 3 (by decide) (by decide)⟩

/-- C2 as stated fails at `t1 = 0`, `t2 = 1`: the target grows from 0 to 1 and
the difficulty grows from 0 to `2^64 - 1`. -/
theorem toDiff_not_antitone_at_zero :
    (0 : Nat) ≤ 1 ∧ 1 < U64 ∧ Job.toDiff 0 = 0 ∧ Job.toDiff 1 = 2 ^ 64 - 1 ∧
      ¬ (Job.toDiff 1 ≤ Job.toDiff 0) := by
  decide

/-- C2, amended: over the non-zero targets `toDiff` is non-increasing, for
every `1 ≤ t1 ≤ t2` the difficulty of `t2` is at most that of `t1`. -/
theorem toDiff_antitone_pos (t1 t2 : Nat) (h1 : 1 ≤ t1) (h : t1 ≤ t2) :
    Job.toDiff t2 ≤ Job.toDiff t1 := by
  have ht1 : t1 ≠ 0 := by omega
  have ht2 : t2 ≠ 0 := by omega
  simp only [Job.toDiff, ht1, ht2, ne_eq, not_false_eq_true, if_true]
  exact Nat.div_le_div_left h (by omega)

/-- C2, amended, at the targets 2 and 5. -/
theorem toDiff_antitone_pos_witness :
    1 ≤ 2 ∧ 2 ≤ 5 ∧ Job.toDiff 5 ≤ Job.toDiff 2 :=
  ⟨by decide, by decide, toDiff_antitone_pos 2 5 (by decide) (by decide)⟩

/-- Validity of a job in terms of its size, difficulty and pool wallet. -/
theorem Job.isValid_eq_true (j : Job) :
    j.isValid = true ↔ (0 < j.m_size ∧ 0 < j.m_diff) ∨ j.m_poolWallet ≠ "" := by
  have hw : (strIsEmpty j.m_poolWallet = false) ↔ j.m_poolWallet ≠ "" := by
    rw [Ne, ← strIsEmpty_iff]; simp
  simp only [Job.isValid, Bool.or_eq_true, Bool.and_eq_true, decide_eq_true_eq,
    Bool.not_eq_true', hw, gt_iff_lt]

/-- C3: a job is valid exactly when it has a non-empty blob with a non-zero
difficulty, or a non-empty pool wallet; with an empty blob and zero difficulty
it is valid exactly when it carries a pool wallet. -/
theorem isValid_iff (j : Job) :
    (j.isValid = true ↔ (0 < j.m_size ∧ 0 < j.m_diff) ∨ j.m_poolWallet ≠ "") ∧
    (j.m_size = 0 → j.m_diff = 0 → (j.isValid = true ↔ j.m_poolWallet ≠ "")) := by
  refine ⟨Job.isValid_eq_true j, ?_⟩
  intro hs hd
  rw [Job.isValid_eq_true, hs, hd]
  simp

/-- C3, at the default job given the pool wallet `"w"`: size and difficulty are
zero and the job is valid. -/
theorem isValid_iff_witness :
    (Job.setPoolWallet "w" Job.default).m_size = 0 ∧
    (Job.setPoolWallet "w" Job.default).m_diff = 0 ∧
    ((Job.setPoolWallet "w" Job.default).isValid = true ↔
      (Job.setPoolWallet "w" Job.default).m_poolWallet ≠ "") :=
  ⟨rfl, rfl, (isValid_iff (Job.setPoolWallet "w" Job.default)).2 rfl rfl⟩

/-- C4 as stated fails for the 4-byte nonce: a job that is not nicehash, of a
family other than KAWPOW, with the two-character extra-nonce `"ab"` has the mask
`0xFFFFFFFF`, not `0xFFFFFFFF` shifted right by 8 bits. It fails for the 8-byte
nonce once the extra-nonce reaches 16 characters: the shift count is 64 and no
mask value is defined. -/
theorem nonceMask_narrowing_fails :
    (Job.setExtraNonce "ab" Job.default).isNicehash = false ∧
    (Job.setExtraNonce "ab" Job.default).nonceSize = 4 ∧
    strSize (Job.setExtraNonce "ab" Job.default).extraNonce = 2 ∧
    (Job.setExtraNonce "ab" Job.default).nonceMask = some 0xFFFFFFFF ∧
    (Job.setExtraNonce "ab" Job.default).nonceMask ≠ some (0xFFFFFFFF >>> (4 * 2)) ∧
    (Job.setExtraNonce "0123456789abcdef"
      (Job.setAlgorithm ⟨0, Family.KAWPOW⟩ Job.default)).isNicehash = false ∧
    (Job.setExtraNonce "0123456789abcdef"
      (Job.setAlgorithm ⟨0, Family.KAWPOW⟩ Job.default)).nonceSize = 8 ∧
    (Job.setExtraNonce "0123456789abcdef"
      (Job.setAlgorithm ⟨0, Family.KAWPOW⟩ Job.default)).nonceMask = none := by
  decide

/-- C4, amended: the mask is `0xFFFFFF` for a nicehash job; otherwise it is
`0xFFFFFFFF` for the 4-byte nonce whatever the extra-nonce, and for the 8-byte
nonce with an extra-nonce of fewer than 16 characters it is `2^64 - 1` shifted
right by 4 bits per extra-nonce character. -/
theorem nonceMask_cases (j : Job) :
    (j.isNicehash = true → j.nonceMask = some 0xFFFFFF) ∧
    (j.isNicehash = false → j.nonceSize = 4 → j.nonceMask = some 0xFFFFFFFF) ∧
    (j.isNicehash = false → j.nonceSize = 8 → strSize j.extraNonce < 16 →
      j.nonceMask = some ((2 ^ 64 - 1) >>> (4 * strSize j.extraNonce))) := by
  refine ⟨?_, ?_, ?_⟩
  · intro hn
    simp [Job.nonceMask, hn]
  · intro hn hs
    simp [Job.nonceMask, hn, hs]
  · intro hn hs hlen
    have hmod : (strSize j.extraNonce * 4) % U64 = 4 * strSize j.extraNonce := by
      have hU : U64 = 2 ^ 64 := rfl
      rw [Nat.mod_eq_of_lt (by omega)]
      omega
    have hlt : 4 * strSize j.extraNonce < 64 := by omega
    have hU1 : U64 - 1 = 2 ^ 64 - 1 := rfl
    simp only [Job.nonceMask, hn, hs, hmod, Job.shr64, hlt, hU1, if_true,
      Bool.false_eq_true, if_false]

/-- C4, amended, at three jobs: a nicehash job, the default job with the
extra-nonce `"ab"`, and a KAWPOW job with the extra-nonce `"ab"`, whose mask is
`0x00FFFFFFFFFFFFFF`. -/
theorem nonceMask_cases_witness :
    ({ Job.default with m_nicehash := true } : Job).nonceMask = some 0xFFFFFF ∧
    (Job.setExtraNonce "ab" Job.default).nonceMask = some 0xFFFFFFFF ∧
    (Job.setExtraNonce "ab" (Job.setAlgorithm ⟨0, Family.KAWPOW⟩ Job.default)).nonceMask
      = some 0x00FFFFFFFFFFFFFF :=
  ⟨(nonceMask_cases { Job.default with m_nicehash := true }).1 rfl,
   (nonceMask_cases (Job.setExtraNonce "ab" Job.default)).2.1 rfl rfl,
   (nonceMask_cases (Job.setExtraNonce "ab"
      (Job.setAlgorithm ⟨0, Family.KAWPOW⟩ Job.default))).2.2 rfl rfl (by decide)⟩

/-- C5: `reset()` sets the size and the difficulty to zero and leaves every
other member as it was; afterwards the job is valid exactly when its pool
wallet is non-empty. -/
theorem reset_frame (j : Job) :
    j.reset.m_size = 0 ∧ j.reset.m_diff = 0 ∧
    j.reset.m_blob = j.m_blob ∧ j.reset.m_target = j.m_target ∧
    j.reset.m_seed = j.m_seed ∧ j.reset.m_id = j.m_id ∧
    j.reset.m_clientId = j.m_clientId ∧ j.reset.m_extraNonce = j.m_extraNonce ∧
    j.reset.m_poolWallet = j.m_poolWallet ∧ j.reset.m_height = j.m_height ∧
    j.reset.m_backend = j.m_backend ∧ j.reset.m_index = j.m_index ∧
    j.reset.m_algorithm = j.m_algorithm ∧
    j.reset.m_nicehash = j.m_nicehash ∧ j.reset.m_donate = j.m_donate ∧
    j.reset.m_hasMinerSignature = j.m_hasMinerSignature ∧
    j.reset.m_ephPublicKey = j.m_ephPublicKey ∧
    j.reset.m_ephSecretKey = j.m_ephSecretKey ∧
    j.reset.m_rawBlob = j.m_rawBlob ∧ j.reset.m_rawTarget = j.m_rawTarget ∧
    j.reset.m_rawSeedHash = j.m_rawSeedHash ∧ j.reset.m_rawSigKey = j.m_rawSigKey ∧
    j.reset.m_spendSecretKey = j.m_spendSecretKey ∧
    j.reset.m_viewSecretKey = j.m_viewSecretKey ∧
    j.reset.m_spendPublicKey = j.m_spendPublicKey ∧
    j.reset.m_viewPublicKey = j.m_viewPublicKey ∧
    j.reset.m_minerTxPrefix = j.m_minerTxPrefix ∧
    j.reset.m_minerTxEphPubKeyOffset = j.m_minerTxEphPubKeyOffset ∧
    j.reset.m_minerTxPubKeyOffset = j.m_minerTxPubKeyOffset ∧
    j.reset.m_minerTxExtraNonceOffset = j.m_minerTxExtraNonceOffset ∧
    j.reset.m_minerTxExtraNonceSize = j.m_minerTxExtraNonceSize ∧
    j.reset.m_minerTxMerkleTreeBranch = j.m_minerTxMerkleTreeBranch ∧
    j.reset.m_hasViewTag = j.m_hasViewTag ∧
    (j.reset.isValid = true ↔ j.m_poolWallet ≠ "") := by
  have hv : j.reset.isValid = true ↔ j.m_poolWallet ≠ "" := by
    rw [Job.isValid_eq_true]
    simp [Job.reset]
  simp only [Job.reset, true_and]
  exact hv

/-! ## Properties of App.cpp -/

/-- With the controller held, `close(rc)` records `rc`, releases the three
handles and makes its six calls in program order. -/
theorem App.close_of_held (rc : Int) (r : Run) (ctl : Controller)
    (hc : r.app.m_controller = some ctl) :
    App.close rc r =
      some ⟨⟨rc, none, false, false⟩,
        r.trace ++ [Effect.controllerStop, Effect.controllerReset, Effect.signalsReset,
          Effect.consoleReset, Effect.logDestroy, Effect.uvStop]⟩ := by
  simp [App.close, hc, emit]

/-- C6: in a CC-client build with the controller held, RESTART and UPDATE both
run `close(RC_RESTART)` and SHUTDOWN runs `close(RC_OK)`: the exit code is
recorded and the shutdown calls are made up to `uv_stop`; RESTART and UPDATE
end in the same state with the same calls. -/
theorem onCommandReceived_lifecycle (b : Build) (r : Run) (ctl : Controller)
    (p q : String) (hb : b.XMRIG_FEATURE_CC_CLIENT = true)
    (hc : r.app.m_controller = some ctl) :
    App.onCommandReceived b ⟨Command.RESTART, p⟩ r = App.close b.RC_RESTART r ∧
    App.onCommandReceived b ⟨Command.UPDATE, q⟩ r = App.close b.RC_RESTART r ∧
    App.onCommandReceived b ⟨Command.SHUTDOWN, p⟩ r = App.close b.RC_OK r ∧
    App.onCommandReceived b ⟨Command.RESTART, p⟩ r
      = App.onCommandReceived b ⟨Command.UPDATE, q⟩ r ∧
    App.onCommandReceived b ⟨Command.RESTART, p⟩ r =
      some ⟨⟨b.RC_RESTART, none, false, false⟩,
        r.trace ++ [Effect.controllerStop, Effect.controllerReset, Effect.signalsReset,
          Effect.consoleReset, Effect.logDestroy, Effect.uvStop]⟩ ∧
    App.onCommandReceived b ⟨Command.SHUTDOWN, p⟩ r =
      some ⟨⟨b.RC_OK, none, false, false⟩,
        r.trace ++ [Effect.controllerStop, Effect.controllerReset, Effect.signalsReset,
          Effect.consoleReset, Effect.logDestroy, Effect.uvStop]⟩ := by
  have h1 : App.onCommandReceived b ⟨Command.RESTART, p⟩ r = App.close b.RC_RESTART r := by
    simp [App.onCommandReceived, hb]
  have h2 : App.onCommandReceived b ⟨Command.UPDATE, q⟩ r = App.close b.RC_RESTART r := by
    simp [App.onCommandReceived, hb]
  have h3 : App.onCommandReceived b ⟨Command.SHUTDOWN, p⟩ r = App.close b.RC_OK r := by
    simp [App.onCommandReceived, hb]
  refine ⟨h1, h2, h3, h1.trans h2.symm, ?_, ?_⟩
  · rw [h1]; exact App.close_of_held _ r ctl hc
  · rw [h3]; exact App.close_of_held _ r ctl hc

/-- C6, in a build with `RC_OK = 0` and `RC_RESTART = 3`, from a running App
with an empty trace. -/
theorem onCommandReceived_lifecycle_witness :
    (⟨true, true, 0, 3⟩ : Build).XMRIG_FEATURE_CC_CLIENT = true ∧
    (⟨⟨0, some ⟨true, true, false, false, none⟩, true, true⟩, []⟩ : Run).app.m_controller
      = some ⟨true, true, false, false, none⟩ ∧
    App.onCommandReceived ⟨true, true, 0, 3⟩ ⟨Command.UPDATE, "x"⟩
        ⟨⟨0, some ⟨true, true, false, false, none⟩, true, true⟩, []⟩ =
      some ⟨⟨3, none, false, false⟩,
        [Effect.controllerStop, Effect.controllerReset, Effect.signalsReset,
          Effect.consoleReset, Effect.logDestroy, Effect.uvStop]⟩ :=
  ⟨rfl, rfl,
    ((onCommandReceived_lifecycle ⟨true, true, 0, 3⟩
      ⟨⟨0, some ⟨true, true, false, false, none⟩, true, true⟩, []⟩
      ⟨true, true, false, false, none⟩ "" "x" rfl rfl).2.1).trans (by decide)⟩

/-- C7: in a CC-client build, for every App state, STOP behaves as the console
command `p` and START as the console command `r`; with the controller held
each leaves the App as it was and makes the one call `execCommand`, with no
shutdown call. -/
theorem onCommandReceived_stop_start (b : Build) (r : Run) (p : String)
    (hb : b.XMRIG_FEATURE_CC_CLIENT = true) :
    App.onCommandReceived b ⟨Command.STOP, p⟩ r = App.onConsoleCommand b 'p' r ∧
    App.onCommandReceived b ⟨Command.START, p⟩ r = App.onConsoleCommand b 'r' r ∧
    (∀ ctl : Controller, r.app.m_controller = some ctl →
      App.onCommandReceived b ⟨Command.STOP, p⟩ r
        = some ⟨r.app, r.trace ++ [Effect.execCommand 'p']⟩ ∧
      App.onCommandReceived b ⟨Command.START, p⟩ r
        = some ⟨r.app, r.trace ++ [Effect.execCommand 'r']⟩) := by
  have hp : ¬ ('p' = Char.ofNat 3 ∨ 'p' = 'q' ∨ 'p' = 'Q') := by decide
  have hr : ¬ ('r' = Char.ofNat 3 ∨ 'r' = 'q' ∨ 'r' = 'Q') := by decide
  refine ⟨?_, ?_, ?_⟩
  · simp only [App.onCommandReceived, hb, if_true, App.onConsoleCommand, hp, if_false]
  · simp only [App.onCommandReceived, hb, if_true, App.onConsoleCommand, hr, if_false]
  · intro ctl hc
    simp [App.onCommandReceived, hb, hc, emit]

/-- C7, from a running App with an empty trace: STOP makes the one call
`execCommand('p')`, as the console command `p` does. -/
theorem onCommandReceived_stop_start_witness :
    (⟨true, true, 0, 3⟩ : Build).XMRIG_FEATURE_CC_CLIENT = true ∧
    App.onCommandReceived ⟨true, true, 0, 3⟩ ⟨Command.STOP, ""⟩
        ⟨⟨0, some ⟨true, true, false, false, none⟩, true, true⟩, []⟩ =
      App.onConsoleCommand ⟨true, true, 0, 3⟩ 'p'
        ⟨⟨0, some ⟨true, true, false, false, none⟩, true, true⟩, []⟩ ∧
    App.onCommandReceived ⟨true, true, 0, 3⟩ ⟨Command.STOP, ""⟩
        ⟨⟨0, some ⟨true, true, false, false, none⟩, true, true⟩, []⟩ =
      some ⟨⟨0, some ⟨true, true, false, false, none⟩, true, true⟩,
        [Effect.execCommand 'p']⟩ :=
  ⟨rfl,
    (onCommandReceived_stop_start ⟨true, true, 0, 3⟩
      ⟨⟨0, some ⟨true, true, false, false, none⟩, true, true⟩, []⟩ "" rfl).1,
    ((onCommandReceived_stop_start ⟨true, true, 0, 3⟩
      ⟨⟨0, some ⟨true, true, false, false, none⟩, true, true⟩, []⟩ "" rfl).2.2
      ⟨true, true, false, false, none⟩ rfl).1⟩

/-- C8: with the controller held, `close(rc)` records `rc` and then makes
exactly six calls in this order: stop the controller, release the controller,
release the signal handler, release the console, shut down logging, stop the
event loop. The same six calls in the same order end the trace when `close` is
reached from SHUTDOWN, RESTART or UPDATE (CC-client build), from a termination
signal, and from a console quit command, where one warning line precedes them. -/
theorem close_order (b : Build) (rc : Int) (r : Run) (ctl : Controller) (p : String)
    (hc : r.app.m_controller = some ctl) :
    App.close rc r =
      some ⟨⟨rc, none, false, false⟩,
        r.trace ++ [Effect.controllerStop, Effect.controllerReset, Effect.signalsReset,
          Effect.consoleReset, Effect.logDestroy, Effect.uvStop]⟩ ∧
    (b.XMRIG_FEATURE_CC_CLIENT = true →
      ∀ k : Command, k = Command.SHUTDOWN ∨ k = Command.RESTART ∨ k = Command.UPDATE →
        ∃ a : App, App.onCommandReceived b ⟨k, p⟩ r =
          some ⟨a,
            r.trace ++ [Effect.controllerStop, Effect.controllerReset, Effect.signalsReset,
              Effect.consoleReset, Effect.logDestroy, Effect.uvStop]⟩) ∧
    (∀ signum : Int, signum = SIGHUP ∨ signum = SIGTERM ∨ signum = SIGINT →
      App.onSignal b signum r =
        some ⟨⟨b.RC_OK, none, false, false⟩,
          r.trace ++ [Effect.controllerStop, Effect.controllerReset, Effect.signalsReset,
            Effect.consoleReset, Effect.logDestroy, Effect.uvStop]⟩) ∧
    (∀ c : Char, c = Char.ofNat 3 ∨ c = 'q' ∨ c = 'Q' →
      App.onConsoleCommand b c r =
        some ⟨⟨b.RC_OK, none, false, false⟩,
          r.trace ++ [Effect.log LogLevel.WARN "Quit command received, exiting"]
            ++ [Effect.controllerStop, Effect.controllerReset, Effect.signalsReset,
              Effect.consoleReset, Effect.logDestroy, Effect.uvStop]⟩) := by
  refine ⟨App.close_of_held rc r ctl hc, ?_, ?_, ?_⟩
  · intro hb k hk
    rcases hk with hk | hk | hk
    · refine ⟨⟨b.RC_OK, none, false, false⟩, ?_⟩
      rw [← App.close_of_held b.RC_OK r ctl hc]
      simp [App.onCommandReceived, hb, hk]
    · refine ⟨⟨b.RC_RESTART, none, false, false⟩, ?_⟩
      rw [← App.close_of_held b.RC_RESTART r ctl hc]
      simp [App.onCommandReceived, hb, hk]
    · refine ⟨⟨b.RC_RESTART, none, false, false⟩, ?_⟩
      rw [← App.close_of_held b.RC_RESTART r ctl hc]
      simp [App.onCommandReceived, hb, hk]
  · intro signum hs
    rw [← App.close_of_held b.RC_OK r ctl hc]
    simp only [App.onSignal, hs, if_true]
  · intro c hq
    have hc2 : (emit (Effect.log LogLevel.WARN "Quit command received, exiting") r).app.m_controller
        = some ctl := hc
    simp only [App.onConsoleCommand, hq, if_true]
    rw [App.close_of_held b.RC_OK _ ctl hc2]
    simp [emit]

/-- C8, from a running App with an empty trace, for `close(7)`. -/
theorem close_order_witness :
    (⟨⟨0, some ⟨true, true, false, false, none⟩, true, true⟩, []⟩ : Run).app.m_controller
      = some ⟨true, true, false, false, none⟩ ∧
    App.close 7 ⟨⟨0, some ⟨true, true, false, false, none⟩, true, true⟩, []⟩ =
      some ⟨⟨7, none, false, false⟩,
        [Effect.controllerStop, Effect.controllerReset, Effect.signalsReset,
          Effect.consoleReset, Effect.logDestroy, Effect.uvStop]⟩ :=
  ⟨rfl,
    (close_order ⟨true, true, 0, 3⟩ 7
      ⟨⟨0, some ⟨true, true, false, false, none⟩, true, true⟩, []⟩
      ⟨true, true, false, false, none⟩ "" rfl).1⟩

/-- C9 as stated fails when shell execution is enabled and no reboot command is
configured: REBOOT leaves the App and the trace as they were, so no
emergency-level line is logged. -/
theorem reboot_without_command_logs_nothing :
    (⟨true, true, 0, 3⟩ : Build).XMRIG_FEATURE_CC_CLIENT_SHELL_EXECUTE = true ∧
    (⟨true, true, false, false, none⟩ : Controller).rebootCmd = none ∧
    App.onCommandReceived ⟨true, true, 0, 3⟩ ⟨Command.REBOOT, ""⟩
        ⟨⟨0, some ⟨true, true, false, false, none⟩, true, true⟩, []⟩ =
      some ⟨⟨0, some ⟨true, true, false, false, none⟩, true, true⟩, []⟩ ∧
    ¬ App.onCommandReceived ⟨true, true, 0, 3⟩ ⟨Command.REBOOT, ""⟩
        ⟨⟨0, some ⟨true, true, false, false, none⟩, true, true⟩, []⟩ =
      some ⟨⟨0, some ⟨true, true, false, false, none⟩, true, true⟩,
        [Effect.log LogLevel.EMERG "Shell execute disabled. Skipping REBOOT."]⟩ := by
  decide

/-- C9, amended: in a CC-client build REBOOT does one of three things. With
shell execution enabled and a reboot command configured it runs the command
through `system` and then `close(RC_OK)`. With shell execution enabled and no
reboot command configured it does nothing at all: no log line, no shell call,
no shutdown, App unchanged. With shell execution disabled it logs one
emergency-level line and does nothing else. -/
theorem reboot_dispatch (b : Build) (r : Run) (p : String)
    (hb : b.XMRIG_FEATURE_CC_CLIENT = true) :
    (b.XMRIG_FEATURE_CC_CLIENT_SHELL_EXECUTE = true →
      ∀ (ctl : Controller) (cmd : String),
        r.app.m_controller = some ctl → ctl.rebootCmd = some cmd →
        App.onCommandReceived b ⟨Command.REBOOT, p⟩ r =
          some ⟨⟨b.RC_OK, none, false, false⟩,
            r.trace ++ [Effect.system cmd]
              ++ [Effect.controllerStop, Effect.controllerReset, Effect.signalsReset,
                Effect.consoleReset, Effect.logDestroy, Effect.uvStop]⟩) ∧
    (b.XMRIG_FEATURE_CC_CLIENT_SHELL_EXECUTE = true →
      ∀ ctl : Controller, r.app.m_controller = some ctl → ctl.rebootCmd = none →
        App.onCommandReceived b ⟨Command.REBOOT, p⟩ r = some r) ∧
    (b.XMRIG_FEATURE_CC_CLIENT_SHELL_EXECUTE = false →
      App.onCommandReceived b ⟨Command.REBOOT, p⟩ r =
        some ⟨r.app,
          r.trace ++ [Effect.log LogLevel.EMERG "Shell execute disabled. Skipping REBOOT."]⟩) := by
  refine ⟨?_, ?_, ?_⟩
  · intro hs ctl cmd hc hcmd
    have hc2 : (emit (Effect.system cmd) r).app.m_controller = some ctl := hc
    simp only [App.onCommandReceived, hb, if_true, App.reboot, hs, hc, hcmd]
    rw [App.close_of_held b.RC_OK _ ctl hc2]
    simp [emit]
  · intro hs ctl hc hcmd
    simp only [App.onCommandReceived, hb, if_true, App.reboot, hs, hc, hcmd]
  · intro hs
    simp [App.onCommandReceived, hb, App.reboot, hs, emit]

/-- C9, amended, at three inputs: shell execution enabled with the reboot
command `"reboot"`, enabled with none, and disabled. -/
theorem reboot_dispatch_witness :
    App.onCommandReceived ⟨true, true, 0, 3⟩ ⟨Command.REBOOT, ""⟩
        ⟨⟨5, some ⟨true, true, false, false, some "reboot"⟩, true, true⟩, []⟩ =
      some ⟨⟨0, none, false, false⟩,
        [Effect.system "reboot", Effect.controllerStop, Effect.controllerReset,
          Effect.signalsReset, Effect.consoleReset, Effect.logDestroy, Effect.uvStop]⟩ ∧
    App.onCommandReceived ⟨true, true, 0, 3⟩ ⟨Command.REBOOT, ""⟩
        ⟨⟨5, some ⟨true, true, false, false, none⟩, true, true⟩, []⟩ =
      some ⟨⟨5, some ⟨true, true, false, false, none⟩, true, true⟩, []⟩ ∧
    App.onCommandReceived ⟨true, false, 0, 3⟩ ⟨Command.REBOOT, ""⟩
        ⟨⟨5, some ⟨true, true, false, false, some "reboot"⟩, true, true⟩, []⟩ =
      some ⟨⟨5, some ⟨true, true, false, false, some "reboot"⟩, true, true⟩,
        [Effect.log LogLevel.EMERG "Shell execute disabled. Skipping REBOOT."]⟩ :=
  ⟨(reboot_dispatch ⟨true, true, 0, 3⟩
      ⟨⟨5, some ⟨true, true, false, false, some "reboot"⟩, true, true⟩, []⟩ "" rfl).1 rfl
      ⟨true, true, false, false, some "reboot"⟩ "reboot" rfl rfl,
   (reboot_dispatch ⟨true, true, 0, 3⟩
      ⟨⟨5, some ⟨true, true, false, false, none⟩, true, true⟩, []⟩ "" rfl).2.1 rfl
      ⟨true, true, false, false, none⟩ rfl rfl,
   (reboot_dispatch ⟨true, false, 0, 3⟩
      ⟨⟨5, some ⟨true, true, false, false, some "reboot"⟩, true, true⟩, []⟩ "" rfl).2.2 rfl⟩

/-- C10: with shell execution disabled, `execute(payload)` logs one
emergency-level line and does nothing else, for every payload. With shell
execution enabled it starts a worker exactly when the payload is non-empty, and
an empty payload leaves the App and the trace as they were. In a CC-client build
the EXECUTE command runs `execute` on its payload. -/
theorem execute_guard (b : Build) (r : Run) (payload : String) :
    (b.XMRIG_FEATURE_CC_CLIENT_SHELL_EXECUTE = false →
      App.execute b payload r =
        some ⟨r.app,
          r.trace ++ [Effect.log LogLevel.EMERG ("Shell execute disabled. Skipping " ++ payload)]⟩) ∧
    (b.XMRIG_FEATURE_CC_CLIENT_SHELL_EXECUTE = true → payload ≠ "" →
      App.execute b payload r = some ⟨r.app, r.trace ++ [Effect.spawnWorker payload]⟩) ∧
    (b.XMRIG_FEATURE_CC_CLIENT_SHELL_EXECUTE = true → payload = "" →
      App.execute b payload r = some r) ∧
    (b.XMRIG_FEATURE_CC_CLIENT_SHELL_EXECUTE = true →
      (App.execute b payload r = some ⟨r.app, r.trace ++ [Effect.spawnWorker payload]⟩
        ↔ payload ≠ "")) ∧
    (b.XMRIG_FEATURE_CC_CLIENT = true →
      App.onCommandReceived b ⟨Command.EXECUTE, payload⟩ r = App.execute b payload r) := by
  have hne : b.XMRIG_FEATURE_CC_CLIENT_SHELL_EXECUTE = true → payload ≠ "" →
      App.execute b payload r = some ⟨r.app, r.trace ++ [Effect.spawnWorker payload]⟩ := by
    intro hs hp
    simp [App.execute, hs, hp, emit]
  have hem : b.XMRIG_FEATURE_CC_CLIENT_SHELL_EXECUTE = true → payload = "" →
      App.execute b payload r = some r := by
    intro hs hp
    simp [App.execute, hs, hp]
  refine ⟨?_, hne, hem, ?_, ?_⟩
  · intro hs
    simp [App.execute, hs, emit]
  · intro hs
    constructor
    · intro h hp
      rw [hem hs hp] at h
      have ht := congrArg Run.trace (Option.some.inj h)
      simp at ht
    · exact hne hs
  · intro hb
    simp [App.onCommandReceived, hb]

/-- C10, at three inputs: shell execution disabled with the payload
`"echo hi"`, enabled with `"echo hi"`, and enabled with the empty payload. -/
theorem execute_guard_witness :
    App.execute ⟨true, false, 0, 3⟩ "echo hi"
        ⟨⟨0, some ⟨true, true, false, false, none⟩, true, true⟩, []⟩ =
      some ⟨⟨0, some ⟨true, true, false, false, none⟩, true, true⟩,
        [Effect.log LogLevel.EMERG "Shell execute disabled. Skipping echo hi"]⟩ ∧
    App.execute ⟨true, true, 0, 3⟩ "echo hi"
        ⟨⟨0, some ⟨true, true, false, false, none⟩, true, true⟩, []⟩ =
      some ⟨⟨0, some ⟨true, true, false, false, none⟩, true, true⟩,
        [Effect.spawnWorker "echo hi"]⟩ ∧
    App.execute ⟨true, true, 0, 3⟩ ""
        ⟨⟨0, some ⟨true, true, false, false, none⟩, true, true⟩, []⟩ =
      some ⟨⟨0, some ⟨true, true, false, false, none⟩, true, true⟩, []⟩ :=
  ⟨(execute_guard ⟨true, false, 0, 3⟩
      ⟨⟨0, some ⟨true, true, false, false, none⟩, true, true⟩, []⟩ "echo hi").1 rfl,
   (execute_guard ⟨true, true, 0, 3⟩
      ⟨⟨0, some ⟨true, true, false, false, none⟩, true, true⟩, []⟩ "echo hi").2.1 rfl
      (by decide),
   (execute_guard ⟨true, true, 0, 3⟩
      ⟨⟨0, some ⟨true, true, false, false, none⟩, true, true⟩, []⟩ "").2.2.1 rfl rfl⟩

/-- C11: in every run of the worker in which the script file opened and no
exception was raised while reading the pipe, the trace is: the creation calls,
`popen`, `pclose` when the pipe opened, one result log line, `std::remove` of the
script file, and the closing notice. The result line is at notice level exactly
when the pipe opened and the exit status is 0, and at warning level otherwise;
the file is written before the run and not removed before the result line. -/
theorem executeWorker_cleanup (env : App.WorkerEnv) (command : String)
    (hopen : env.is_open = true) (hthrows : env.pipe = true → env.throws = false) :
    ∃ (pre : List Effect) (level : LogLevel) (text : String),
      App.executeWorker env command =
        some (pre
          ++ [Effect.popen (App.tmpFile env ++ " 2>&1")]
          ++ (if env.pipe then [Effect.pclose] else [])
          ++ [Effect.log level text,
              Effect.remove (App.tmpFile env),
              Effect.log LogLevel.NOTICE
                ("Removing temp script: " ++ App.tmpFile env ++ "...")]) ∧
      Effect.write (App.tmpFile env) command ∈ pre ∧
      Effect.remove (App.tmpFile env) ∉ pre ∧
      (level = LogLevel.NOTICE ↔
        (env.pipe = true ∧ App.WEXITSTATUS env.win32 env.pcloseResult = 0)) ∧
      (level = LogLevel.WARN ↔
        ¬ (env.pipe = true ∧ App.WEXITSTATUS env.win32 env.pcloseResult = 0)) := by
  cases hp : env.pipe
  · have h : App.executeWorker env command =
        some (([Effect.log LogLevel.NOTICE ("Creating temp script: " ++ App.tmpFile env ++ "..."),
            Effect.ofstreamOpen (App.tmpFile env), Effect.write (App.tmpFile env) command]
            ++ (if env.win32 then [] else [Effect.chmod (App.tmpFile env)]))
          ++ [Effect.popen (App.tmpFile env ++ " 2>&1")]
          ++ (if false then [Effect.pclose] else [])
          ++ [Effect.log LogLevel.WARN
                ("Processing...\n###START EXECUTE###\nScript:\n" ++ command
                  ++ "\n\nError: FAILED to open pipe.\n###END EXECUTE###"),
              Effect.remove (App.tmpFile env),
              Effect.log LogLevel.NOTICE
                ("Removing temp script: " ++ App.tmpFile env ++ "...")]) := by
      cases hw : env.win32 <;> simp [App.executeWorker, hopen, hp, hw]
    refine ⟨_, _, _, h, ?_, ?_, ?_, ?_⟩
    · simp
    · cases hw : env.win32 <;> simp
    · simp
    · simp
  · have hth : env.throws = false := hthrows hp
    by_cases hrc : App.WEXITSTATUS env.win32 env.pcloseResult = 0
    · have h : App.executeWorker env command =
          some (([Effect.log LogLevel.NOTICE ("Creating temp script: " ++ App.tmpFile env ++ "..."),
              Effect.ofstreamOpen (App.tmpFile env), Effect.write (App.tmpFile env) command]
              ++ (if env.win32 then [] else [Effect.chmod (App.tmpFile env)]))
            ++ [Effect.popen (App.tmpFile env ++ " 2>&1")]
            ++ (if true then [Effect.pclose] else [])
            ++ [Effect.log LogLevel.NOTICE
                  ("Processing...\n###START EXECUTE###\nScript:\n" ++ command
                    ++ "\n\nOutput:\n" ++ String.join env.chunks ++ "###END EXECUTE###"),
                Effect.remove (App.tmpFile env),
                Effect.log LogLevel.NOTICE
                  ("Removing temp script: " ++ App.tmpFile env ++ "...")]) := by
        cases hw : env.win32 <;> rw [hw] at hrc <;>
          simp [App.executeWorker, hopen, hp, hw, hth, hrc]
      refine ⟨_, _, _, h, ?_, ?_, ?_, ?_⟩
      · simp
      · cases hw : env.win32 <;> simp
      · simp [hrc]
      · simp [hrc]
    · have h : App.executeWorker env command =
          some (([Effect.log LogLevel.NOTICE ("Creating temp script: " ++ App.tmpFile env ++ "..."),
              Effect.ofstreamOpen (App.tmpFile env), Effect.write (App.tmpFile env) command]
              ++ (if env.win32 then [] else [Effect.chmod (App.tmpFile env)]))
            ++ [Effect.popen (App.tmpFile env ++ " 2>&1")]
            ++ (if true then [Effect.pclose] else [])
            ++ [Effect.log LogLevel.WARN
                  ("Processing...\n###START EXECUTE###\nScript:\n" ++ command
                    ++ "\n\nOutput:\n" ++ String.join env.chunks ++ "###END EXECUTE###"),
                Effect.remove (App.tmpFile env),
                Effect.log LogLevel.NOTICE
                  ("Removing temp script: " ++ App.tmpFile env ++ "...")]) := by
        cases hw : env.win32 <;> rw [hw] at hrc <;>
          simp [App.executeWorker, hopen, hp, hw, hth, hrc]
      refine ⟨_, _, _, h, ?_, ?_, ?_, ?_⟩
      · simp
      · cases hw : env.win32 <;> simp
      · simp [hrc]
      · simp [hrc]

/-- C11, for a run on a non-Windows host at clock reading 5 in which the file
and the pipe open, the script `echo hi` prints `hi` and `pclose` returns 0. -/
theorem executeWorker_cleanup_witness :
    (⟨false, 5, fun name => "/w/" ++ name, true, true, ["hi"], false, 0⟩ : App.WorkerEnv).is_open = true ∧
    ((⟨false, 5, fun name => "/w/" ++ name, true, true, ["hi"], false, 0⟩ : App.WorkerEnv).pipe = true → (⟨false, 5, fun name => "/w/" ++ name, true, true, ["hi"], false, 0⟩ : App.WorkerEnv).throws = false) ∧
    ∃ (pre : List Effect) (level : LogLevel) (text : String),
      App.executeWorker (⟨false, 5, fun name => "/w/" ++ name, true, true, ["hi"], false, 0⟩ : App.WorkerEnv) "echo hi" =
        some (pre
          ++ [Effect.popen (App.tmpFile (⟨false, 5, fun name => "/w/" ++ name, true, true, ["hi"], false, 0⟩ : App.WorkerEnv) ++ " 2>&1")]
          ++ (if (⟨false, 5, fun name => "/w/" ++ name, true, true, ["hi"], false, 0⟩ : App.WorkerEnv).pipe then [Effect.pclose] else [])
          ++ [Effect.log level text,
              Effect.remove (App.tmpFile (⟨false, 5, fun name => "/w/" ++ name, true, true, ["hi"], false, 0⟩ : App.WorkerEnv)),
              Effect.log LogLevel.NOTICE
                ("Removing temp script: " ++ App.tmpFile (⟨false, 5, fun name => "/w/" ++ name, true, true, ["hi"], false, 0⟩ : App.WorkerEnv) ++ "...")]) ∧
      Effect.write (App.tmpFile (⟨false, 5, fun name => "/w/" ++ name, true, true, ["hi"], false, 0⟩ : App.WorkerEnv)) "echo hi" ∈ pre ∧
      Effect.remove (App.tmpFile (⟨false, 5, fun name => "/w/" ++ name, true, true, ["hi"], false, 0⟩ : App.WorkerEnv)) ∉ pre ∧
      (level = LogLevel.NOTICE ↔
        ((⟨false, 5, fun name => "/w/" ++ name, true, true, ["hi"], false, 0⟩ : App.WorkerEnv).pipe = true ∧ App.WEXITSTATUS (⟨false, 5, fun name => "/w/" ++ name, true, true, ["hi"], false, 0⟩ : App.WorkerEnv).win32 (⟨false, 5, fun name => "/w/" ++ name, true, true, ["hi"], false, 0⟩ : App.WorkerEnv).pcloseResult = 0)) ∧
      (level = LogLevel.WARN ↔
        ¬ ((⟨false, 5, fun name => "/w/" ++ name, true, true, ["hi"], false, 0⟩ : App.WorkerEnv).pipe = true ∧ App.WEXITSTATUS (⟨false, 5, fun name => "/w/" ++ name, true, true, ["hi"], false, 0⟩ : App.WorkerEnv).win32 (⟨false, 5, fun name => "/w/" ++ name, true, true, ["hi"], false, 0⟩ : App.WorkerEnv).pcloseResult = 0)) :=
  ⟨rfl, fun _ => rfl,
    executeWorker_cleanup ⟨false, 5, fun name => "/w/" ++ name, true, true, ["hi"], false, 0⟩
      "echo hi" rfl (fun _ => rfl)⟩

/-- C12: UPDATE_CONFIG and PUBLISH_CONFIG have no local effect. In every build
and for every App state the handler returns with the exit code, the controller,
the signal handler and the console as they were and with no call added to the
trace (no controller call, no shutdown, no shell execution, no log line). -/
theorem onCommandReceived_config_noop (b : Build) (r : Run) (p : String) :
    App.onCommandReceived b ⟨Command.UPDATE_CONFIG, p⟩ r = some r ∧
    App.onCommandReceived b ⟨Command.PUBLISH_CONFIG, p⟩ r = some r := by
  cases hb : b.XMRIG_FEATURE_CC_CLIENT <;> simp [App.onCommandReceived, hb]

/-- C19: when the controller is not ready, or in a CC-client build the
configuration is not daemonized, `exec` returns 2 after one emergency-level log
line and nothing else: the App members are as they were and the trace holds no
start-up call (no signal handler, no `init`, no console, no `start`, no event
loop). -/
theorem exec_invalid_configuration (b : Build) (env : App.ExecEnv) (r : Run)
    (ctl : Controller) (hc : r.app.m_controller = some ctl)
    (hbad : ctl.isReady = false ∨
      (b.XMRIG_FEATURE_CC_CLIENT = true ∧ ctl.isDaemonized = false)) :
    ∃ text : String,
      App.exec b env r = some (⟨r.app, r.trace ++ [Effect.log LogLevel.EMERG text]⟩, 2) := by
  cases hr : ctl.isReady
  · exact ⟨"no valid configuration found.", by simp [App.exec, hc, hr, emit]⟩
  · rcases hbad with h | ⟨hb, hd⟩
    · rw [hr] at h; cases h
    · exact ⟨env.APP_ID ++ " is compiled with CC support, please start the daemon instead.\n",
        by simp [App.exec, hc, hr, hb, hd, emit]⟩

/-- C19, for a CC-client build and a ready controller whose configuration is
not daemonized. -/
theorem exec_invalid_configuration_witness :
    (⟨⟨0, some ⟨true, false, false, false, none⟩, false, false⟩, []⟩ : Run).app.m_controller
      = some ⟨true, false, false, false, none⟩ ∧
    ((⟨true, false, false, false, none⟩ : Controller).isReady = false ∨
      ((⟨true, true, 0, 3⟩ : Build).XMRIG_FEATURE_CC_CLIENT = true ∧
        (⟨true, false, false, false, none⟩ : Controller).isDaemonized = false)) ∧
    ∃ text : String,
      App.exec ⟨true, true, 0, 3⟩ ⟨"xmrigMiner", none, 0, fun r => some (r, 0)⟩
          ⟨⟨0, some ⟨true, false, false, false, none⟩, false, false⟩, []⟩ =
        some (⟨(⟨⟨0, some ⟨true, false, false, false, none⟩, false, false⟩, []⟩ : Run).app,
          (⟨⟨0, some ⟨true, false, false, false, none⟩, false, false⟩, []⟩ : Run).trace
            ++ [Effect.log LogLevel.EMERG text]⟩, 2) :=
  ⟨rfl, Or.inr ⟨rfl, rfl⟩,
    exec_invalid_configuration ⟨true, true, 0, 3⟩ ⟨"xmrigMiner", none, 0, fun r => some (r, 0)⟩
      ⟨⟨0, some ⟨true, false, false, false, none⟩, false, false⟩, []⟩
      ⟨true, false, false, false, none⟩ rfl (Or.inr ⟨rfl, rfl⟩)⟩

end xmrig

namespace xmrig

/-! ## Properties of BaseTransform.cpp -/

theorem HasMember_eq_false_iff (ms : Members) (k : Name) :
    HasMember ms k = false ↔ FindMember ms k = none := by
  simp [HasMember]

theorem HasMember_eq_true_iff (ms : Members) (k : Name) :
    HasMember ms k = true ↔ ∃ v, FindMember ms k = some v := by
  simp [HasMember, Option.isSome_iff_exists]

theorem FindMember_append (ms ns : Members) (k : Name) :
    FindMember (ms ++ ns) k = (FindMember ms k).orElse (fun _ => FindMember ns k) := by
  induction ms with
  | nil => simp [FindMember]
  | cons m ms ih =>
    obtain ⟨n, v⟩ := m
    by_cases h : n = k <;> simp [FindMember, h, ih]

theorem FindMember_AddMember_self (ms : Members) (k : Name) (v : Json)
    (h : FindMember ms k = none) : FindMember (AddMember ms k v) k = some v := by
  simp [AddMember, FindMember_append, h, FindMember]

theorem FindMember_AddMember_ne (ms : Members) (k k' : Name) (v : Json) (h : k ≠ k') :
    FindMember (AddMember ms k v) k' = FindMember ms k' := by
  simp only [AddMember, FindMember_append, FindMember, h, if_false]
  cases FindMember ms k' <;> rfl

theorem FindMember_assign_self (ms : Members) (k : Name) (v w : Json)
    (h : FindMember ms k = some w) : FindMember (assign ms k v) k = some v := by
  induction ms with
  | nil => simp [FindMember] at h
  | cons m ms ih =>
    obtain ⟨n, x⟩ := m
    by_cases hn : n = k
    · simp [assign, FindMember, hn]
    · simp only [FindMember, hn, if_false] at h
      simp [assign, FindMember, hn, ih h]

theorem FindMember_assign_ne (ms : Members) (k k' : Name) (v : Json) (h : k ≠ k') :
    FindMember (assign ms k v) k' = FindMember ms k' := by
  induction ms with
  | nil => simp [assign]
  | cons m ms ih =>
    obtain ⟨n, x⟩ := m
    by_cases hn : n = k
    · subst hn
      simp [assign, FindMember, h]
    · by_cases hn' : n = k'
      · subst hn'
        simp [assign, FindMember, hn]
      · simp [assign, FindMember, hn, hn', ih]

theorem assign_of_not_has (ms : Members) (k : Name) (v : Json)
    (h : FindMember ms k = none) : assign ms k v = ms := by
  induction ms with
  | nil => rfl
  | cons m ms ih =>
    obtain ⟨n, x⟩ := m
    by_cases hn : n = k
    · simp [FindMember, hn] at h
    · simp only [FindMember, hn, if_false] at h
      simp [assign, hn, ih h]

theorem assign_AddMember (ms : Members) (k : Name) (v w : Json)
    (h : FindMember ms k = none) :
    assign (AddMember ms k v) k w = AddMember ms k w := by
  induction ms with
  | nil => simp [AddMember, assign]
  | cons m ms ih =>
    obtain ⟨n, x⟩ := m
    by_cases hn : n = k
    · simp [FindMember, hn] at h
    · simp only [FindMember, hn, if_false] at h
      have := ih h
      simp only [AddMember] at this ⊢
      simp [assign, hn, this]

theorem FindMember_set_obj_self (ms : Members) (k : Name) (v : Json) :
    FindMember (BaseTransform.set_obj ms k v) k = some v := by
  unfold BaseTransform.set_obj
  cases h : FindMember ms k with
  | none =>
    have : HasMember ms k = false := (HasMember_eq_false_iff ms k).2 h
    simp [this, FindMember_AddMember_self ms k v h]
  | some w =>
    have : HasMember ms k = true := (HasMember_eq_true_iff ms k).2 ⟨w, h⟩
    simp [this, FindMember_assign_self ms k v w h]

theorem FindMember_set_obj_ne (ms : Members) (k k' : Name) (v : Json) (h : k ≠ k') :
    FindMember (BaseTransform.set_obj ms k v) k' = FindMember ms k' := by
  unfold BaseTransform.set_obj
  split
  · exact FindMember_assign_ne ms k k' v h
  · exact FindMember_AddMember_ne ms k k' v h

theorem set_last_concat (pre : List Json) (ms : Members) (k : Name) (v : Json) :
    BaseTransform.set_last (pre ++ [Json.object ms]) k v
      = some (pre ++ [Json.object (BaseTransform.set_obj ms k v)]) := by
  simp [BaseTransform.set_last]

end xmrig

namespace xmrig

theorem set_obj_nil (k : Name) (v : Json) : BaseTransform.set_obj [] k v = [(k, v)] := rfl

theorem set_last_singleton (ms : Members) (k : Name) (v : Json) :
    BaseTransform.set_last [Json.object ms] k v
      = some [Json.object (BaseTransform.set_obj ms k v)] :=
  set_last_concat [] ms k v

theorem add_of_absent (doc : Document) (ak k : Name) (v : Json)
    (h : FindMember doc ak = none) :
    BaseTransform.add doc ak k v
      = some (AddMember doc ak (Json.array [Json.object [(k, v)]])) := by
  have hh : HasMember doc ak = false := (HasMember_eq_false_iff doc ak).2 h
  unfold BaseTransform.add
  simp only [hh, Bool.not_false, if_true, FindMember_AddMember_self doc ak _ h,
    List.length_nil, List.nil_append, set_last_singleton, set_obj_nil,
    assign_AddMember doc ak _ _ h]

theorem add_of_empty (doc : Document) (ak k : Name) (v : Json)
    (h : FindMember doc ak = some (Json.array [])) :
    BaseTransform.add doc ak k v
      = some (assign doc ak (Json.array [Json.object [(k, v)]])) := by
  have hh : HasMember doc ak = true := (HasMember_eq_true_iff doc ak).2 ⟨_, h⟩
  unfold BaseTransform.add
  simp only [hh, Bool.not_true, Bool.false_eq_true, if_false, h,
    List.length_nil, List.nil_append, if_true, set_last_singleton, set_obj_nil]

theorem add_of_last (doc : Document) (ak k : Name) (v : Json) (pre : List Json)
    (ms : Members) (h : FindMember doc ak = some (Json.array (pre ++ [Json.object ms]))) :
    BaseTransform.add doc ak k v
      = some (assign doc ak
          (Json.array (pre ++ [Json.object (BaseTransform.set_obj ms k v)]))) := by
  have hh : HasMember doc ak = true := (HasMember_eq_true_iff doc ak).2 ⟨_, h⟩
  have hl : ¬ (pre ++ [Json.object ms]).length = 0 := by simp
  unfold BaseTransform.add
  simp only [hh, Bool.not_true, Bool.false_eq_true, if_false, h, hl, set_last_concat]

theorem strrchr_eq_none_iff (s : List Char) (c : Char) :
    BaseTransform.strrchr s c = none ↔ c ∉ s := by
  induction s with
  | nil => simp [BaseTransform.strrchr]
  | cons x xs ih =>
    unfold BaseTransform.strrchr
    cases h : BaseTransform.strrchr xs c with
    | some i =>
      have : c ∈ xs := by
        by_contra hc
        rw [ih.2 hc] at h
        cases h
      simp [this]
    | none =>
      have hc : c ∉ xs := ih.1 h
      by_cases hx : x = c
      · simp [hx]
      · have hx' : ¬ c = x := fun e => hx e.symm
        simp [hx, hx', hc]

theorem strrchr_some (s : List Char) (c : Char) (p : Nat)
    (h : BaseTransform.strrchr s c = some p) :
    s = s.take p ++ c :: s.drop (p + 1) ∧ c ∉ s.drop (p + 1) := by
  induction s generalizing p with
  | nil => simp [BaseTransform.strrchr] at h
  | cons x xs ih =>
    unfold BaseTransform.strrchr at h
    cases hr : BaseTransform.strrchr xs c with
    | some i =>
      rw [hr] at h
      simp only [Option.some.injEq] at h
      subst h
      obtain ⟨h1, h2⟩ := ih i hr
      refine ⟨?_, by simpa using h2⟩
      simp only [List.take_succ_cons, List.drop_succ_cons, List.cons_append]
      rw [← h1]
    | none =>
      rw [hr] at h
      by_cases hx : x = c
      · simp only [hx, if_true, Option.some.injEq] at h
        subst h
        subst hx
        exact ⟨by simp, by simpa using (strrchr_eq_none_iff xs x).1 hr⟩
      · simp [hx] at h

theorem transform_UserpassKey (F : Features) (P : Parsers) (t : BaseTransform)
    (doc : Document) (arg : String) :
    BaseTransform.transform F P t doc IConfig.UserpassKey arg
      = BaseTransform.transformUserpass t doc arg := rfl

theorem transform_UrlKey (F : Features) (P : Parsers) (t : BaseTransform)
    (doc : Document) (arg : String) :
    BaseTransform.transform F P t doc IConfig.UrlKey arg
      = BaseTransform.transformUrl P t doc arg := rfl

theorem transform_StressKey (F : Features) (P : Parsers) (t : BaseTransform)
    (doc : Document) (arg : String) :
    BaseTransform.transform F P t doc IConfig.StressKey arg
      = BaseTransform.transformUrl P t doc arg := rfl

theorem transform_UserKey (F : Features) (P : Parsers) (t : BaseTransform)
    (doc : Document) (arg : String) :
    BaseTransform.transform F P t doc IConfig.UserKey arg
      = BaseTransform.withState t
          (BaseTransform.add doc Name.Pools_kPools Name.Pool_kUser (Json.str arg)) := rfl

/-- C15: a `--userpass` value with no `:` is silently ignored. For every
fragment and every transform state the call returns normally with the fragment
(no `pools` array is created) and the stored algorithm, coin and `m_http` as
they were. -/
theorem userpass_without_colon_ignored (F : Features) (P : Parsers) (t : BaseTransform)
    (doc : Document) (arg : String) (h : ':' ∉ arg.data) :
    BaseTransform.transform F P t doc IConfig.UserpassKey arg = some (t, doc) := by
  rw [transform_UserpassKey]
  unfold BaseTransform.transformUserpass
  rw [(strrchr_eq_none_iff arg.data ':').2 h]

/-- C15, for the argument `userpass` on the empty fragment. -/
theorem userpass_without_colon_ignored_witness :
    ':' ∉ ("userpass" : String).data ∧
    BaseTransform.transform ⟨true, true, true, false⟩
        ⟨fun _ => true, Json.str, fun _ => true, Json.str, fun _ => true, fun _ => true⟩
        BaseTransform.init [] IConfig.UserpassKey "userpass"
      = some (BaseTransform.init, []) :=
  ⟨by decide,
    userpass_without_colon_ignored ⟨true, true, true, false⟩
      ⟨fun _ => true, Json.str, fun _ => true, Json.str, fun _ => true, fun _ => true⟩
      BaseTransform.init [] "userpass" (by decide)⟩

end xmrig

namespace xmrig

theorem add_pools (doc : Document) (pre : List Json) (ms : Members) (k : Name) (v : Json)
    (h : BaseTransform.PoolTarget doc pre ms) :
    ∃ doc', BaseTransform.add doc Name.Pools_kPools k v = some doc' ∧
      FindMember doc' Name.Pools_kPools
        = some (Json.array (pre ++ [Json.object (BaseTransform.set_obj ms k v)])) ∧
      ∀ k', Name.Pools_kPools ≠ k' → FindMember doc' k' = FindMember doc k' := by
  rcases h with ⟨h, rfl, rfl⟩ | ⟨h, rfl, rfl⟩ | h
  · refine ⟨_, add_of_absent doc _ k v h, ?_, ?_⟩
    · rw [FindMember_AddMember_self doc _ _ h]; rfl
    · intro k' hk; exact FindMember_AddMember_ne doc _ k' _ hk
  · refine ⟨_, add_of_empty doc _ k v h, ?_, ?_⟩
    · rw [FindMember_assign_self doc _ _ _ h]; rfl
    · intro k' hk; exact FindMember_assign_ne doc _ k' _ hk
  · refine ⟨_, add_of_last doc _ k v pre ms h, ?_, ?_⟩
    · rw [FindMember_assign_self doc _ _ _ h]
    · intro k' hk; exact FindMember_assign_ne doc _ k' _ hk

/-- C14: `--userpass` splits its argument at the last `:`. For every argument
holding a `:` and every fragment on which the pool patch is defined, the text
before the last `:` is stored as `user` and the text after it as `pass`, both in
the last element of the `pools` array, whose other members and the elements
before it are as they were; the stored pass holds no `:` and user, `:` and pass
together are the argument. -/
theorem userpass_split (F : Features) (P : Parsers) (t : BaseTransform) (doc : Document)
    (pre : List Json) (ms : Members) (arg : String)
    (h : ':' ∈ arg.data) (hdoc : BaseTransform.PoolTarget doc pre ms) :
    ∃ (user pass : List Char) (doc' : Document),
      arg.data = user ++ ':' :: pass ∧ ':' ∉ pass ∧
      arg = String.mk user ++ ":" ++ String.mk pass ∧
      BaseTransform.transform F P t doc IConfig.UserpassKey arg = some (t, doc') ∧
      FindMember doc' Name.Pools_kPools
        = some (Json.array (pre ++ [Json.object
            (BaseTransform.set_obj
              (BaseTransform.set_obj ms Name.Pool_kUser (Json.str (String.mk user)))
              Name.Pool_kPass (Json.str (String.mk pass)))])) ∧
      FindMember
          (BaseTransform.set_obj
            (BaseTransform.set_obj ms Name.Pool_kUser (Json.str (String.mk user)))
            Name.Pool_kPass (Json.str (String.mk pass))) Name.Pool_kUser
        = some (Json.str (String.mk user)) ∧
      FindMember
          (BaseTransform.set_obj
            (BaseTransform.set_obj ms Name.Pool_kUser (Json.str (String.mk user)))
            Name.Pool_kPass (Json.str (String.mk pass))) Name.Pool_kPass
        = some (Json.str (String.mk pass)) := by
  cases hp : BaseTransform.strrchr arg.data ':' with
  | none => exact absurd h ((strrchr_eq_none_iff _ _).1 hp)
  | some p =>
    obtain ⟨hsplit, hlast⟩ := strrchr_some _ _ _ hp
    obtain ⟨doc1, h1, hf1, _⟩ := add_pools doc pre ms Name.Pool_kUser
      (Json.str (String.mk (arg.data.take p))) hdoc
    obtain ⟨doc2, h2, hf2, _⟩ := add_pools doc1 pre _ Name.Pool_kPass
      (Json.str (String.mk (arg.data.drop (p + 1)))) (Or.inr (Or.inr hf1))
    refine ⟨arg.data.take p, arg.data.drop (p + 1), doc2, hsplit, hlast, ?_, ?_, hf2, ?_, ?_⟩
    · apply String.ext
      simp only [String.data_append]
      simpa using hsplit
    · rw [transform_UserpassKey]
      unfold BaseTransform.transformUserpass
      simp only [hp, h1, h2, BaseTransform.withState, Option.map_some']
    · rw [FindMember_set_obj_ne _ _ _ _ (by decide), FindMember_set_obj_self]
    · exact FindMember_set_obj_self _ _ _

/-- C14, for the argument `a:b:c` on the empty fragment: the user is `a:b` and
the pass is `c`. -/
theorem userpass_split_witness :
    ':' ∈ ("a:b:c" : String).data ∧ BaseTransform.PoolTarget [] [] [] ∧
    ∃ (user pass : List Char) (doc' : Document),
      ("a:b:c" : String).data = user ++ ':' :: pass ∧ ':' ∉ pass ∧
      ("a:b:c" : String) = String.mk user ++ ":" ++ String.mk pass ∧
      BaseTransform.transform ⟨true, true, true, false⟩
          ⟨fun _ => true, Json.str, fun _ => true, Json.str, fun _ => true, fun _ => true⟩
          BaseTransform.init [] IConfig.UserpassKey "a:b:c" = some (BaseTransform.init, doc') ∧
      FindMember doc' Name.Pools_kPools
        = some (Json.array ([] ++ [Json.object
            (BaseTransform.set_obj
              (BaseTransform.set_obj [] Name.Pool_kUser (Json.str (String.mk user)))
              Name.Pool_kPass (Json.str (String.mk pass)))])) ∧
      FindMember
          (BaseTransform.set_obj
            (BaseTransform.set_obj [] Name.Pool_kUser (Json.str (String.mk user)))
            Name.Pool_kPass (Json.str (String.mk pass))) Name.Pool_kUser
        = some (Json.str (String.mk user)) ∧
      FindMember
          (BaseTransform.set_obj
            (BaseTransform.set_obj [] Name.Pool_kUser (Json.str (String.mk user)))
            Name.Pool_kPass (Json.str (String.mk pass))) Name.Pool_kPass
        = some (Json.str (String.mk pass)) :=
  ⟨by decide, Or.inl ⟨rfl, rfl, rfl⟩,
    userpass_split ⟨true, true, true, false⟩
      ⟨fun _ => true, Json.str, fun _ => true, Json.str, fun _ => true, fun _ => true⟩
      BaseTransform.init [] [] [] "a:b:c" (by decide) (Or.inl ⟨rfl, rfl, rfl⟩)⟩

end xmrig

namespace xmrig

theorem startsPool_nil (P : Parsers) : BaseTransform.startsPool P [] = true := rfl

theorem startsPool_concat (P : Parsers) (pre : List Json) (last : Json) :
    BaseTransform.startsPool P (pre ++ [last]) = Pool.isValid P last := by
  simp [BaseTransform.startsPool]

theorem transformUrl_of_absent (P : Parsers) (t : BaseTransform) (doc : Document)
    (arg : String) (h : FindMember doc Name.Pools_kPools = none) :
    BaseTransform.transformUrl P t doc arg
      = some (t, AddMember doc Name.Pools_kPools
          (Json.array [Json.object [(Name.Pool_kUrl, Json.str arg)]])) := by
  have hh : HasMember doc Name.Pools_kPools = false := (HasMember_eq_false_iff doc _).2 h
  unfold BaseTransform.transformUrl
  simp only [hh, Bool.not_false, if_true, FindMember_AddMember_self doc _ _ h,
    startsPool_nil, List.nil_append, set_last_singleton, set_obj_nil,
    assign_AddMember doc _ _ _ h]

theorem transformUrl_of_starts (P : Parsers) (t : BaseTransform) (doc : Document)
    (arg : String) (items : List Json)
    (h : FindMember doc Name.Pools_kPools = some (Json.array items))
    (hs : BaseTransform.startsPool P items = true) :
    BaseTransform.transformUrl P t doc arg
      = some (t, assign doc Name.Pools_kPools
          (Json.array (items ++ [Json.object [(Name.Pool_kUrl, Json.str arg)]]))) := by
  have hh : HasMember doc Name.Pools_kPools = true := (HasMember_eq_true_iff doc _).2 ⟨_, h⟩
  unfold BaseTransform.transformUrl
  simp only [hh, Bool.not_true, Bool.false_eq_true, if_false, h, hs, if_true,
    set_last_concat, set_obj_nil]

theorem transformUrl_of_incomplete (P : Parsers) (t : BaseTransform) (doc : Document)
    (arg : String) (pre : List Json) (ms : Members)
    (h : FindMember doc Name.Pools_kPools = some (Json.array (pre ++ [Json.object ms])))
    (hs : Pool.isValid P (Json.object ms) = false) :
    BaseTransform.transformUrl P t doc arg
      = some (t, assign doc Name.Pools_kPools
          (Json.array (pre ++ [Json.object
            (BaseTransform.set_obj ms Name.Pool_kUrl (Json.str arg))]))) := by
  have hh : HasMember doc Name.Pools_kPools = true := (HasMember_eq_true_iff doc _).2 ⟨_, h⟩
  unfold BaseTransform.transformUrl
  simp only [hh, Bool.not_true, Bool.false_eq_true, if_false, h, startsPool_concat, hs,
    set_last_concat]

/-- C20: `--url` and `--stress` start a new pool object only when the last one
is complete. When the fragment has no `pools` array, or the array is empty, or
its last element is a valid pool, the array grows by exactly one element, the
object holding the URL alone. When the last element is an object that is not a
valid pool the array keeps its length and the URL is written onto that
element. In both cases the earlier elements are as they were. So `--user u1`
followed by `--url` on the empty fragment gives the one entry with `user` and
`url`. -/
theorem url_starts_pool_when_complete (F : Features) (P : Parsers) (t : BaseTransform)
    (doc : Document) (key : IConfig) (arg : String)
    (hkey : key = IConfig.UrlKey ∨ key = IConfig.StressKey) :
    (FindMember doc Name.Pools_kPools = none →
      ∃ doc', BaseTransform.transform F P t doc key arg = some (t, doc') ∧
        FindMember doc' Name.Pools_kPools
          = some (Json.array [Json.object [(Name.Pool_kUrl, Json.str arg)]])) ∧
    (∀ items : List Json, FindMember doc Name.Pools_kPools = some (Json.array items) →
      (items = [] ∨ ∃ pre last, items = pre ++ [last] ∧ Pool.isValid P last = true) →
      ∃ doc', BaseTransform.transform F P t doc key arg = some (t, doc') ∧
        FindMember doc' Name.Pools_kPools
          = some (Json.array (items ++ [Json.object [(Name.Pool_kUrl, Json.str arg)]])) ∧
        (items ++ [Json.object [(Name.Pool_kUrl, Json.str arg)]]).length
          = items.length + 1) ∧
    (∀ (pre : List Json) (ms : Members),
      FindMember doc Name.Pools_kPools = some (Json.array (pre ++ [Json.object ms])) →
      Pool.isValid P (Json.object ms) = false →
      ∃ doc', BaseTransform.transform F P t doc key arg = some (t, doc') ∧
        FindMember doc' Name.Pools_kPools
          = some (Json.array (pre ++ [Json.object
              (BaseTransform.set_obj ms Name.Pool_kUrl (Json.str arg))])) ∧
        (pre ++ [Json.object (BaseTransform.set_obj ms Name.Pool_kUrl (Json.str arg))]).length
          = (pre ++ [Json.object ms]).length ∧
        FindMember (BaseTransform.set_obj ms Name.Pool_kUrl (Json.str arg)) Name.Pool_kUrl
          = some (Json.str arg) ∧
        ∀ k, Name.Pool_kUrl ≠ k →
          FindMember (BaseTransform.set_obj ms Name.Pool_kUrl (Json.str arg)) k
            = FindMember ms k) ∧
    (∀ u1 : String,
      BaseTransform.loadLoop F P [(IConfig.UserKey, u1), (key, arg)] t [] []
        = some (t, [(Name.Pools_kPools, Json.array
            [Json.object [(Name.Pool_kUser, Json.str u1), (Name.Pool_kUrl, Json.str arg)]])],
          [])) := by
  have htr : BaseTransform.transform F P t doc key arg
      = BaseTransform.transformUrl P t doc arg := by
    rcases hkey with rfl | rfl
    · exact transform_UrlKey F P t doc arg
    · exact transform_StressKey F P t doc arg
  refine ⟨?_, ?_, ?_, ?_⟩
  · intro h
    refine ⟨_, htr.trans (transformUrl_of_absent P t doc arg h), ?_⟩
    exact FindMember_AddMember_self doc _ _ h
  · intro items h hs
    have hs' : BaseTransform.startsPool P items = true := by
      rcases hs with rfl | ⟨pre, last, rfl, hv⟩
      · rfl
      · rw [startsPool_concat]; exact hv
    refine ⟨_, htr.trans (transformUrl_of_starts P t doc arg items h hs'), ?_, by simp⟩
    exact FindMember_assign_self doc _ _ _ h
  · intro pre ms h hv
    refine ⟨_, htr.trans (transformUrl_of_incomplete P t doc arg pre ms h hv), ?_, by simp,
      FindMember_set_obj_self _ _ _, ?_⟩
    · exact FindMember_assign_self doc _ _ _ h
    · intro k hk; exact FindMember_set_obj_ne _ _ _ _ hk
  · intro u1
    rcases hkey with rfl | rfl <;> rfl

/-- C20, on the empty fragment, on a fragment whose last pool is valid, and on
a fragment whose last pool has a user and no URL. -/
theorem url_starts_pool_when_complete_witness :
    (∃ doc', BaseTransform.transform ⟨true, true, true, false⟩
        ⟨fun _ => true, Json.str, fun _ => true, Json.str, fun _ => true, fun _ => true⟩
        BaseTransform.init [] IConfig.UrlKey "pool1" = some (BaseTransform.init, doc') ∧
      FindMember doc' Name.Pools_kPools
        = some (Json.array [Json.object [(Name.Pool_kUrl, Json.str "pool1")]])) ∧
    (∃ doc', BaseTransform.transform ⟨true, true, true, false⟩
        ⟨fun _ => true, Json.str, fun _ => true, Json.str, fun _ => true, fun _ => true⟩
        BaseTransform.init
        [(Name.Pools_kPools, Json.array [Json.object [(Name.Pool_kUrl, Json.str "pool1")]])]
        IConfig.UrlKey "pool2" = some (BaseTransform.init, doc') ∧
      FindMember doc' Name.Pools_kPools
        = some (Json.array ([Json.object [(Name.Pool_kUrl, Json.str "pool1")]]
            ++ [Json.object [(Name.Pool_kUrl, Json.str "pool2")]])) ∧
      ([Json.object [(Name.Pool_kUrl, Json.str "pool1")]]
          ++ [Json.object [(Name.Pool_kUrl, Json.str "pool2")]]).length
        = [Json.object [(Name.Pool_kUrl, Json.str "pool1")]].length + 1) ∧
    BaseTransform.loadLoop ⟨true, true, true, false⟩
        ⟨fun _ => true, Json.str, fun _ => true, Json.str, fun _ => true, fun _ => true⟩
        [(IConfig.UserKey, "u1"), (IConfig.UrlKey, "pool1")] BaseTransform.init [] []
      = some (BaseTransform.init, [(Name.Pools_kPools, Json.array
          [Json.object [(Name.Pool_kUser, Json.str "u1"), (Name.Pool_kUrl, Json.str "pool1")]])],
        []) :=
  ⟨(url_starts_pool_when_complete ⟨true, true, true, false⟩
      ⟨fun _ => true, Json.str, fun _ => true, Json.str, fun _ => true, fun _ => true⟩
      BaseTransform.init [] IConfig.UrlKey "pool1" (Or.inl rfl)).1 rfl,
   (url_starts_pool_when_complete ⟨true, true, true, false⟩
      ⟨fun _ => true, Json.str, fun _ => true, Json.str, fun _ => true, fun _ => true⟩
      BaseTransform.init
      [(Name.Pools_kPools, Json.array [Json.object [(Name.Pool_kUrl, Json.str "pool1")]])]
      IConfig.UrlKey "pool2" (Or.inl rfl)).2.1
      [Json.object [(Name.Pool_kUrl, Json.str "pool1")]] rfl
      (Or.inr ⟨[], Json.object [(Name.Pool_kUrl, Json.str "pool1")], rfl, rfl⟩),
   (url_starts_pool_when_complete ⟨true, true, true, false⟩
      ⟨fun _ => true, Json.str, fun _ => true, Json.str, fun _ => true, fun _ => true⟩
      BaseTransform.init [] IConfig.UrlKey "pool1" (Or.inl rfl)).2.2.2 "u1"⟩

end xmrig

namespace xmrig

theorem finalize_init (P : Parsers) (doc : Document) :
    BaseTransform.finalize P BaseTransform.init doc = some doc := by
  simp [BaseTransform.finalize, BaseTransform.backfillPools, BaseTransform.init,
    BaseTransform.algorithmIsValid, BaseTransform.coinIsValid]

theorem loadLoop_urlUser (F : Features) (P : Parsers) (t : BaseTransform)
    (chain : List BaseTransform.ChainCall) :
    ∀ (pairs : List (String × String)) (es : List Json),
      BaseTransform.startsPool P es = true →
      (∀ p ∈ pairs, P.urlIsValid p.1 = true) →
      BaseTransform.loadLoop F P (BaseTransform.urlUserOptions pairs) t
          [(Name.Pools_kPools, Json.array es)] chain
        = some (t, [(Name.Pools_kPools,
            Json.array (es ++ pairs.map BaseTransform.urlUserPool))], chain) := by
  intro pairs
  induction pairs with
  | nil =>
    intro es _ _
    simp [BaseTransform.urlUserOptions, BaseTransform.loadLoop]
  | cons p rest ih =>
    intro es hs hv
    obtain ⟨url, user⟩ := p
    have hurl : P.urlIsValid url = true := hv (url, user) (by simp)
    have h1 : BaseTransform.transform F P t [(Name.Pools_kPools, Json.array es)]
        IConfig.UrlKey url
        = some (t, [(Name.Pools_kPools,
            Json.array (es ++ [Json.object [(Name.Pool_kUrl, Json.str url)]]))]) := by
      rw [transform_UrlKey, transformUrl_of_starts P t _ url es (by simp [FindMember]) hs]
      simp [assign]
    have h2 : BaseTransform.transform F P t [(Name.Pools_kPools,
          Json.array (es ++ [Json.object [(Name.Pool_kUrl, Json.str url)]]))]
        IConfig.UserKey user
        = some (t, [(Name.Pools_kPools,
            Json.array (es ++ [BaseTransform.urlUserPool (url, user)]))]) := by
      rw [transform_UserKey, add_of_last _ _ _ _ es [(Name.Pool_kUrl, Json.str url)]
        (by simp [FindMember])]
      simp [assign, BaseTransform.withState, BaseTransform.set_obj, HasMember, FindMember,
        AddMember, BaseTransform.urlUserPool]
    have hs' : BaseTransform.startsPool P (es ++ [BaseTransform.urlUserPool (url, user)])
        = true := by
      rw [startsPool_concat]
      simp [BaseTransform.urlUserPool, Pool.isValid, FindMember, hurl]
    have hrest := ih (es ++ [BaseTransform.urlUserPool (url, user)]) hs'
      (fun q hq => hv q (List.mem_cons_of_mem _ hq))
    have hc1 : ¬ IConfig.UrlKey = IConfig.ConfigKey := by decide
    have hc2 : ¬ IConfig.UserKey = IConfig.ConfigKey := by decide
    simp only [BaseTransform.urlUserOptions, BaseTransform.loadLoop, hc1, hc2, if_false, h1, h2,
      hrest, List.map_cons, List.append_assoc, List.singleton_append]

/-- C13: starting from the empty fragment, the options
`--url url_1 --user user_1 ... --url url_n --user user_n` with `n ≥ 1` and valid
pool URLs give a fragment whose `pools` array has exactly `n` entries, entry `i`
holding `url_i` and `user_i`, in command-line order; `load` passes this
fragment to the chain. -/
theorem url_user_pairs (F : Features) (P : Parsers) (t : BaseTransform) (argv0 : String)
    (pairs : List (String × String)) (hn : pairs ≠ [])
    (hv : ∀ p ∈ pairs, P.urlIsValid p.1 = true) :
    BaseTransform.loadLoop F P (BaseTransform.urlUserOptions pairs) t [] []
      = some (t, [(Name.Pools_kPools, Json.array (pairs.map BaseTransform.urlUserPool))], []) ∧
    (pairs.map BaseTransform.urlUserPool).length = pairs.length ∧
    (∀ i (h : i < pairs.length),
      (pairs.map BaseTransform.urlUserPool)[i]? =
        some (Json.object [(Name.Pool_kUrl, Json.str pairs[i].1),
          (Name.Pool_kUser, Json.str pairs[i].2)])) ∧
    ∃ log, BaseTransform.load F P argv0 (BaseTransform.urlUserOptions pairs) none
        BaseTransform.init
      = some (BaseTransform.init,
          [BaseTransform.ChainCall.add
            [(Name.Pools_kPools, Json.array (pairs.map BaseTransform.urlUserPool))]], log) := by
  have main : ∀ t : BaseTransform,
      BaseTransform.loadLoop F P (BaseTransform.urlUserOptions pairs) t [] []
        = some (t, [(Name.Pools_kPools, Json.array (pairs.map BaseTransform.urlUserPool))],
          []) := by
    intro t
    cases pairs with
    | nil => exact absurd rfl hn
    | cons p rest =>
      obtain ⟨url, user⟩ := p
      have hurl : P.urlIsValid url = true := hv (url, user) (by simp)
      have h1 : BaseTransform.transform F P t [] IConfig.UrlKey url
          = some (t, [(Name.Pools_kPools,
              Json.array ([] ++ [Json.object [(Name.Pool_kUrl, Json.str url)]]))]) := by
        rw [transform_UrlKey, transformUrl_of_absent P t [] url rfl]
        rfl
      have h2 : BaseTransform.transform F P t [(Name.Pools_kPools,
            Json.array ([] ++ [Json.object [(Name.Pool_kUrl, Json.str url)]]))]
          IConfig.UserKey user
          = some (t, [(Name.Pools_kPools,
              Json.array ([] ++ [BaseTransform.urlUserPool (url, user)]))]) := by
        rw [transform_UserKey, add_of_last _ _ _ _ [] [(Name.Pool_kUrl, Json.str url)]
          (by simp [FindMember])]
        simp [assign, BaseTransform.withState, BaseTransform.set_obj, HasMember, FindMember,
          AddMember, BaseTransform.urlUserPool]
      have hs' : BaseTransform.startsPool P ([] ++ [BaseTransform.urlUserPool (url, user)])
          = true := by
        rw [startsPool_concat]
        simp [BaseTransform.urlUserPool, Pool.isValid, FindMember, hurl]
      have hrest := loadLoop_urlUser F P t [] rest _ hs'
        (fun q hq => hv q (List.mem_cons_of_mem _ hq))
      have hc1 : ¬ IConfig.UrlKey = IConfig.ConfigKey := by decide
      have hc2 : ¬ IConfig.UserKey = IConfig.ConfigKey := by decide
      simp only [List.nil_append, List.singleton_append] at h1 h2 hrest
      simp only [BaseTransform.urlUserOptions, BaseTransform.loadLoop, hc1, hc2, if_false, h1,
        h2, hrest, List.map_cons]
  refine ⟨main t, by simp, ?_, ?_⟩
  · intro i h
    simp [BaseTransform.urlUserPool, h]
  · refine ⟨[], ?_⟩
    simp [BaseTransform.load, main, finalize_init]

/-- C13, for `--url pool1 --user u1 --url pool2 --user u2`: exactly two
entries. -/
theorem url_user_pairs_witness :
    ([("pool1", "u1"), ("pool2", "u2")] : List (String × String)) ≠ [] ∧
    BaseTransform.loadLoop ⟨true, true, true, false⟩
        ⟨fun _ => true, Json.str, fun _ => true, Json.str, fun _ => true, fun _ => true⟩
        [(IConfig.UrlKey, "pool1"), (IConfig.UserKey, "u1"),
          (IConfig.UrlKey, "pool2"), (IConfig.UserKey, "u2")] BaseTransform.init [] []
      = some (BaseTransform.init, [(Name.Pools_kPools, Json.array
          [Json.object [(Name.Pool_kUrl, Json.str "pool1"), (Name.Pool_kUser, Json.str "u1")],
           Json.object [(Name.Pool_kUrl, Json.str "pool2"), (Name.Pool_kUser, Json.str "u2")]])],
        []) :=
  ⟨by decide,
    (url_user_pairs ⟨true, true, true, false⟩
      ⟨fun _ => true, Json.str, fun _ => true, Json.str, fun _ => true, fun _ => true⟩
      BaseTransform.init "xmrig" [("pool1", "u1"), ("pool2", "u2")] (by decide)
      (fun _ _ => rfl)).1⟩

end xmrig

namespace xmrig

theorem IsObject_iff (v : Json) : Json.IsObject v = true ↔ ∃ ms, v = Json.object ms := by
  cases v <;> simp [Json.IsObject]

theorem IsObjectArray_iff (v : Json) :
    BaseTransform.IsObjectArray v ↔
      ∃ items, v = Json.array items ∧ ∀ p ∈ items, Json.IsObject p = true := by
  cases v <;> simp [BaseTransform.IsObjectArray]

theorem WellFormed_nil : BaseTransform.WellFormed [] := by
  intro k v h
  simp [FindMember] at h

theorem FindMember_ensure_self (doc : Members) (K : Name) (d : Json) :
    FindMember (if (!HasMember doc K) = true then AddMember doc K d else doc) K
      = some ((FindMember doc K).getD d) := by
  cases h : FindMember doc K with
  | none =>
    have hh : HasMember doc K = false := (HasMember_eq_false_iff doc K).2 h
    simp [hh, FindMember_AddMember_self doc K d h]
  | some w =>
    have hh : HasMember doc K = true := (HasMember_eq_true_iff doc K).2 ⟨w, h⟩
    simp [hh, h]

theorem FindMember_ensure_ne (doc : Members) (K k : Name) (d : Json) (hk : K ≠ k) :
    FindMember (if (!HasMember doc K) = true then AddMember doc K d else doc) k
      = FindMember doc k := by
  split
  · exact FindMember_AddMember_ne doc K k d hk
  · rfl

theorem WellFormed_assign_ensure (doc : Document) (K : Name) (d v : Json)
    (hwf : BaseTransform.WellFormed doc) (hS : BaseTransform.Shape K v) :
    BaseTransform.WellFormed
      (assign (if (!HasMember doc K) = true then AddMember doc K d else doc) K v) := by
  intro k w h
  by_cases hk : K = k
  · subst hk
    rw [FindMember_assign_self _ _ _ _ (FindMember_ensure_self doc K d)] at h
    cases h
    exact hS
  · rw [FindMember_assign_ne _ _ _ _ hk, FindMember_ensure_ne doc K k d hk] at h
    exact hwf k w h

theorem WellFormed_set_key (doc : Document) (K : Name) (v : Json)
    (hwf : BaseTransform.WellFormed doc) (hS : BaseTransform.Shape K v) :
    BaseTransform.WellFormed (BaseTransform.set_key doc K v) := by
  intro k w h
  by_cases hk : K = k
  · subst hk
    rw [BaseTransform.set_key, FindMember_set_obj_self] at h
    cases h
    exact hS
  · rw [BaseTransform.set_key, FindMember_set_obj_ne _ _ _ _ hk] at h
    exact hwf k w h

theorem FindMember_assign_ensure_ne (doc : Document) (K k : Name) (d v : Json) (hk : K ≠ k) :
    FindMember (assign (if (!HasMember doc K) = true then AddMember doc K d else doc) K v) k
      = FindMember doc k := by
  rw [FindMember_assign_ne _ _ _ _ hk, FindMember_ensure_ne doc K k d hk]

theorem FindMember_assign_ensure_self (doc : Document) (K : Name) (d v : Json) :
    FindMember (assign (if (!HasMember doc K) = true then AddMember doc K d else doc) K v) K
      = some v :=
  FindMember_assign_self _ _ _ _ (FindMember_ensure_self doc K d)

/-- The scalar set inside an object member succeeds when that member, if
present, is an object. -/
theorem set_objKey_eq (doc : Document) (OK k : Name) (v : Json)
    (h : ∀ w, FindMember doc OK = some w → Json.IsObject w = true) :
    ∃ ms, (FindMember doc OK).getD (Json.object []) = Json.object ms ∧
      BaseTransform.set_objKey doc OK k v
        = some (assign (if (!HasMember doc OK) = true then
            AddMember doc OK (Json.object []) else doc) OK
            (Json.object (BaseTransform.set_obj ms k v))) := by
  have hobj : ∃ ms, (FindMember doc OK).getD (Json.object []) = Json.object ms := by
    cases hf : FindMember doc OK with
    | none => exact ⟨[], rfl⟩
    | some w =>
      obtain ⟨ms, rfl⟩ := (IsObject_iff w).1 (h w hf)
      exact ⟨ms, rfl⟩
  obtain ⟨ms, hms⟩ := hobj
  refine ⟨ms, hms, ?_⟩
  unfold BaseTransform.set_objKey
  simp only [FindMember_ensure_self, hms]

theorem set_last_ok (items : List Json) (k : Name) (v : Json) (hne : items ≠ [])
    (hall : ∀ p ∈ items, Json.IsObject p = true) :
    ∃ items', BaseTransform.set_last items k v = some items' ∧
      ∀ p ∈ items', Json.IsObject p = true := by
  rcases List.eq_nil_or_concat items with h | ⟨pre, last, h⟩
  · exact absurd h hne
  · rw [List.concat_eq_append] at h
    subst h
    obtain ⟨ms, rfl⟩ := (IsObject_iff last).1 (hall last (by simp))
    refine ⟨_, set_last_concat pre ms k v, ?_⟩
    intro p hp
    simp only [List.mem_append, List.mem_singleton] at hp
    rcases hp with hp | rfl
    · exact hall p (by simp [hp])
    · rfl

theorem pushed_ok (items : List Json) (c : Prop) [Decidable c]
    (hc : ¬ c → items ≠ []) (hall : ∀ p ∈ items, Json.IsObject p = true) :
    (if c then items ++ [Json.object []] else items) ≠ [] ∧
      ∀ p ∈ (if c then items ++ [Json.object []] else items), Json.IsObject p = true := by
  by_cases h : c
  · simp only [h, if_true]
    refine ⟨by simp, ?_⟩
    intro p hp
    simp only [List.mem_append, List.mem_singleton] at hp
    rcases hp with hp | rfl
    · exact hall p hp
    · rfl
  · simp only [h, if_false]
    exact ⟨hc h, hall⟩

end xmrig

namespace xmrig

theorem Shape_pools (v : Json) :
    BaseTransform.Shape Name.Pools_kPools v ↔ BaseTransform.IsObjectArray v := by
  simp [BaseTransform.Shape]

theorem Shape_ccClient (node : Members) :
    BaseTransform.Shape Name.BaseConfig_kCCClient (Json.object node) ↔
      ∀ w, FindMember node Name.CCClientConfig_kServers = some w →
        BaseTransform.IsObjectArray w := by
  simp [BaseTransform.Shape]

theorem Shape_ccClient_isObject (v : Json)
    (h : BaseTransform.Shape Name.BaseConfig_kCCClient v) : Json.IsObject v = true := by
  cases v <;> simp_all [BaseTransform.Shape, Json.IsObject]

theorem pools_getD (doc : Document) (hwf : BaseTransform.WellFormed doc) :
    ∃ items, (FindMember doc Name.Pools_kPools).getD (Json.array []) = Json.array items ∧
      ∀ p ∈ items, Json.IsObject p = true := by
  cases hf : FindMember doc Name.Pools_kPools with
  | none => exact ⟨[], rfl, by simp⟩
  | some w =>
    obtain ⟨items, rfl, hall⟩ := (IsObjectArray_iff w).1 ((Shape_pools w).1 (hwf _ w hf))
    exact ⟨items, rfl, hall⟩

theorem servers_getD (node : Members)
    (h : ∀ w, FindMember node Name.CCClientConfig_kServers = some w →
      BaseTransform.IsObjectArray w) :
    ∃ items, (FindMember node Name.CCClientConfig_kServers).getD (Json.array [])
        = Json.array items ∧ ∀ p ∈ items, Json.IsObject p = true := by
  cases hf : FindMember node Name.CCClientConfig_kServers with
  | none => exact ⟨[], rfl, by simp⟩
  | some w =>
    obtain ⟨items, rfl, hall⟩ := (IsObjectArray_iff w).1 (h w hf)
    exact ⟨items, rfl, hall⟩

theorem ccClient_getD (doc : Document) (hwf : BaseTransform.WellFormed doc) :
    ∃ node, (FindMember doc Name.BaseConfig_kCCClient).getD (Json.object [])
        = Json.object node ∧
      ∀ w, FindMember node Name.CCClientConfig_kServers = some w →
        BaseTransform.IsObjectArray w := by
  cases hf : FindMember doc Name.BaseConfig_kCCClient with
  | none => exact ⟨[], rfl, by simp [FindMember]⟩
  | some w =>
    have hS := hwf _ w hf
    obtain ⟨node, rfl⟩ := (IsObject_iff w).1 (Shape_ccClient_isObject w hS)
    exact ⟨node, rfl, (Shape_ccClient node).1 hS⟩

theorem add_pools_ok (doc : Document) (k : Name) (v : Json)
    (hwf : BaseTransform.WellFormed doc) :
    ∃ doc', BaseTransform.add doc Name.Pools_kPools k v = some doc' ∧
      BaseTransform.WellFormed doc' ∧
      ∀ k', Name.Pools_kPools ≠ k' → FindMember doc' k' = FindMember doc k' := by
  obtain ⟨items, hitems, hall⟩ := pools_getD doc hwf
  obtain ⟨hne, hall1⟩ := pushed_ok items (items.length = 0)
    (fun h e => h (by simp [e])) hall
  obtain ⟨items', hset, hall'⟩ := set_last_ok _ k v hne hall1
  refine ⟨_, ?_, WellFormed_assign_ensure doc Name.Pools_kPools (Json.array [])
    (Json.array items') hwf ((Shape_pools _).2 hall'),
    fun k' hk => FindMember_assign_ensure_ne doc _ k' _ _ hk⟩
  unfold BaseTransform.add
  simp only [FindMember_ensure_self, hitems, hset]

theorem transformUrl_ok (P : Parsers) (t : BaseTransform) (doc : Document) (arg : String)
    (hwf : BaseTransform.WellFormed doc) :
    ∃ doc', BaseTransform.transformUrl P t doc arg = some (t, doc') ∧
      BaseTransform.WellFormed doc' := by
  obtain ⟨items, hitems, hall⟩ := pools_getD doc hwf
  obtain ⟨hne, hall1⟩ := pushed_ok items (BaseTransform.startsPool P items = true)
    (fun h e => h (by rw [e]; rfl)) hall
  obtain ⟨items', hset, hall'⟩ := set_last_ok _ Name.Pool_kUrl (Json.str arg) hne hall1
  refine ⟨_, ?_, WellFormed_assign_ensure doc Name.Pools_kPools (Json.array [])
    (Json.array items') hwf ((Shape_pools _).2 hall')⟩
  unfold BaseTransform.transformUrl
  simp only [FindMember_ensure_self, hitems, hset]

theorem set_objKey_plain_ok (doc : Document) (OK k : Name) (v : Json)
    (hOK : OK = Name.BaseConfig_kHttp ∨ OK = Name.BaseConfig_kApi ∨ OK = Name.BaseConfig_kTls
      ∨ OK = Name.DnsConfig_kField)
    (hwf : BaseTransform.WellFormed doc) :
    ∃ doc' ms, BaseTransform.set_objKey doc OK k v = some doc' ∧
      BaseTransform.WellFormed doc' ∧
      FindMember doc' OK = some (Json.object (BaseTransform.set_obj ms k v)) ∧
      ∀ k', OK ≠ k' → FindMember doc' k' = FindMember doc k' := by
  have hobj : ∀ w, FindMember doc OK = some w → Json.IsObject w = true := by
    intro w hw
    have hS := hwf OK w hw
    rcases hOK with rfl | rfl | rfl | rfl <;> simpa [BaseTransform.Shape] using hS
  obtain ⟨ms, _, heq⟩ := set_objKey_eq doc OK k v hobj
  refine ⟨_, ms, heq, ?_, FindMember_assign_ensure_self doc OK _ _,
    fun k' hk => FindMember_assign_ensure_ne doc OK k' _ _ hk⟩
  apply WellFormed_assign_ensure doc OK _ _ hwf
  rcases hOK with rfl | rfl | rfl | rfl <;> simp [BaseTransform.Shape, Json.IsObject]

theorem set_objKey_cc_ok (doc : Document) (k : Name) (v : Json)
    (hk : k ≠ Name.CCClientConfig_kServers) (hwf : BaseTransform.WellFormed doc) :
    ∃ doc', BaseTransform.set_objKey doc Name.BaseConfig_kCCClient k v = some doc' ∧
      BaseTransform.WellFormed doc' := by
  have hobj : ∀ w, FindMember doc Name.BaseConfig_kCCClient = some w →
      Json.IsObject w = true := fun w hw => Shape_ccClient_isObject w (hwf _ w hw)
  obtain ⟨ms, hms, heq⟩ := set_objKey_eq doc Name.BaseConfig_kCCClient k v hobj
  obtain ⟨node, hnode, hserv⟩ := ccClient_getD doc hwf
  rw [hnode] at hms
  cases hms
  refine ⟨_, heq, WellFormed_assign_ensure doc _ _ _ hwf ((Shape_ccClient _).2 ?_)⟩
  intro w hw
  rw [FindMember_set_obj_ne _ _ _ _ hk] at hw
  exact hserv w hw

theorem addToNode_ok (doc : Document) (k : Name) (v : Json)
    (hwf : BaseTransform.WellFormed doc) :
    ∃ doc', BaseTransform.addToNode doc Name.BaseConfig_kCCClient
        Name.CCClientConfig_kServers k v = some doc' ∧
      BaseTransform.WellFormed doc' := by
  obtain ⟨node, hnode, hserv⟩ := ccClient_getD doc hwf
  obtain ⟨items, hitems, hall⟩ := servers_getD node hserv
  obtain ⟨hne, hall1⟩ := pushed_ok items (items.length = 0)
    (fun h e => h (by simp [e])) hall
  obtain ⟨items', hset, hall'⟩ := set_last_ok _ k v hne hall1
  refine ⟨_, ?_, WellFormed_assign_ensure doc Name.BaseConfig_kCCClient (Json.object [])
    (Json.object (assign (if (!HasMember node Name.CCClientConfig_kServers) = true then
      AddMember node Name.CCClientConfig_kServers (Json.array []) else node)
      Name.CCClientConfig_kServers (Json.array items'))) hwf ((Shape_ccClient _).2 ?_)⟩
  · unfold BaseTransform.addToNode
    simp only [FindMember_ensure_self, hnode, hitems, hset]
  · intro w hw
    rw [FindMember_assign_ensure_self] at hw
    cases hw
    exact hall'

theorem transformCCUrl_ok (P : Parsers) (t : BaseTransform) (doc : Document) (arg : String)
    (hwf : BaseTransform.WellFormed doc) :
    ∃ doc', BaseTransform.transformCCUrl P t doc arg = some (t, doc') ∧
      BaseTransform.WellFormed doc' := by
  obtain ⟨node, hnode, hserv⟩ := ccClient_getD doc hwf
  obtain ⟨items, hitems, hall⟩ := servers_getD node hserv
  obtain ⟨hne, hall1⟩ := pushed_ok items (BaseTransform.startsServer P items = true)
    (fun h e => h (by rw [e]; rfl)) hall
  obtain ⟨items', hset, hall'⟩ := set_last_ok _ Name.CCClientConfig_kUrl (Json.str arg)
    hne hall1
  refine ⟨_, ?_, WellFormed_assign_ensure doc Name.BaseConfig_kCCClient (Json.object [])
    (Json.object (assign (if (!HasMember node Name.CCClientConfig_kServers) = true then
      AddMember node Name.CCClientConfig_kServers (Json.array []) else node)
      Name.CCClientConfig_kServers (Json.array items'))) hwf ((Shape_ccClient _).2 ?_)⟩
  · unfold BaseTransform.transformCCUrl
    simp only [FindMember_ensure_self, hnode, hitems, hset]
  · intro w hw
    rw [FindMember_assign_ensure_self] at hw
    cases hw
    exact hall'

theorem transformUserpass_ok (t : BaseTransform) (doc : Document) (arg : String)
    (hwf : BaseTransform.WellFormed doc) :
    ∃ doc', BaseTransform.transformUserpass t doc arg = some (t, doc') ∧
      BaseTransform.WellFormed doc' := by
  unfold BaseTransform.transformUserpass
  cases hp : BaseTransform.strrchr arg.data ':' with
  | none => exact ⟨doc, rfl, hwf⟩
  | some p =>
    obtain ⟨doc1, h1, hwf1, _⟩ := add_pools_ok doc Name.Pool_kUser
      (Json.str (String.mk (arg.data.take p))) hwf
    obtain ⟨doc2, h2, hwf2, _⟩ := add_pools_ok doc1 Name.Pool_kPass
      (Json.str (String.mk (arg.data.drop (p + 1)))) hwf1
    exact ⟨doc2, by simp only [h1, h2, BaseTransform.withState, Option.map_some'], hwf2⟩

end xmrig

namespace xmrig

theorem ok_of_some (t T : BaseTransform) (b : Bool) (doc' : Document)
    (hT : T.m_http = (t.m_http || b)) (hwf : BaseTransform.WellFormed doc') :
    ∃ t' doc'', some (T, doc') = some (t', doc'') ∧ BaseTransform.WellFormed doc'' ∧
      t'.m_http = (t.m_http || b) :=
  ⟨T, doc', rfl, hwf, hT⟩

theorem ok_of_pair (t T : BaseTransform) (b : Bool) (e : Option (BaseTransform × Document))
    (hT : T.m_http = (t.m_http || b))
    (h : ∃ doc', e = some (T, doc') ∧ BaseTransform.WellFormed doc') :
    ∃ t' doc'', e = some (t', doc'') ∧ BaseTransform.WellFormed doc'' ∧
      t'.m_http = (t.m_http || b) := by
  obtain ⟨doc', he, hwf⟩ := h
  exact ⟨T, doc', he, hwf, hT⟩

theorem ok_of_withState (t T : BaseTransform) (b : Bool) (o : Option Document)
    (hT : T.m_http = (t.m_http || b))
    (h : ∃ doc', o = some doc' ∧ BaseTransform.WellFormed doc') :
    ∃ t' doc'', BaseTransform.withState T o = some (t', doc'') ∧
      BaseTransform.WellFormed doc'' ∧ t'.m_http = (t.m_http || b) := by
  obtain ⟨doc', ho, hwf⟩ := h
  exact ⟨T, doc', by simp [BaseTransform.withState, ho], hwf, hT⟩

theorem add_pools_ok2 (doc : Document) (k : Name) (v : Json)
    (hwf : BaseTransform.WellFormed doc) :
    ∃ doc', BaseTransform.add doc Name.Pools_kPools k v = some doc' ∧
      BaseTransform.WellFormed doc' := by
  obtain ⟨doc', h, hwf', _⟩ := add_pools_ok doc k v hwf
  exact ⟨doc', h, hwf'⟩

theorem set_objKey_plain_ok2 (doc : Document) (OK k : Name) (v : Json)
    (hOK : OK = Name.BaseConfig_kHttp ∨ OK = Name.BaseConfig_kApi ∨ OK = Name.BaseConfig_kTls
      ∨ OK = Name.DnsConfig_kField)
    (hwf : BaseTransform.WellFormed doc) :
    ∃ doc', BaseTransform.set_objKey doc OK k v = some doc' ∧
      BaseTransform.WellFormed doc' := by
  obtain ⟨doc', _, h, hwf', _⟩ := set_objKey_plain_ok doc OK k v hOK hwf
  exact ⟨doc', h, hwf'⟩

set_option maxHeartbeats 4000000 in
/-- On a well-formed fragment every option is transformed without failure, the
result is well formed, and `m_http` is set exactly by the five HTTP options. -/
theorem transform_ok (F : Features) (P : Parsers) (t : BaseTransform) (doc : Document)
    (key : IConfig) (arg : String) (hwf : BaseTransform.WellFormed doc) :
    ∃ t' doc', BaseTransform.transform F P t doc key arg = some (t', doc') ∧
      BaseTransform.WellFormed doc' ∧
      t'.m_http = (t.m_http || BaseTransform.isHttpKey key) := by
  cases key <;>
    simp only [BaseTransform.transform, BaseTransform.transformBoolean,
      BaseTransform.transformUint64, BaseTransform.isHttpKey] <;>
    (try split) <;>
    first
    | exact ok_of_some t _ _ _ (by simp) hwf
    | exact ok_of_some t _ _ _ (by simp)
        (WellFormed_set_key _ _ _ hwf (by simp [BaseTransform.Shape]))
    | exact ok_of_withState t _ _ _ (by simp) (add_pools_ok2 _ _ _ hwf)
    | exact ok_of_withState t _ _ _ (by simp) (set_objKey_cc_ok _ _ _ (by simp) hwf)
    | exact ok_of_withState t _ _ _ (by simp)
        (set_objKey_plain_ok2 _ _ _ _ (by simp) hwf)
    | exact ok_of_withState t _ _ _ (by simp) (addToNode_ok _ _ _ hwf)
    | exact ok_of_pair t t _ _ (by simp) (transformUrl_ok P t doc arg hwf)
    | exact ok_of_pair t t _ _ (by simp) (transformCCUrl_ok P t doc arg hwf)
    | exact ok_of_pair t t _ _ (by simp) (transformUserpass_ok t doc arg hwf)

end xmrig

namespace xmrig

theorem WellFormed_assign (doc : Document) (K : Name) (v w : Json)
    (hwf : BaseTransform.WellFormed doc) (hK : FindMember doc K = some w)
    (hS : BaseTransform.Shape K v) : BaseTransform.WellFormed (assign doc K v) := by
  intro k x h
  by_cases hk : K = k
  · subst hk
    rw [FindMember_assign_self _ _ _ _ hK] at h
    cases h
    exact hS
  · rw [FindMember_assign_ne _ _ _ _ hk] at h
    exact hwf k x h

theorem backfill_ok (key : Name) (value : Json) :
    ∀ items : List Json, (∀ p ∈ items, Json.IsObject p = true) →
      ∃ items', BaseTransform.backfill items key value = some items' ∧
        List.Forall₂ (fun p p' => ∃ ms, p = Json.object ms ∧
          p' = Json.object (if (!HasMember ms key) = true then AddMember ms key value else ms))
          items items' := by
  intro items
  induction items with
  | nil => intro _; exact ⟨[], rfl, List.Forall₂.nil⟩
  | cons p rest ih =>
    intro hall
    obtain ⟨ms, rfl⟩ := (IsObject_iff p).1 (hall p (by simp))
    obtain ⟨rest', hr, hf⟩ := ih (fun q hq => hall q (List.mem_cons_of_mem _ hq))
    refine ⟨_, by simp only [BaseTransform.backfill, hr], List.Forall₂.cons ⟨ms, rfl, rfl⟩ hf⟩

theorem Forall₂_isObject {R : Json → Json → Prop} (hR : ∀ p p', R p p' → Json.IsObject p' = true) :
    ∀ {xs ys : List Json}, List.Forall₂ R xs ys → ∀ q ∈ ys, Json.IsObject q = true := by
  intro xs ys h
  induction h with
  | nil => intro q hq; cases hq
  | cons hab _ ih =>
    intro q hq
    rcases List.mem_cons.1 hq with rfl | hq
    · exact hR _ _ hab
    · exact ih q hq

theorem fill_find_self (ms : Members) (key : Name) (value : Json) :
    FindMember (if (!HasMember ms key) = true then AddMember ms key value else ms) key
      = some ((FindMember ms key).getD value) := FindMember_ensure_self ms key value

theorem fill_find_ne (ms : Members) (key k : Name) (value : Json) (hk : key ≠ k) :
    FindMember (if (!HasMember ms key) = true then AddMember ms key value else ms) k
      = FindMember ms k := FindMember_ensure_ne ms key k value hk

/-- One back-fill block of `finalize` on a fragment whose `pools` member, when
present, is an array of objects. -/
theorem backfillPools_ok (doc : Document) (valid : Bool) (key : Name) (value : Json)
    (hp : ∀ w, FindMember doc Name.Pools_kPools = some w → BaseTransform.IsObjectArray w) :
    ∃ doc', BaseTransform.backfillPools doc valid key value = some doc' ∧
      (∀ k, Name.Pools_kPools ≠ k → FindMember doc' k = FindMember doc k) ∧
      (∀ pools, FindMember doc Name.Pools_kPools = some (Json.array pools) →
        ∃ pools', FindMember doc' Name.Pools_kPools = some (Json.array pools') ∧
          List.Forall₂ (fun p p' => ∃ ms, p = Json.object ms ∧
            p' = Json.object (if valid = true then
              (if (!HasMember ms key) = true then AddMember ms key value else ms) else ms))
            pools pools') ∧
      (FindMember doc Name.Pools_kPools = none → FindMember doc' Name.Pools_kPools = none) := by
  unfold BaseTransform.backfillPools
  cases hv : valid
  · refine ⟨doc, by simp, fun _ _ => rfl, ?_, fun h => h⟩
    intro pools hpools
    obtain ⟨items, hi, hall⟩ := (IsObjectArray_iff _).1 (hp _ hpools)
    cases hi
    refine ⟨pools, hpools, ?_⟩
    clear hpools hp
    induction pools with
    | nil => exact List.Forall₂.nil
    | cons p rest ih =>
      obtain ⟨ms, rfl⟩ := (IsObject_iff p).1 (hall p (by simp))
      exact List.Forall₂.cons ⟨ms, rfl, by simp⟩
        (ih (fun q hq => hall q (List.mem_cons_of_mem _ hq)))
  · cases hf : FindMember doc Name.Pools_kPools with
    | none =>
      have hh : HasMember doc Name.Pools_kPools = false := (HasMember_eq_false_iff _ _).2 hf
      refine ⟨doc, by simp [hh], fun _ _ => rfl, ?_, fun _ => hf⟩
      intro pools hpools
      cases hpools
    | some w =>
      have hh : HasMember doc Name.Pools_kPools = true :=
        (HasMember_eq_true_iff _ _).2 ⟨w, hf⟩
      obtain ⟨items, rfl, hall⟩ := (IsObjectArray_iff _).1 (hp _ hf)
      obtain ⟨items', hb, hfor⟩ := backfill_ok key value items hall
      refine ⟨assign doc Name.Pools_kPools (Json.array items'), by simp [hh, hb],
        fun k hk => FindMember_assign_ne _ _ _ _ hk, ?_, fun h => by cases h⟩
      intro pools hpools
      cases hpools
      refine ⟨items', FindMember_assign_self _ _ _ _ hf, ?_⟩
      simpa using hfor

end xmrig

namespace xmrig

theorem Forall₂_comp {R S T : Json → Json → Prop}
    (h : ∀ a b c, R a b → S b c → T a c) :
    ∀ {xs ys zs : List Json}, List.Forall₂ R xs ys → List.Forall₂ S ys zs →
      List.Forall₂ T xs zs := by
  intro xs ys zs h1
  induction h1 generalizing zs with
  | nil => intro h2; cases h2; exact List.Forall₂.nil
  | cons hab _ ih =>
    intro h2
    cases h2 with
    | cons hbc hrest => exact List.Forall₂.cons (h _ _ _ hab hbc) (ih hrest)

theorem transform_AlgorithmKey_of_absent (F : Features) (P : Parsers) (t : BaseTransform)
    (doc : Document) (arg : String) (h : FindMember doc Name.Pools_kPools = none) :
    BaseTransform.transform F P t doc IConfig.AlgorithmKey arg
      = some ({ t with m_algorithm := some arg }, doc) := by
  have hh : HasMember doc Name.Pools_kPools = false := (HasMember_eq_false_iff _ _).2 h
  simp [BaseTransform.transform, hh]

theorem transform_CoinKey_of_absent (F : Features) (P : Parsers) (t : BaseTransform)
    (doc : Document) (arg : String) (h : FindMember doc Name.Pools_kPools = none) :
    BaseTransform.transform F P t doc IConfig.CoinKey arg
      = some ({ t with m_coin := some arg }, doc) := by
  have hh : HasMember doc Name.Pools_kPools = false := (HasMember_eq_false_iff _ _).2 h
  simp [BaseTransform.transform, hh]

/-- C16: `finalize` back-fills the stored algorithm and coin. `--algo` (resp.
`--coin`) given while the fragment has no `pools` member is stored in the
transform. When the stored algorithm (resp. coin) is valid and the fragment has
a `pools` array of objects, after `finalize` every pool carries an `algo` (resp.
`coin`) member: its own value when it had one, the stored value otherwise. The
pools keep their number and order and every other member keeps its value. -/
theorem finalize_backfill (F : Features) (P : Parsers) (t : BaseTransform) (doc : Document)
    (pools : List Json)
    (hpools : FindMember doc Name.Pools_kPools = some (Json.array pools))
    (hobj : ∀ p ∈ pools, Json.IsObject p = true)
    (hhttp : t.m_http = true →
      ∀ w, FindMember doc Name.BaseConfig_kHttp = some w → Json.IsObject w = true) :
    (∀ (doc0 : Document) (a : String), FindMember doc0 Name.Pools_kPools = none →
      BaseTransform.transform F P t doc0 IConfig.AlgorithmKey a
        = some ({ t with m_algorithm := some a }, doc0) ∧
      BaseTransform.transform F P t doc0 IConfig.CoinKey a
        = some ({ t with m_coin := some a }, doc0)) ∧
    ∃ doc' pools', BaseTransform.finalize P t doc = some doc' ∧
      FindMember doc' Name.Pools_kPools = some (Json.array pools') ∧
      pools'.length = pools.length ∧
      List.Forall₂ (fun p p' => ∃ ms ms', p = Json.object ms ∧ p' = Json.object ms' ∧
          (t.algorithmIsValid P = true →
            FindMember ms' Name.Pool_kAlgo
              = some ((FindMember ms Name.Pool_kAlgo).getD (t.algorithmToJSON P))) ∧
          (t.algorithmIsValid P = false →
            FindMember ms' Name.Pool_kAlgo = FindMember ms Name.Pool_kAlgo) ∧
          (t.coinIsValid P = true →
            FindMember ms' Name.Pool_kCoin
              = some ((FindMember ms Name.Pool_kCoin).getD (t.coinToJSON P))) ∧
          (t.coinIsValid P = false →
            FindMember ms' Name.Pool_kCoin = FindMember ms Name.Pool_kCoin) ∧
          (∀ k, k ≠ Name.Pool_kAlgo → k ≠ Name.Pool_kCoin →
            FindMember ms' k = FindMember ms k))
        pools pools' := by
  refine ⟨fun doc0 a h0 => ⟨transform_AlgorithmKey_of_absent F P t doc0 a h0,
    transform_CoinKey_of_absent F P t doc0 a h0⟩, ?_⟩
  have hp : ∀ w, FindMember doc Name.Pools_kPools = some w → BaseTransform.IsObjectArray w := by
    intro w hw
    rw [hpools] at hw
    cases hw
    exact hobj
  obtain ⟨doc1, h1, hframe1, hfill1, _⟩ := backfillPools_ok doc (t.algorithmIsValid P)
    Name.Pool_kAlgo (t.algorithmToJSON P) hp
  obtain ⟨pools1, hpools1, hfor1⟩ := hfill1 pools hpools
  have hobj1 : ∀ p ∈ pools1, Json.IsObject p = true :=
    Forall₂_isObject (fun p p' h => by obtain ⟨ms, _, rfl⟩ := h; rfl) hfor1
  have hp1 : ∀ w, FindMember doc1 Name.Pools_kPools = some w →
      BaseTransform.IsObjectArray w := by
    intro w hw
    rw [hpools1] at hw
    cases hw
    exact hobj1
  obtain ⟨doc2, h2, hframe2, hfill2, _⟩ := backfillPools_ok doc1 (t.coinIsValid P)
    Name.Pool_kCoin (t.coinToJSON P) hp1
  obtain ⟨pools2, hpools2, hfor2⟩ := hfill2 pools1 hpools1
  have hfor : List.Forall₂ (fun p p' => ∃ ms ms', p = Json.object ms ∧ p' = Json.object ms' ∧
          (t.algorithmIsValid P = true →
            FindMember ms' Name.Pool_kAlgo
              = some ((FindMember ms Name.Pool_kAlgo).getD (t.algorithmToJSON P))) ∧
          (t.algorithmIsValid P = false →
            FindMember ms' Name.Pool_kAlgo = FindMember ms Name.Pool_kAlgo) ∧
          (t.coinIsValid P = true →
            FindMember ms' Name.Pool_kCoin
              = some ((FindMember ms Name.Pool_kCoin).getD (t.coinToJSON P))) ∧
          (t.coinIsValid P = false →
            FindMember ms' Name.Pool_kCoin = FindMember ms Name.Pool_kCoin) ∧
          (∀ k, k ≠ Name.Pool_kAlgo → k ≠ Name.Pool_kCoin →
            FindMember ms' k = FindMember ms k))
        pools pools2 := by
    refine Forall₂_comp ?_ hfor1 hfor2
    rintro a b c ⟨ms, rfl, rfl⟩ ⟨ms1, hms1, rfl⟩
    cases hms1
    refine ⟨ms, _, rfl, rfl, ?_, ?_, ?_, ?_, ?_⟩
    · intro ha
      cases hc : t.coinIsValid P
      · simp only [ha, if_true, Bool.false_eq_true, if_false]
        exact fill_find_self ms _ _
      · simp only [ha, if_true]
        rw [fill_find_ne _ _ _ _ (by decide)]
        exact fill_find_self ms _ _
    · intro ha
      cases hc : t.coinIsValid P
      · simp only [ha, if_true, Bool.false_eq_true, if_false]
      · simp only [ha, if_true, Bool.false_eq_true, if_false]
        exact fill_find_ne _ _ _ _ (by decide)
    · intro hc
      cases ha : t.algorithmIsValid P
      · simp only [hc, if_true, Bool.false_eq_true, if_false]
        exact fill_find_self ms _ _
      · simp only [hc, if_true]
        rw [fill_find_self, fill_find_ne _ _ _ _ (by decide)]
    · intro hc
      cases ha : t.algorithmIsValid P
      · simp only [hc, if_true, Bool.false_eq_true, if_false]
      · simp only [hc, if_true, Bool.false_eq_true, if_false]
        exact fill_find_ne _ _ _ _ (by decide)
    · intro k hka hkc
      have hka' : Name.Pool_kAlgo ≠ k := fun e => hka e.symm
      have hkc' : Name.Pool_kCoin ≠ k := fun e => hkc e.symm
      cases ha : t.algorithmIsValid P <;> cases hc : t.coinIsValid P <;>
        simp only [if_true, Bool.false_eq_true, if_false, fill_find_ne _ _ _ _ hka',
          fill_find_ne _ _ _ _ hkc']
  have hlen : pools2.length = pools.length := (List.Forall₂.length_eq hfor).symm
  cases hm : t.m_http
  · refine ⟨doc2, pools2, ?_, hpools2, hlen, hfor⟩
    simp only [BaseTransform.finalize, h1, h2, hm, Bool.false_eq_true, if_false]
  · have hobjH : ∀ w, FindMember doc2 Name.BaseConfig_kHttp = some w →
        Json.IsObject w = true := by
      intro w hw
      rw [hframe2 _ (by decide), hframe1 _ (by decide)] at hw
      exact hhttp hm w hw
    obtain ⟨ms, _, heq⟩ := set_objKey_eq doc2 Name.BaseConfig_kHttp Name.Http_kEnabled
      (Json.bool true) hobjH
    refine ⟨assign (if (!HasMember doc2 Name.BaseConfig_kHttp) = true then
        AddMember doc2 Name.BaseConfig_kHttp (Json.object []) else doc2)
        Name.BaseConfig_kHttp
        (Json.object (BaseTransform.set_obj ms Name.Http_kEnabled (Json.bool true))),
      pools2, ?_, ?_, hlen, hfor⟩
    · simp only [BaseTransform.finalize, h1, h2, hm, if_true, heq]
    · rw [FindMember_assign_ensure_ne _ _ _ _ _ (by decide)]
      exact hpools2

end xmrig

namespace xmrig

/-- C16, for the stored algorithm `rx/0` and two pools of which the second
carries the algorithm `cn/r`. -/
theorem finalize_backfill_witness :
    FindMember ([(Name.Pools_kPools, Json.array [Json.object [(Name.Pool_kUrl, Json.str "p1")],
        Json.object [(Name.Pool_kUrl, Json.str "p2"), (Name.Pool_kAlgo, Json.str "cn/r")]])] : Document) Name.Pools_kPools = some (Json.array [Json.object [(Name.Pool_kUrl, Json.str "p1")],
        Json.object [(Name.Pool_kUrl, Json.str "p2"), (Name.Pool_kAlgo, Json.str "cn/r")]]) ∧
    (∀ p ∈ ([Json.object [(Name.Pool_kUrl, Json.str "p1")],
        Json.object [(Name.Pool_kUrl, Json.str "p2"), (Name.Pool_kAlgo, Json.str "cn/r")]] : List Json), Json.IsObject p = true) ∧
    ((⟨some "rx/0", none, false⟩ : BaseTransform).m_http = true →
      ∀ w, FindMember ([(Name.Pools_kPools, Json.array [Json.object [(Name.Pool_kUrl, Json.str "p1")],
        Json.object [(Name.Pool_kUrl, Json.str "p2"), (Name.Pool_kAlgo, Json.str "cn/r")]])] : Document) Name.BaseConfig_kHttp = some w →
        Json.IsObject w = true) ∧
    ∃ doc' pools', BaseTransform.finalize ⟨fun _ => true, Json.str, fun _ => true, Json.str, fun _ => true, fun _ => true⟩ (⟨some "rx/0", none, false⟩ : BaseTransform) [(Name.Pools_kPools, Json.array [Json.object [(Name.Pool_kUrl, Json.str "p1")],
        Json.object [(Name.Pool_kUrl, Json.str "p2"), (Name.Pool_kAlgo, Json.str "cn/r")]])] = some doc' ∧
      FindMember doc' Name.Pools_kPools = some (Json.array pools') ∧
      pools'.length = ([Json.object [(Name.Pool_kUrl, Json.str "p1")],
        Json.object [(Name.Pool_kUrl, Json.str "p2"), (Name.Pool_kAlgo, Json.str "cn/r")]] : List Json).length ∧
      List.Forall₂ (fun p p' => ∃ ms ms', p = Json.object ms ∧ p' = Json.object ms' ∧
          (BaseTransform.algorithmIsValid ⟨fun _ => true, Json.str, fun _ => true, Json.str, fun _ => true, fun _ => true⟩ (⟨some "rx/0", none, false⟩ : BaseTransform) = true →
            FindMember ms' Name.Pool_kAlgo
              = some ((FindMember ms Name.Pool_kAlgo).getD (BaseTransform.algorithmToJSON ⟨fun _ => true, Json.str, fun _ => true, Json.str, fun _ => true, fun _ => true⟩ (⟨some "rx/0", none, false⟩ : BaseTransform)))) ∧
          (BaseTransform.algorithmIsValid ⟨fun _ => true, Json.str, fun _ => true, Json.str, fun _ => true, fun _ => true⟩ (⟨some "rx/0", none, false⟩ : BaseTransform) = false →
            FindMember ms' Name.Pool_kAlgo = FindMember ms Name.Pool_kAlgo) ∧
          (BaseTransform.coinIsValid ⟨fun _ => true, Json.str, fun _ => true, Json.str, fun _ => true, fun _ => true⟩ (⟨some "rx/0", none, false⟩ : BaseTransform) = true →
            FindMember ms' Name.Pool_kCoin
              = some ((FindMember ms Name.Pool_kCoin).getD (BaseTransform.coinToJSON ⟨fun _ => true, Json.str, fun _ => true, Json.str, fun _ => true, fun _ => true⟩ (⟨some "rx/0", none, false⟩ : BaseTransform)))) ∧
          (BaseTransform.coinIsValid ⟨fun _ => true, Json.str, fun _ => true, Json.str, fun _ => true, fun _ => true⟩ (⟨some "rx/0", none, false⟩ : BaseTransform) = false →
            FindMember ms' Name.Pool_kCoin = FindMember ms Name.Pool_kCoin) ∧
          (∀ k, k ≠ Name.Pool_kAlgo → k ≠ Name.Pool_kCoin →
            FindMember ms' k = FindMember ms k))
        [Json.object [(Name.Pool_kUrl, Json.str "p1")],
        Json.object [(Name.Pool_kUrl, Json.str "p2"), (Name.Pool_kAlgo, Json.str "cn/r")]] pools' :=
  ⟨rfl, (by simp [Json.IsObject]), (fun h => by cases h),
    (finalize_backfill ⟨true, true, true, false⟩ ⟨fun _ => true, Json.str, fun _ => true, Json.str, fun _ => true, fun _ => true⟩ (⟨some "rx/0", none, false⟩ : BaseTransform) [(Name.Pools_kPools, Json.array [Json.object [(Name.Pool_kUrl, Json.str "p1")],
        Json.object [(Name.Pool_kUrl, Json.str "p2"), (Name.Pool_kAlgo, Json.str "cn/r")]])] [Json.object [(Name.Pool_kUrl, Json.str "p1")],
        Json.object [(Name.Pool_kUrl, Json.str "p2"), (Name.Pool_kAlgo, Json.str "cn/r")]] rfl
      (by simp [Json.IsObject]) (fun h => by cases h)).2⟩

end xmrig

namespace xmrig

theorem isHttpKey_ConfigKey : BaseTransform.isHttpKey IConfig.ConfigKey = false := rfl

/-- The option loop runs to its end on every option list from a well-formed
fragment; `m_http` ends set exactly when it was set or an HTTP option occurs. -/
theorem loadLoop_ok (F : Features) (P : Parsers) :
    ∀ (options : List (IConfig × String)) (t : BaseTransform) (doc : Document)
      (chain : List BaseTransform.ChainCall), BaseTransform.WellFormed doc →
      ∃ t' doc' chain', BaseTransform.loadLoop F P options t doc chain = some (t', doc', chain') ∧
        BaseTransform.WellFormed doc' ∧
        t'.m_http = (t.m_http || options.any (fun o => BaseTransform.isHttpKey o.1)) := by
  intro options
  induction options with
  | nil =>
    intro t doc chain hwf
    exact ⟨t, doc, chain, rfl, hwf, by simp⟩
  | cons o rest ih =>
    intro t doc chain hwf
    obtain ⟨key, optarg⟩ := o
    by_cases hk : key = IConfig.ConfigKey
    · subst hk
      obtain ⟨t', doc', chain', h, hwf', hm⟩ := ih t []
        (chain ++ [BaseTransform.ChainCall.add doc, BaseTransform.ChainCall.addFile optarg])
        WellFormed_nil
      refine ⟨t', doc', chain', ?_, hwf', ?_⟩
      · simp only [BaseTransform.loadLoop, if_true, h]
      · simp [hm, isHttpKey_ConfigKey]
    · obtain ⟨t1, doc1, h1, hwf1, hm1⟩ := transform_ok F P t doc key optarg hwf
      obtain ⟨t', doc', chain', h, hwf', hm⟩ := ih t1 doc1 chain hwf1
      refine ⟨t', doc', chain', ?_, hwf', ?_⟩
      · simp only [BaseTransform.loadLoop, hk, if_false, h1, h]
      · simp [hm, hm1, Bool.or_assoc]

theorem backfillPools_shape (doc doc' : Document) (valid : Bool) (key : Name) (value : Json)
    (hp : ∀ w, FindMember doc Name.Pools_kPools = some w → BaseTransform.IsObjectArray w)
    (h : BaseTransform.backfillPools doc valid key value = some doc') :
    ∀ w, FindMember doc' Name.Pools_kPools = some w → BaseTransform.IsObjectArray w := by
  obtain ⟨doc'', h', _, hfill, hnone⟩ := backfillPools_ok doc valid key value hp
  rw [h] at h'
  cases h'
  intro w hw
  cases hf : FindMember doc Name.Pools_kPools with
  | none => rw [hnone hf] at hw; cases hw
  | some x =>
    obtain ⟨items, rfl, _⟩ := (IsObjectArray_iff x).1 (hp x hf)
    obtain ⟨pools', hp', hfor⟩ := hfill items hf
    rw [hp'] at hw
    cases hw
    exact Forall₂_isObject (fun p p' h => by obtain ⟨ms, _, rfl⟩ := h; rfl) hfor

/-- On a well-formed fragment `finalize` returns; it leaves `http.enabled` true
when `m_http` is set and the `http` member as it was otherwise. -/
theorem finalize_ok (P : Parsers) (t : BaseTransform) (doc : Document)
    (hwf : BaseTransform.WellFormed doc) :
    ∃ doc', BaseTransform.finalize P t doc = some doc' ∧
      (t.m_http = true → ∃ ms, FindMember doc' Name.BaseConfig_kHttp = some (Json.object ms) ∧
        FindMember ms Name.Http_kEnabled = some (Json.bool true)) ∧
      (t.m_http = false →
        FindMember doc' Name.BaseConfig_kHttp = FindMember doc Name.BaseConfig_kHttp) := by
  have hp : ∀ w, FindMember doc Name.Pools_kPools = some w → BaseTransform.IsObjectArray w :=
    fun w hw => (Shape_pools w).1 (hwf _ w hw)
  obtain ⟨doc1, h1, hframe1, _, _⟩ := backfillPools_ok doc (t.algorithmIsValid P)
    Name.Pool_kAlgo (t.algorithmToJSON P) hp
  have hp1 := backfillPools_shape doc doc1 _ _ _ hp h1
  obtain ⟨doc2, h2, hframe2, _, _⟩ := backfillPools_ok doc1 (t.coinIsValid P)
    Name.Pool_kCoin (t.coinToJSON P) hp1
  have hH : FindMember doc2 Name.BaseConfig_kHttp = FindMember doc Name.BaseConfig_kHttp := by
    rw [hframe2 _ (by decide), hframe1 _ (by decide)]
  cases hm : t.m_http
  · refine ⟨doc2, ?_, (fun h => by cases h), fun _ => hH⟩
    simp only [BaseTransform.finalize, h1, h2, hm, Bool.false_eq_true, if_false]
  · have hobjH : ∀ w, FindMember doc2 Name.BaseConfig_kHttp = some w →
        Json.IsObject w = true := by
      intro w hw
      rw [hH] at hw
      simpa [BaseTransform.Shape] using hwf _ w hw
    obtain ⟨ms, _, heq⟩ := set_objKey_eq doc2 Name.BaseConfig_kHttp Name.Http_kEnabled
      (Json.bool true) hobjH
    refine ⟨assign (if (!HasMember doc2 Name.BaseConfig_kHttp) = true then
        AddMember doc2 Name.BaseConfig_kHttp (Json.object []) else doc2)
        Name.BaseConfig_kHttp
        (Json.object (BaseTransform.set_obj ms Name.Http_kEnabled (Json.bool true))),
      ?_, fun _ => ⟨_, FindMember_assign_ensure_self _ _ _ _, FindMember_set_obj_self _ _ _⟩,
      fun h => by cases h⟩
    simp only [BaseTransform.finalize, h1, h2, hm, if_true, heq]

/-- C17: for every option sequence, starting from a new transform and the
empty fragment, the option loop and `finalize` return. When the sequence holds
at least one of `--http-enabled`, `--http-host`, `--http-port`,
`--http-access-token` and `--http-no-restricted`, the finalized fragment has
`http.enabled = true`; when it holds none of them, `finalize` leaves the `http`
member of the fragment as it was, present or absent. -/
theorem finalize_forces_http (F : Features) (P : Parsers) (argv0 : String)
    (options : List (IConfig × String)) (nonOption : Option String) :
    ∃ t1 d1 chain1 d2 log,
      BaseTransform.loadLoop F P options BaseTransform.init [] [] = some (t1, d1, chain1) ∧
      BaseTransform.finalize P t1 d1 = some d2 ∧
      BaseTransform.load F P argv0 options nonOption BaseTransform.init
        = some (t1, chain1 ++ [BaseTransform.ChainCall.add d2], log) ∧
      ((∃ o ∈ options, BaseTransform.isHttpKey o.1 = true) →
        ∃ ms, FindMember d2 Name.BaseConfig_kHttp = some (Json.object ms) ∧
          FindMember ms Name.Http_kEnabled = some (Json.bool true)) ∧
      ((∀ o ∈ options, BaseTransform.isHttpKey o.1 = false) →
        FindMember d2 Name.BaseConfig_kHttp = FindMember d1 Name.BaseConfig_kHttp) := by
  obtain ⟨t1, d1, chain1, hloop, hwf1, hm⟩ :=
    loadLoop_ok F P options BaseTransform.init [] [] WellFormed_nil
  obtain ⟨d2, hfin, hon, hoff⟩ := finalize_ok P t1 d1 hwf1
  have hload : ∃ log, BaseTransform.load F P argv0 options nonOption BaseTransform.init
      = some (t1, chain1 ++ [BaseTransform.ChainCall.add d2], log) := by
    cases nonOption with
    | none => exact ⟨[], by simp only [BaseTransform.load, hloop, hfin]⟩
    | some a =>
      exact ⟨[Effect.log LogLevel.WARN (argv0 ++ ": unsupported non-option argument "
        ++ String.singleton (Char.ofNat 39) ++ a ++ String.singleton (Char.ofNat 39))],
        by simp only [BaseTransform.load, hloop, hfin]⟩
  obtain ⟨log, hload⟩ := hload
  refine ⟨t1, d1, chain1, d2, log, hloop, hfin, hload, ?_, ?_⟩
  · rintro ⟨o, ho, hk⟩
    apply hon
    rw [hm]
    simp only [BaseTransform.init, Bool.false_or, List.any_eq_true]
    exact ⟨o, ho, hk⟩
  · intro hnone
    apply hoff
    rw [hm]
    simp only [BaseTransform.init, Bool.false_or, List.any_eq_false]
    intro o ho
    simp [hnone o ho]

/-- C17, for `--http-port 8080 --url p1`. -/
theorem finalize_forces_http_witness :
    (∃ o ∈ [(IConfig.HttpPort, "8080"), (IConfig.UrlKey, "p1")],
      BaseTransform.isHttpKey o.1 = true) ∧
    ∃ t1 d1 chain1 d2 log,
      BaseTransform.loadLoop ⟨true, true, true, false⟩
          ⟨fun _ => true, Json.str, fun _ => true, Json.str, fun _ => true, fun _ => true⟩
          [(IConfig.HttpPort, "8080"), (IConfig.UrlKey, "p1")] BaseTransform.init [] []
        = some (t1, d1, chain1) ∧
      BaseTransform.finalize
          ⟨fun _ => true, Json.str, fun _ => true, Json.str, fun _ => true, fun _ => true⟩
          t1 d1 = some d2 ∧
      BaseTransform.load ⟨true, true, true, false⟩
          ⟨fun _ => true, Json.str, fun _ => true, Json.str, fun _ => true, fun _ => true⟩
          "xmrig" [(IConfig.HttpPort, "8080"), (IConfig.UrlKey, "p1")] none BaseTransform.init
        = some (t1, chain1 ++ [BaseTransform.ChainCall.add d2], log) ∧
      ((∃ o ∈ [(IConfig.HttpPort, "8080"), (IConfig.UrlKey, "p1")],
          BaseTransform.isHttpKey o.1 = true) →
        ∃ ms, FindMember d2 Name.BaseConfig_kHttp = some (Json.object ms) ∧
          FindMember ms Name.Http_kEnabled = some (Json.bool true)) ∧
      ((∀ o ∈ [(IConfig.HttpPort, "8080"), (IConfig.UrlKey, "p1")],
          BaseTransform.isHttpKey o.1 = false) →
        FindMember d2 Name.BaseConfig_kHttp = FindMember d1 Name.BaseConfig_kHttp) :=
  ⟨⟨(IConfig.HttpPort, "8080"), by simp, rfl⟩,
    finalize_forces_http ⟨true, true, true, false⟩
      ⟨fun _ => true, Json.str, fun _ => true, Json.str, fun _ => true, fun _ => true⟩
      "xmrig" [(IConfig.HttpPort, "8080"), (IConfig.UrlKey, "p1")] none⟩

end xmrig

namespace xmrig

theorem map_snd_withState (T : BaseTransform) (o : Option Document) :
    (BaseTransform.withState T o).map Prod.snd = o := by
  cases o <;> rfl

theorem transformUrl_snd (P : Parsers) (t t2 : BaseTransform) (doc : Document) (arg : String) :
    (BaseTransform.transformUrl P t doc arg).map Prod.snd
      = (BaseTransform.transformUrl P t2 doc arg).map Prod.snd := by
  unfold BaseTransform.transformUrl
  simp only []
  generalize FindMember (if (!HasMember doc Name.Pools_kPools) = true then
    AddMember doc Name.Pools_kPools (Json.array []) else doc) Name.Pools_kPools = x
  rcases x with _ | (_ | _ | _ | _ | _ | items | _) <;> try rfl
  simp only []
  generalize BaseTransform.set_last (if BaseTransform.startsPool P items = true then
    items ++ [Json.object []] else items) Name.Pool_kUrl (Json.str arg) = y
  cases y <;> rfl

theorem transformCCUrl_snd (P : Parsers) (t t2 : BaseTransform) (doc : Document)
    (arg : String) :
    (BaseTransform.transformCCUrl P t doc arg).map Prod.snd
      = (BaseTransform.transformCCUrl P t2 doc arg).map Prod.snd := by
  unfold BaseTransform.transformCCUrl
  simp only []
  generalize FindMember (if (!HasMember doc Name.BaseConfig_kCCClient) = true then
    AddMember doc Name.BaseConfig_kCCClient (Json.object []) else doc)
    Name.BaseConfig_kCCClient = x
  rcases x with _ | (_ | _ | _ | _ | _ | _ | node) <;> try rfl
  simp only []
  generalize FindMember (if (!HasMember node Name.CCClientConfig_kServers) = true then
    AddMember node Name.CCClientConfig_kServers (Json.array []) else node)
    Name.CCClientConfig_kServers = y
  rcases y with _ | (_ | _ | _ | _ | _ | items | _) <;> try rfl
  simp only []
  generalize BaseTransform.set_last (if BaseTransform.startsServer P items = true then
    items ++ [Json.object []] else items) Name.CCClientConfig_kUrl (Json.str arg) = z
  cases z <;> rfl

theorem transformUserpass_snd (t t2 : BaseTransform) (doc : Document) (arg : String) :
    (BaseTransform.transformUserpass t doc arg).map Prod.snd
      = (BaseTransform.transformUserpass t2 doc arg).map Prod.snd := by
  unfold BaseTransform.transformUserpass
  cases BaseTransform.strrchr arg.data ':' with
  | none => rfl
  | some p =>
    simp only []
    cases BaseTransform.add doc Name.Pools_kPools Name.Pool_kUser
        (Json.str (String.mk (arg.data.take p))) with
    | none => rfl
    | some d => simp only [map_snd_withState]

set_option maxHeartbeats 4000000 in
/-- The fragment `transform` returns does not depend on the members of the
transform. -/
theorem transform_snd (F : Features) (P : Parsers) (t t2 : BaseTransform) (doc : Document)
    (key : IConfig) (arg : String) :
    (BaseTransform.transform F P t doc key arg).map Prod.snd
      = (BaseTransform.transform F P t2 doc key arg).map Prod.snd := by
  cases key <;>
    simp only [BaseTransform.transform, BaseTransform.transformBoolean,
      BaseTransform.transformUint64] <;>
    (try split) <;>
    first
    | rfl
    | simp only [map_snd_withState, Option.map_some']
    | exact transformUrl_snd P t t2 doc arg
    | exact transformCCUrl_snd P t t2 doc arg
    | exact transformUserpass_snd t t2 doc arg

end xmrig

namespace xmrig

theorem transformAll_snd (F : Features) (P : Parsers) :
    ∀ (seg : List (IConfig × String)) (t t2 : BaseTransform) (doc : Document),
      (BaseTransform.transformAll F P seg t doc).map Prod.snd
        = (BaseTransform.transformAll F P seg t2 doc).map Prod.snd := by
  intro seg
  induction seg with
  | nil => intro t t2 doc; rfl
  | cons o rest ih =>
    intro t t2 doc
    obtain ⟨key, arg⟩ := o
    have h := transform_snd F P t t2 doc key arg
    unfold BaseTransform.transformAll
    cases h1 : BaseTransform.transform F P t doc key arg with
    | none =>
      cases h2 : BaseTransform.transform F P t2 doc key arg with
      | none => rfl
      | some r2 => rw [h1, h2] at h; cases h
    | some r1 =>
      cases h2 : BaseTransform.transform F P t2 doc key arg with
      | none => rw [h1, h2] at h; cases h
      | some r2 =>
        rw [h1, h2] at h
        obtain ⟨ta, da⟩ := r1
        obtain ⟨tb, db⟩ := r2
        simp only [Option.map_some', Option.some.injEq] at h
        subst h
        exact ih ta tb da

theorem transformAll_ok (F : Features) (P : Parsers) :
    ∀ (seg : List (IConfig × String)) (t : BaseTransform) (doc : Document),
      BaseTransform.WellFormed doc →
      ∃ t1 d1, BaseTransform.transformAll F P seg t doc = some (t1, d1) ∧
        BaseTransform.WellFormed d1 := by
  intro seg
  induction seg with
  | nil => intro t doc hwf; exact ⟨t, doc, rfl, hwf⟩
  | cons o rest ih =>
    intro t doc hwf
    obtain ⟨key, arg⟩ := o
    obtain ⟨t1, d1, h1, hwf1, _⟩ := transform_ok F P t doc key arg hwf
    obtain ⟨t2, d2, h2, hwf2⟩ := ih t1 d1 hwf1
    exact ⟨t2, d2, by simp only [BaseTransform.transformAll, h1, h2], hwf2⟩

theorem loadLoop_append (F : Features) (P : Parsers) (tail : List (IConfig × String))
    (chain : List BaseTransform.ChainCall) :
    ∀ (seg : List (IConfig × String)) (t : BaseTransform) (doc : Document),
      (∀ o ∈ seg, o.1 ≠ IConfig.ConfigKey) →
      BaseTransform.loadLoop F P (seg ++ tail) t doc chain
        = match BaseTransform.transformAll F P seg t doc with
          | none => none
          | some (t1, d1) => BaseTransform.loadLoop F P tail t1 d1 chain := by
  intro seg
  induction seg with
  | nil => intro t doc _; rfl
  | cons o rest ih =>
    intro t doc hfree
    obtain ⟨key, arg⟩ := o
    have hk : ¬ key = IConfig.ConfigKey := hfree (key, arg) (by simp)
    simp only [List.cons_append, BaseTransform.loadLoop, hk, if_false,
      BaseTransform.transformAll]
    cases h1 : BaseTransform.transform F P t doc key arg with
    | none => rfl
    | some r =>
      obtain ⟨t1, d1⟩ := r
      exact ih t1 d1 (fun o ho => hfree o (List.mem_cons_of_mem _ ho))

theorem fragmentOf_of_transformAll (F : Features) (P : Parsers)
    (seg : List (IConfig × String)) (t t1 : BaseTransform) (d1 : Document)
    (h : BaseTransform.transformAll F P seg t [] = some (t1, d1)) :
    BaseTransform.fragmentOf F P seg = some d1 := by
  unfold BaseTransform.fragmentOf
  rw [transformAll_snd F P seg BaseTransform.init t [], h]
  rfl

/-- The option loop on a command line split at its `--config` tokens: the
calls it adds are the fragment of each run but the last, each followed by the
file of the `--config` after it, and the fragment it ends with is that of the
last run. -/
theorem loadLoop_segments (F : Features) (P : Parsers) :
    ∀ (rest : List (String × List (IConfig × String))) (first : List (IConfig × String))
      (t : BaseTransform) (chain0 : List BaseTransform.ChainCall),
      (∀ o ∈ first, o.1 ≠ IConfig.ConfigKey) →
      (∀ fs ∈ rest, ∀ o ∈ fs.2, o.1 ≠ IConfig.ConfigKey) →
      ∃ t1 d mid, BaseTransform.loadLoop F P (BaseTransform.optionsOf first rest) t [] chain0
          = some (t1, d, chain0 ++ mid) ∧
        BaseTransform.WellFormed d ∧ mid.length = 2 * rest.length ∧
        ∀ (finish : Document → Option Document) (dl : Document), finish d = some dl →
          BaseTransform.ChainMatches F P finish (mid ++ [BaseTransform.ChainCall.add dl])
            first rest := by
  intro rest
  induction rest with
  | nil =>
    intro first t chain0 hfirst _
    obtain ⟨t1, d1, h1, hwf1⟩ := transformAll_ok F P first t [] WellFormed_nil
    refine ⟨t1, d1, [], ?_, hwf1, rfl, ?_⟩
    · have := loadLoop_append F P [] chain0 first t [] hfirst
      rw [List.append_nil] at this
      simp only [BaseTransform.optionsOf, this, h1, BaseTransform.loadLoop, List.append_nil]
    · intro finish dl hfin
      exact ⟨d1, dl, fragmentOf_of_transformAll F P first t t1 d1 h1, hfin, rfl⟩
  | cons fs rest ih =>
    intro first t chain0 hfirst hrest
    obtain ⟨file, next⟩ := fs
    obtain ⟨t1, d1, h1, _⟩ := transformAll_ok F P first t [] WellFormed_nil
    obtain ⟨t2, d, mid, h2, hwf, hlen, hmatch⟩ := ih next t1
      (chain0 ++ [BaseTransform.ChainCall.add d1, BaseTransform.ChainCall.addFile file])
      (hrest (file, next) (by simp))
      (fun fs hfs => hrest fs (List.mem_cons_of_mem _ hfs))
    refine ⟨t2, d, BaseTransform.ChainCall.add d1 :: BaseTransform.ChainCall.addFile file :: mid,
      ?_, hwf, ?_, ?_⟩
    · simp only [BaseTransform.optionsOf]
      rw [loadLoop_append F P _ chain0 first t [] hfirst, h1]
      simp only [BaseTransform.loadLoop, if_true, h2, List.append_assoc, List.cons_append,
        List.nil_append]
    · simp only [List.length_cons, hlen]
      omega
    · intro finish dl hfin
      exact ⟨d1, mid ++ [BaseTransform.ChainCall.add dl],
        fragmentOf_of_transformAll F P first t t1 d1 h1, rfl, hmatch finish dl hfin⟩

end xmrig

namespace xmrig

theorem optionsOf_cons (o : IConfig × String) (first : List (IConfig × String))
    (rest : List (String × List (IConfig × String))) :
    BaseTransform.optionsOf (o :: first) rest = o :: BaseTransform.optionsOf first rest := by
  cases rest with
  | nil => rfl
  | cons fs rest =>
    obtain ⟨file, next⟩ := fs
    simp [BaseTransform.optionsOf]

/-- Every option list splits at its `--config` tokens into a first run and,
for each `--config`, its file and the run after it. -/
theorem exists_split (options : List (IConfig × String)) :
    ∃ (first : List (IConfig × String)) (rest : List (String × List (IConfig × String))),
      BaseTransform.optionsOf first rest = options ∧
      (∀ o ∈ first, o.1 ≠ IConfig.ConfigKey) ∧
      (∀ fs ∈ rest, ∀ o ∈ fs.2, o.1 ≠ IConfig.ConfigKey) ∧
      rest.length = options.countP (fun o => o.1 = IConfig.ConfigKey) ∧
      rest.map Prod.fst
        = (options.filter (fun o => o.1 = IConfig.ConfigKey)).map Prod.snd := by
  induction options with
  | nil => exact ⟨[], [], rfl, by simp, by simp, rfl, rfl⟩
  | cons o tl ih =>
    obtain ⟨first, rest, hopt, hfirst, hrest, hlen, hfiles⟩ := ih
    obtain ⟨key, arg⟩ := o
    by_cases hk : key = IConfig.ConfigKey
    · subst hk
      refine ⟨[], (arg, first) :: rest, ?_, by simp, ?_, ?_, ?_⟩
      · simp [BaseTransform.optionsOf, hopt]
      · intro fs hfs
        rcases List.mem_cons.1 hfs with rfl | hfs
        · exact hfirst
        · exact hrest fs hfs
      · simp [hlen]
      · simp [hfiles]
    · refine ⟨(key, arg) :: first, rest, ?_, ?_, hrest, ?_, ?_⟩
      · rw [optionsOf_cons, hopt]
      · intro o ho
        rcases List.mem_cons.1 ho with rfl | ho
        · exact hk
        · exact hfirst o ho
      · simp [hlen, hk]
      · simp [hfiles, hk]

/-- C18 as stated fails for the last fragment: after `--algo rx/0 --config f
--url p1` the fragment added last carries the algorithm of the `--algo` given
before `--config`, so it differs from the fragment built only from the options
after `--config`. -/
theorem load_last_fragment_uses_earlier_options :
    BaseTransform.load ⟨true, true, true, false⟩
        ⟨fun _ => true, Json.str, fun _ => true, Json.str, fun _ => true, fun _ => true⟩
        "xmrig" [(IConfig.AlgorithmKey, "rx/0"), (IConfig.ConfigKey, "f"), (IConfig.UrlKey, "p1")]
        none BaseTransform.init
      = some (⟨some "rx/0", none, false⟩,
          [BaseTransform.ChainCall.add [], BaseTransform.ChainCall.addFile "f",
            BaseTransform.ChainCall.add [(Name.Pools_kPools, Json.array
              [Json.object [(Name.Pool_kUrl, Json.str "p1"),
                (Name.Pool_kAlgo, Json.str "rx/0")]])]], []) ∧
    BaseTransform.fragmentOf ⟨true, true, true, false⟩
        ⟨fun _ => true, Json.str, fun _ => true, Json.str, fun _ => true, fun _ => true⟩
        [(IConfig.UrlKey, "p1")]
      = some [(Name.Pools_kPools, Json.array
          [Json.object [(Name.Pool_kUrl, Json.str "p1")]])] ∧
    ([(Name.Pools_kPools, Json.array
        [Json.object [(Name.Pool_kUrl, Json.str "p1"),
          (Name.Pool_kAlgo, Json.str "rx/0")]])] : Document)
      ≠ [(Name.Pools_kPools, Json.array [Json.object [(Name.Pool_kUrl, Json.str "p1")]])] := by
  refine ⟨rfl, rfl, ?_⟩
  simp

/-- C18, amended: for every option sequence with `k` occurrences of `--config`,
`load` returns and the chain receives exactly `2k + 1` calls: the fragment of
the options before the first `--config`, then for each `--config` in turn its
file and the fragment of the options after it. The files come in command-line
order. Every fragment but the last is built only from the options of its own
run, starting empty; the last is built from the options after the last
`--config`, starting empty, and then finalized with the algorithm, coin and
HTTP state accumulated over the whole option sequence. -/
theorem load_order (F : Features) (P : Parsers) (argv0 : String)
    (options : List (IConfig × String)) (nonOption : Option String) :
    ∃ (first : List (IConfig × String)) (rest : List (String × List (IConfig × String)))
      (t' : BaseTransform) (chain : List BaseTransform.ChainCall) (log : List Effect),
      BaseTransform.optionsOf first rest = options ∧
      (∀ o ∈ first, o.1 ≠ IConfig.ConfigKey) ∧
      (∀ fs ∈ rest, ∀ o ∈ fs.2, o.1 ≠ IConfig.ConfigKey) ∧
      rest.length = options.countP (fun o => o.1 = IConfig.ConfigKey) ∧
      rest.map Prod.fst = (options.filter (fun o => o.1 = IConfig.ConfigKey)).map Prod.snd ∧
      BaseTransform.load F P argv0 options nonOption BaseTransform.init
        = some (t', chain, log) ∧
      chain.length = 2 * options.countP (fun o => o.1 = IConfig.ConfigKey) + 1 ∧
      BaseTransform.ChainMatches F P (BaseTransform.finalize P t') chain first rest := by
  obtain ⟨first, rest, hopt, hfirst, hrest, hlen, hfiles⟩ := exists_split options
  obtain ⟨t1, d, mid, hloop, hwf, hmid, hmatch⟩ :=
    loadLoop_segments F P rest first BaseTransform.init [] hfirst hrest
  obtain ⟨dl, hfin, _, _⟩ := finalize_ok P t1 d hwf
  rw [hopt, List.nil_append] at hloop
  have hload : ∃ log, BaseTransform.load F P argv0 options nonOption BaseTransform.init
      = some (t1, mid ++ [BaseTransform.ChainCall.add dl], log) := by
    cases nonOption with
    | none => exact ⟨[], by simp only [BaseTransform.load, hloop, hfin]⟩
    | some a =>
      exact ⟨[Effect.log LogLevel.WARN (argv0 ++ ": unsupported non-option argument "
        ++ String.singleton (Char.ofNat 39) ++ a ++ String.singleton (Char.ofNat 39))],
        by simp only [BaseTransform.load, hloop, hfin]⟩
  obtain ⟨log, hload⟩ := hload
  refine ⟨first, rest, t1, mid ++ [BaseTransform.ChainCall.add dl], log, hopt, hfirst, hrest,
    hlen, hfiles, hload, ?_, hmatch _ dl hfin⟩
  simp [hmid, hlen]

end xmrig

namespace xmrig

/-- The all-ones 64-bit value shifted right by four bits per character, for
fewer than 16 characters. -/
theorem shr_all_ones (k : Nat) (hk : k < 16) :
    (2 ^ 64 - 1) >>> (4 * k) = 2 ^ (64 - 4 * k) - 1 := by
  interval_cases k <;> rfl

/-- C26 as stated fails: the job of the KAWPOW family that is not nicehash and
carries the 17-character extra-nonce `"0123456789abcdef0"` uses the 8-byte
nonce, its shift amount `4 * 17 = 68` is not below 64, and no mask value is
defined. -/
theorem nonceMask_shift_unbounded :
    (Job.setExtraNonce "0123456789abcdef0"
      (Job.setAlgorithm ⟨0, Family.KAWPOW⟩ Job.default)).isNicehash = false ∧
    (Job.setExtraNonce "0123456789abcdef0"
      (Job.setAlgorithm ⟨0, Family.KAWPOW⟩ Job.default)).nonceSize = 8 ∧
    ¬ 4 * strSize (Job.setExtraNonce "0123456789abcdef0"
      (Job.setAlgorithm ⟨0, Family.KAWPOW⟩ Job.default)).extraNonce < 64 ∧
    (Job.setExtraNonce "0123456789abcdef0"
      (Job.setAlgorithm ⟨0, Family.KAWPOW⟩ Job.default)).nonceMask = none ∧
    (Job.setExtraNonce "0123456789abcdef0"
      (Job.setAlgorithm ⟨0, Family.KAWPOW⟩ Job.default)).nonceMask
        ≠ some (2 ^ (64 - 4 * 17) - 1) := by
  decide

/-- C26, amended: for a job that is not nicehash and uses the 8-byte nonce, the
shift amount `4 * length(extraNonce)` is below 64 exactly when the extra-nonce
has fewer than 16 characters; then the mask is `2^(64 - 4*length) - 1`, and
with 16 characters or more (below the wrap of the 64-bit product) the shift
amount is 64 or more and no mask value is defined. -/
theorem nonceMask_shift_defined (j : Job) (hn : j.isNicehash = false)
    (hs : j.nonceSize = 8) :
    (4 * strSize j.extraNonce < 64 ↔ strSize j.extraNonce < 16) ∧
    (strSize j.extraNonce < 16 →
      j.nonceMask = some (2 ^ (64 - 4 * strSize j.extraNonce) - 1)) ∧
    (16 ≤ strSize j.extraNonce → strSize j.extraNonce < 2 ^ 62 →
      j.nonceMask = none) := by
  have hU : U64 = 2 ^ 64 := rfl
  have hU1 : U64 - 1 = 2 ^ 64 - 1 := rfl
  refine ⟨by omega, ?_, ?_⟩
  · intro hlen
    have hmod : (strSize j.extraNonce * 4) % U64 = 4 * strSize j.extraNonce := by
      rw [Nat.mod_eq_of_lt (by omega)]
      omega
    have hlt : 4 * strSize j.extraNonce < 64 := by omega
    simp only [Job.nonceMask, hn, hs, hmod, Job.shr64, hlt, hU1, if_true,
      Bool.false_eq_true, if_false]
    rw [shr_all_ones _ hlen]
  · intro hlen hlt
    have hmod : (strSize j.extraNonce * 4) % U64 = 4 * strSize j.extraNonce := by
      rw [Nat.mod_eq_of_lt (by omega)]
      omega
    have hge : ¬ 4 * strSize j.extraNonce < 64 := by omega
    simp only [Job.nonceMask, hn, hs, hmod, Job.shr64, hge, if_true,
      Bool.false_eq_true, if_false]

/-- C26, amended, at the KAWPOW job with the extra-nonce `"ab"`: the shift
amount is 8 and the mask is `2^56 - 1`. -/
theorem nonceMask_shift_defined_witness :
    (Job.setExtraNonce "ab" (Job.setAlgorithm ⟨0, Family.KAWPOW⟩ Job.default)).isNicehash
      = false ∧
    (Job.setExtraNonce "ab" (Job.setAlgorithm ⟨0, Family.KAWPOW⟩ Job.default)).nonceSize
      = 8 ∧
    (Job.setExtraNonce "ab" (Job.setAlgorithm ⟨0, Family.KAWPOW⟩ Job.default)).nonceMask
      = some (2 ^ 56 - 1) :=
  ⟨rfl, rfl,
   (nonceMask_shift_defined
      (Job.setExtraNonce "ab" (Job.setAlgorithm ⟨0, Family.KAWPOW⟩ Job.default))
      rfl rfl).2.1 (by decide)⟩

end xmrig

namespace xmrig

/-- The exit code `close(rc)` leaves in `m_rc` is its argument. -/
theorem App.close_m_rc (rc : Int) (r r1 : Run) (h : App.close rc r = some r1) :
    r1.app.m_rc = rc := by
  cases hc : r.app.m_controller with
  | none => simp [App.close, hc] at h
  | some ctl =>
    rw [App.close_of_held rc r ctl hc] at h
    cases h
    rfl

/-- C25: when `exec` reaches the event loop (controller ready, daemonized in a
CC-client build, not sent to the background, `init` returning 0, no dry run),
the loop is entered with the controller held and `m_rc` as it was; once the
loop has returned `rc` at the point `r1`, `exec` closes the loop and returns
`m_rc` if `m_rc > 0` and `rc` otherwise. If that point was left by `close(code)`
then `m_rc` is `code`, so the code of `close` is the exit code exactly when it
is positive. -/
theorem exec_return_code (b : Build) (env : App.ExecEnv) (r : Run) (ctl : Controller)
    (hc : r.app.m_controller = some ctl) (hready : ctl.isReady = true)
    (hdaemon : b.XMRIG_FEATURE_CC_CLIENT = true → ctl.isDaemonized = true)
    (hbg : env.background = none) (hinit : env.init = 0) (hdry : ctl.isDryRun = false) :
    ∃ r0 : Run, r0.app.m_controller = some ctl ∧ r0.app.m_rc = r.app.m_rc ∧
      r0.trace.getLast? = some Effect.uvRun ∧
      (env.uv_run r0 = none → App.exec b env r = none) ∧
      ∀ (r1 : Run) (rc : Int), env.uv_run r0 = some (r1, rc) →
        App.exec b env r
          = some (emit Effect.uvLoopClose r1, if r1.app.m_rc > 0 then r1.app.m_rc else rc) ∧
        (∀ code : Int, 0 < code → r1.app.m_rc = code →
          App.exec b env r = some (emit Effect.uvLoopClose r1, code)) ∧
        (r1.app.m_rc ≤ 0 → App.exec b env r = some (emit Effect.uvLoopClose r1, rc)) ∧
        (∀ (code : Int) (r2 : Run), App.close code r2 = some r1 →
          App.exec b env r
            = some (emit Effect.uvLoopClose r1, if code > 0 then code else rc)) := by
  have key : ∃ r0 : Run, r0.app.m_controller = some ctl ∧ r0.app.m_rc = r.app.m_rc ∧
      r0.trace.getLast? = some Effect.uvRun ∧
      App.exec b env r = (match env.uv_run r0 with
        | none => none
        | some (r1, rc) =>
          some (emit Effect.uvLoopClose r1, if r1.app.m_rc > 0 then r1.app.m_rc else rc)) := by
    refine ⟨emit Effect.uvRun
      (if b.XMRIG_FEATURE_CC_CLIENT then
        emit Effect.addCommandListener (emit Effect.controllerStart (emit Effect.summaryPrint
          (if !ctl.isBackground then
            emit Effect.consoleCreate ⟨⟨r.app.m_rc, some ctl, true, true⟩,
              r.trace ++ [Effect.background, Effect.signalsCreate, Effect.controllerInit]⟩
          else ⟨⟨r.app.m_rc, some ctl, true, r.app.m_console⟩,
              r.trace ++ [Effect.background, Effect.signalsCreate, Effect.controllerInit]⟩)))
      else
        emit Effect.controllerStart (emit Effect.summaryPrint
          (if !ctl.isBackground then
            emit Effect.consoleCreate ⟨⟨r.app.m_rc, some ctl, true, true⟩,
              r.trace ++ [Effect.background, Effect.signalsCreate, Effect.controllerInit]⟩
          else ⟨⟨r.app.m_rc, some ctl, true, r.app.m_console⟩,
              r.trace ++ [Effect.background, Effect.signalsCreate, Effect.controllerInit]⟩))),
      ?_, ?_, ?_, ?_⟩
    · cases hb : b.XMRIG_FEATURE_CC_CLIENT <;> cases hk : ctl.isBackground <;> simp [emit]
    · cases hb : b.XMRIG_FEATURE_CC_CLIENT <;> cases hk : ctl.isBackground <;> simp [emit]
    · cases hb : b.XMRIG_FEATURE_CC_CLIENT <;> cases hk : ctl.isBackground <;> simp [emit]
    · cases hb : b.XMRIG_FEATURE_CC_CLIENT <;> cases hk : ctl.isBackground
      · simp [App.exec, hc, hready, hb, hbg, hinit, hdry, hk, emit]
      · simp [App.exec, hc, hready, hb, hbg, hinit, hdry, hk, emit]
      · simp [App.exec, hc, hready, hb, hdaemon hb, hbg, hinit, hdry, hk, emit]
      · simp [App.exec, hc, hready, hb, hdaemon hb, hbg, hinit, hdry, hk, emit]
  obtain ⟨r0, h1, h2, h3, h4⟩ := key
  refine ⟨r0, h1, h2, h3, ?_, ?_⟩
  · intro hn
    rw [h4, hn]
  · intro r1 rc hs
    have hx : App.exec b env r
        = some (emit Effect.uvLoopClose r1, if r1.app.m_rc > 0 then r1.app.m_rc else rc) := by
      rw [h4, hs]
    refine ⟨hx, ?_, ?_, ?_⟩
    · intro code hpos hcode
      rw [hx, hcode, if_pos hpos]
    · intro hle
      rw [hx, if_neg (not_lt.mpr hle)]
    · intro code r2 hcl
      rw [hx, App.close_m_rc code r2 r1 hcl]

/-- C25, in a CC-client build with `RC_RESTART = 3`, for an event loop that
returns 0 after the RESTART command was handled: `exec` returns 3. -/
theorem exec_return_code_witness :
    (⟨⟨0, some ⟨true, true, false, false, none⟩, false, false⟩, []⟩ : Run).app.m_controller
      = some ⟨true, true, false, false, none⟩ ∧
    (⟨true, true, false, false, none⟩ : Controller).isReady = true ∧
    (⟨true, true, false, false, none⟩ : Controller).isDaemonized = true ∧
    (⟨true, true, false, false, none⟩ : Controller).isDryRun = false ∧
    ∃ r1 : Run,
      App.exec ⟨true, true, 0, 3⟩
        ⟨"xmrigMiner", none, 0, fun r =>
          (App.onCommandReceived ⟨true, true, 0, 3⟩ ⟨Command.RESTART, ""⟩ r).map
            (fun r1 => (r1, 0))⟩
        ⟨⟨0, some ⟨true, true, false, false, none⟩, false, false⟩, []⟩ = some (r1, 3) := by
  refine ⟨rfl, rfl, rfl, rfl, ?_⟩
  obtain ⟨r0, h1, _, _, _, h5⟩ := exec_return_code ⟨true, true, 0, 3⟩
    ⟨"xmrigMiner", none, 0, fun r =>
      (App.onCommandReceived ⟨true, true, 0, 3⟩ ⟨Command.RESTART, ""⟩ r).map
        (fun r1 => (r1, 0))⟩
    ⟨⟨0, some ⟨true, true, false, false, none⟩, false, false⟩, []⟩
    ⟨true, true, false, false, none⟩ rfl rfl (fun _ => rfl) rfl rfl rfl
  have hcl := App.close_of_held 3 r0 _ h1
  have hrun : (App.onCommandReceived ⟨true, true, 0, 3⟩ ⟨Command.RESTART, ""⟩ r0).map
      (fun r1 => (r1, (0 : Int))) = some (⟨⟨3, none, false, false⟩,
        r0.trace ++ [Effect.controllerStop, Effect.controllerReset, Effect.signalsReset,
          Effect.consoleReset, Effect.logDestroy, Effect.uvStop]⟩, 0) := by
    simp only [App.onCommandReceived, if_true, hcl, Option.map_some']
  exact ⟨_, ((h5 _ _ hrun).2.1 3 (by decide) rfl)⟩

end xmrig

namespace xmrig

end xmrig

namespace xmrig

end xmrig

namespace xmrig

/-- A pool patch on a fragment that has the `pools` member leaves every other
member of the fragment as it was. -/
theorem add_pools_frame (doc d1 : Document) (k : Name) (value v : Json)
    (hv : FindMember doc Name.Pools_kPools = some v)
    (h : BaseTransform.add doc Name.Pools_kPools k value = some d1) :
    ∀ k2, Name.Pools_kPools ≠ k2 → FindMember d1 k2 = FindMember doc k2 := by
  have hh : HasMember doc Name.Pools_kPools = true := (HasMember_eq_true_iff doc _).2 ⟨v, hv⟩
  unfold BaseTransform.add at h
  simp only [hh, Bool.not_true, Bool.false_eq_true, if_false, hv] at h
  intro k2 hk2
  split at h
  · split at h
    · cases h
      exact FindMember_assign_ne doc _ k2 _ hk2
    · cases h
  · cases h

theorem transform_algo_coin_of_present (F : Features) (P : Parsers) (t : BaseTransform)
    (doc : Document) (arg : String) (v : Json)
    (hv : FindMember doc Name.Pools_kPools = some v) :
    BaseTransform.transform F P t doc IConfig.AlgorithmKey arg
      = BaseTransform.withState t
          (BaseTransform.add doc Name.Pools_kPools Name.Pool_kAlgo (Json.str arg)) ∧
    BaseTransform.transform F P t doc IConfig.CoinKey arg
      = BaseTransform.withState t
          (BaseTransform.add doc Name.Pools_kPools Name.Pool_kCoin (Json.str arg)) := by
  have hh : HasMember doc Name.Pools_kPools = true := (HasMember_eq_true_iff doc _).2 ⟨v, hv⟩
  simp [BaseTransform.transform, hh]

/-- C21: `--algo` (resp. `--coin`) given while the fragment has no `pools`
member changes only the stored algorithm (resp. coin) and leaves the fragment
as it was. Given while the fragment has a `pools` member, it leaves the stored
algorithm and coin as they were and every member other than `pools` unchanged:
the value becomes the `algo` (resp. `coin`) member of the last pool, the
earlier pools being untouched (of a first pool when the array is empty). So
`--algo A --url p1 --algo B --url p2`, with `A` a valid algorithm and `p1` a
valid URL, is loaded as `p1` with algo `B` and `p2` with algo `A`. -/
theorem algo_coin_after_pools (F : Features) (P : Parsers) (t : BaseTransform)
    (doc : Document) (arg : String) :
    (FindMember doc Name.Pools_kPools = none →
      BaseTransform.transform F P t doc IConfig.AlgorithmKey arg
        = some ({ t with m_algorithm := some arg }, doc) ∧
      BaseTransform.transform F P t doc IConfig.CoinKey arg
        = some ({ t with m_coin := some arg }, doc)) ∧
    (∀ (pre : List Json) (ms : Members),
      FindMember doc Name.Pools_kPools = some (Json.array (pre ++ [Json.object ms])) →
      BaseTransform.transform F P t doc IConfig.AlgorithmKey arg
        = some (t, assign doc Name.Pools_kPools (Json.array
            (pre ++ [Json.object (BaseTransform.set_obj ms Name.Pool_kAlgo (Json.str arg))]))) ∧
      BaseTransform.transform F P t doc IConfig.CoinKey arg
        = some (t, assign doc Name.Pools_kPools (Json.array
            (pre ++ [Json.object (BaseTransform.set_obj ms Name.Pool_kCoin (Json.str arg))]))) ∧
      FindMember (BaseTransform.set_obj ms Name.Pool_kAlgo (Json.str arg)) Name.Pool_kAlgo
        = some (Json.str arg) ∧
      FindMember (BaseTransform.set_obj ms Name.Pool_kCoin (Json.str arg)) Name.Pool_kCoin
        = some (Json.str arg)) ∧
    (FindMember doc Name.Pools_kPools = some (Json.array []) →
      BaseTransform.transform F P t doc IConfig.AlgorithmKey arg
        = some (t, assign doc Name.Pools_kPools
            (Json.array [Json.object [(Name.Pool_kAlgo, Json.str arg)]])) ∧
      BaseTransform.transform F P t doc IConfig.CoinKey arg
        = some (t, assign doc Name.Pools_kPools
            (Json.array [Json.object [(Name.Pool_kCoin, Json.str arg)]]))) ∧
    (∀ (v : Json) (key : IConfig) (t1 : BaseTransform) (d1 : Document),
      key = IConfig.AlgorithmKey ∨ key = IConfig.CoinKey →
      FindMember doc Name.Pools_kPools = some v →
      BaseTransform.transform F P t doc key arg = some (t1, d1) →
      t1 = t ∧ ∀ k, Name.Pools_kPools ≠ k → FindMember d1 k = FindMember doc k) ∧
    (∀ (A B p1 p2 argv0 : String), P.algorithmIsValid A = true → P.urlIsValid p1 = true →
      BaseTransform.load F P argv0
          [(IConfig.AlgorithmKey, A), (IConfig.UrlKey, p1), (IConfig.AlgorithmKey, B),
            (IConfig.UrlKey, p2)] none BaseTransform.init
        = some ({ BaseTransform.init with m_algorithm := some A },
            [BaseTransform.ChainCall.add [(Name.Pools_kPools, Json.array
              [Json.object [(Name.Pool_kUrl, Json.str p1), (Name.Pool_kAlgo, Json.str B)],
               Json.object [(Name.Pool_kUrl, Json.str p2),
                 (Name.Pool_kAlgo, P.algorithmToJSON A)]])]], [])) := by
  refine ⟨?_, ?_, ?_, ?_, ?_⟩
  · intro h
    exact ⟨transform_AlgorithmKey_of_absent F P t doc arg h,
      transform_CoinKey_of_absent F P t doc arg h⟩
  · intro pre ms h
    obtain ⟨ha, hc⟩ := transform_algo_coin_of_present F P t doc arg _ h
    refine ⟨?_, ?_, FindMember_set_obj_self _ _ _, FindMember_set_obj_self _ _ _⟩
    · rw [ha, add_of_last doc _ _ _ pre ms h]
      rfl
    · rw [hc, add_of_last doc _ _ _ pre ms h]
      rfl
  · intro h
    obtain ⟨ha, hc⟩ := transform_algo_coin_of_present F P t doc arg _ h
    constructor
    · rw [ha, add_of_empty doc _ _ _ h]
      rfl
    · rw [hc, add_of_empty doc _ _ _ h]
      rfl
  · intro v key t1 d1 hkey hv h
    obtain ⟨ha, hc⟩ := transform_algo_coin_of_present F P t doc arg v hv
    rcases hkey with rfl | rfl
    · rw [ha] at h
      cases hadd : BaseTransform.add doc Name.Pools_kPools Name.Pool_kAlgo (Json.str arg) with
      | none => simp [hadd, BaseTransform.withState] at h
      | some d =>
        simp only [hadd, BaseTransform.withState, Option.map_some', Option.some.injEq,
          Prod.mk.injEq] at h
        obtain ⟨rfl, rfl⟩ := h
        exact ⟨rfl, add_pools_frame doc d _ _ v hv hadd⟩
    · rw [hc] at h
      cases hadd : BaseTransform.add doc Name.Pools_kPools Name.Pool_kCoin (Json.str arg) with
      | none => simp [hadd, BaseTransform.withState] at h
      | some d =>
        simp only [hadd, BaseTransform.withState, Option.map_some', Option.some.injEq,
          Prod.mk.injEq] at h
        obtain ⟨rfl, rfl⟩ := h
        exact ⟨rfl, add_pools_frame doc d _ _ v hv hadd⟩
  · intro A B p1 p2 argv0 hA hp1
    have h1 : BaseTransform.loadLoop F P
        [(IConfig.AlgorithmKey, A), (IConfig.UrlKey, p1), (IConfig.AlgorithmKey, B),
          (IConfig.UrlKey, p2)] BaseTransform.init [] []
        = some ({ BaseTransform.init with m_algorithm := some A },
            [(Name.Pools_kPools, Json.array
              [Json.object [(Name.Pool_kUrl, Json.str p1), (Name.Pool_kAlgo, Json.str B)],
               Json.object [(Name.Pool_kUrl, Json.str p2)]])], []) := by
      simp [BaseTransform.loadLoop, BaseTransform.transform, BaseTransform.transformUrl,
        BaseTransform.add, BaseTransform.withState, BaseTransform.set_last,
        BaseTransform.set_obj, BaseTransform.startsPool, Pool.isValid, HasMember, FindMember,
        AddMember, assign, hp1, BaseTransform.init]
    have h2 : BaseTransform.finalize P { BaseTransform.init with m_algorithm := some A }
        [(Name.Pools_kPools, Json.array
          [Json.object [(Name.Pool_kUrl, Json.str p1), (Name.Pool_kAlgo, Json.str B)],
           Json.object [(Name.Pool_kUrl, Json.str p2)]])]
        = some [(Name.Pools_kPools, Json.array
            [Json.object [(Name.Pool_kUrl, Json.str p1), (Name.Pool_kAlgo, Json.str B)],
             Json.object [(Name.Pool_kUrl, Json.str p2),
               (Name.Pool_kAlgo, P.algorithmToJSON A)]])] := by
      simp [BaseTransform.finalize, BaseTransform.backfillPools, BaseTransform.backfill,
        BaseTransform.algorithmIsValid, BaseTransform.algorithmToJSON,
        BaseTransform.coinIsValid, HasMember, FindMember, AddMember, assign, hA,
        BaseTransform.init]
    simp only [BaseTransform.load, h1, h2, List.nil_append]

/-- C21, at the fragment holding the one pool `p1` and the option `--algo B`:
the stored algorithm stays `A` and the pool receives the member; and the
command line `--algo A --url p1 --algo B --url p2`. -/
theorem algo_coin_after_pools_witness :
    FindMember [(Name.Pools_kPools, Json.array [Json.object [(Name.Pool_kUrl, Json.str "p1")]])]
        Name.Pools_kPools
      = some (Json.array ([] ++ [Json.object [(Name.Pool_kUrl, Json.str "p1")]])) ∧
    BaseTransform.transform ⟨true, true, true, false⟩
        ⟨fun _ => true, Json.str, fun _ => true, Json.str, fun _ => true, fun _ => true⟩
        ⟨some "A", none, false⟩
        [(Name.Pools_kPools, Json.array [Json.object [(Name.Pool_kUrl, Json.str "p1")]])]
        IConfig.AlgorithmKey "B"
      = some (⟨some "A", none, false⟩,
          [(Name.Pools_kPools, Json.array
            [Json.object [(Name.Pool_kUrl, Json.str "p1"), (Name.Pool_kAlgo, Json.str "B")]])]) ∧
    BaseTransform.load ⟨true, true, true, false⟩
        ⟨fun _ => true, Json.str, fun _ => true, Json.str, fun _ => true, fun _ => true⟩
        "xmrig"
        [(IConfig.AlgorithmKey, "A"), (IConfig.UrlKey, "p1"), (IConfig.AlgorithmKey, "B"),
          (IConfig.UrlKey, "p2")] none BaseTransform.init
      = some (⟨some "A", none, false⟩,
          [BaseTransform.ChainCall.add [(Name.Pools_kPools, Json.array
            [Json.object [(Name.Pool_kUrl, Json.str "p1"), (Name.Pool_kAlgo, Json.str "B")],
             Json.object [(Name.Pool_kUrl, Json.str "p2"),
               (Name.Pool_kAlgo, Json.str "A")]])]], []) :=
  ⟨rfl,
   ((algo_coin_after_pools ⟨true, true, true, false⟩
      ⟨fun _ => true, Json.str, fun _ => true, Json.str, fun _ => true, fun _ => true⟩
      ⟨some "A", none, false⟩
      [(Name.Pools_kPools, Json.array [Json.object [(Name.Pool_kUrl, Json.str "p1")]])]
      "B").2.1 [] [(Name.Pool_kUrl, Json.str "p1")] rfl).1,
   (algo_coin_after_pools ⟨true, true, true, false⟩
      ⟨fun _ => true, Json.str, fun _ => true, Json.str, fun _ => true, fun _ => true⟩
      BaseTransform.init [] "").2.2.2.2 "A" "B" "p1" "p2" "xmrig" rfl rfl⟩

end xmrig

namespace xmrig

/-- `load` is the option loop, then one `finalize` of the fragment the loop
ends with, then the last `chain.add`. -/
theorem load_of_loadLoop (F : Features) (P : Parsers) (argv0 : String)
    (options : List (IConfig × String)) (nonOption : Option String) (t0 t1 : BaseTransform)
    (d1 d2 : Document) (chain1 : List BaseTransform.ChainCall)
    (hloop : BaseTransform.loadLoop F P options t0 [] [] = some (t1, d1, chain1))
    (hfin : BaseTransform.finalize P t1 d1 = some d2) :
    ∃ log, BaseTransform.load F P argv0 options nonOption t0
      = some (t1, chain1 ++ [BaseTransform.ChainCall.add d2], log) := by
  cases nonOption with
  | none => exact ⟨[], by simp only [BaseTransform.load, hloop, hfin]⟩
  | some a =>
    exact ⟨[Effect.log LogLevel.WARN (argv0 ++ ": unsupported non-option argument "
      ++ String.singleton (Char.ofNat 39) ++ a ++ String.singleton (Char.ofNat 39))],
      by simp only [BaseTransform.load, hloop, hfin]⟩

/-- The option loop after a first `--config`: the calls made so far stay at the
head of the chain. -/
theorem loadLoop_after_flush (F : Features) (P : Parsers) (tail : List (IConfig × String))
    (t : BaseTransform) (chain0 : List BaseTransform.ChainCall) :
    ∃ t1 d1 mid, BaseTransform.loadLoop F P tail t [] chain0 = some (t1, d1, chain0 ++ mid) ∧
      BaseTransform.WellFormed d1 := by
  obtain ⟨first, rest, hopt, hfirst, hrest, _, _⟩ := exists_split tail
  obtain ⟨t1, d, mid, hloop, hwf, _, _⟩ :=
    loadLoop_segments F P rest first t chain0 hfirst hrest
  rw [hopt] at hloop
  exact ⟨t1, d, mid, hloop, hwf⟩

/-- C24: for every option sequence `load` returns; it is the option loop, which
calls no `finalize`, followed by one `finalize` of the fragment the loop ends
with and the last `chain.add`. The fragments the loop added at the `--config`
tokens are the fragments of their own runs of options as `transform` left
them. So after `--algo A --url p --config file` the first fragment on the chain
is the pool `p` without an `algo` member, and after `--http-host h --config
file` it is `http.host` without `http.enabled`, whatever options follow. -/
theorem load_finalize_once (F : Features) (P : Parsers) (argv0 : String)
    (options : List (IConfig × String)) (nonOption : Option String) :
    (∃ (first : List (IConfig × String)) (rest : List (String × List (IConfig × String)))
      (t1 : BaseTransform) (d1 d2 : Document) (chain1 : List BaseTransform.ChainCall)
      (log : List Effect),
      BaseTransform.optionsOf first rest = options ∧
      (∀ o ∈ first, o.1 ≠ IConfig.ConfigKey) ∧
      (∀ fs ∈ rest, ∀ o ∈ fs.2, o.1 ≠ IConfig.ConfigKey) ∧
      BaseTransform.loadLoop F P options BaseTransform.init [] [] = some (t1, d1, chain1) ∧
      BaseTransform.finalize P t1 d1 = some d2 ∧
      BaseTransform.load F P argv0 options nonOption BaseTransform.init
        = some (t1, chain1 ++ [BaseTransform.ChainCall.add d2], log) ∧
      chain1.length = 2 * rest.length ∧
      BaseTransform.ChainMatches F P some (chain1 ++ [BaseTransform.ChainCall.add d1])
        first rest) ∧
    (∀ (A p file : String) (tail : List (IConfig × String)),
      ∃ (t1 : BaseTransform) (chain1 : List BaseTransform.ChainCall) (log : List Effect),
        BaseTransform.load F P argv0
            ((IConfig.AlgorithmKey, A) :: (IConfig.UrlKey, p) :: (IConfig.ConfigKey, file) :: tail)
            nonOption BaseTransform.init
          = some (t1, BaseTransform.ChainCall.add
                [(Name.Pools_kPools, Json.array [Json.object [(Name.Pool_kUrl, Json.str p)]])]
              :: BaseTransform.ChainCall.addFile file :: chain1, log)) ∧
    (∀ (h file : String) (tail : List (IConfig × String)),
      ∃ (t1 : BaseTransform) (chain1 : List BaseTransform.ChainCall) (log : List Effect),
        BaseTransform.load F P argv0
            ((IConfig.HttpHostKey, h) :: (IConfig.ConfigKey, file) :: tail)
            nonOption BaseTransform.init
          = some (t1, BaseTransform.ChainCall.add
                [(Name.BaseConfig_kHttp, Json.object [(Name.Http_kHost, Json.str h)])]
              :: BaseTransform.ChainCall.addFile file :: chain1, log)) := by
  refine ⟨?_, ?_, ?_⟩
  · obtain ⟨first, rest, hopt, hfirst, hrest, _, _⟩ := exists_split options
    obtain ⟨t1, d, mid, hloop, hwf, hmid, hmatch⟩ :=
      loadLoop_segments F P rest first BaseTransform.init [] hfirst hrest
    obtain ⟨dl, hfin, _, _⟩ := finalize_ok P t1 d hwf
    rw [hopt, List.nil_append] at hloop
    obtain ⟨log, hload⟩ := load_of_loadLoop F P argv0 options nonOption _ t1 d dl mid hloop hfin
    exact ⟨first, rest, t1, d, dl, mid, log, hopt, hfirst, hrest, hloop, hfin, hload, hmid,
      hmatch some d rfl⟩
  · intro A p file tail
    obtain ⟨t1, d1, mid, hloop, hwf⟩ := loadLoop_after_flush F P tail
      { BaseTransform.init with m_algorithm := some A }
      [BaseTransform.ChainCall.add
          [(Name.Pools_kPools, Json.array [Json.object [(Name.Pool_kUrl, Json.str p)]])],
        BaseTransform.ChainCall.addFile file]
    obtain ⟨dl, hfin, _, _⟩ := finalize_ok P t1 d1 hwf
    have h1 : BaseTransform.loadLoop F P
        ((IConfig.AlgorithmKey, A) :: (IConfig.UrlKey, p) :: (IConfig.ConfigKey, file) :: tail)
        BaseTransform.init [] []
        = some (t1, d1, [BaseTransform.ChainCall.add
            [(Name.Pools_kPools, Json.array [Json.object [(Name.Pool_kUrl, Json.str p)]])],
          BaseTransform.ChainCall.addFile file] ++ mid) := by
      rw [← hloop]
      simp [BaseTransform.loadLoop, BaseTransform.transform, BaseTransform.transformUrl,
        BaseTransform.set_last, BaseTransform.set_obj, BaseTransform.startsPool, HasMember,
        FindMember, AddMember, assign, BaseTransform.init]
    obtain ⟨log, hload⟩ := load_of_loadLoop F P argv0 _ nonOption _ t1 d1 dl _ h1 hfin
    exact ⟨t1, mid ++ [BaseTransform.ChainCall.add dl], log, by simpa using hload⟩
  · intro h file tail
    obtain ⟨t1, d1, mid, hloop, hwf⟩ := loadLoop_after_flush F P tail
      { BaseTransform.init with m_http := true }
      [BaseTransform.ChainCall.add
          [(Name.BaseConfig_kHttp, Json.object [(Name.Http_kHost, Json.str h)])],
        BaseTransform.ChainCall.addFile file]
    obtain ⟨dl, hfin, _, _⟩ := finalize_ok P t1 d1 hwf
    have h1 : BaseTransform.loadLoop F P
        ((IConfig.HttpHostKey, h) :: (IConfig.ConfigKey, file) :: tail)
        BaseTransform.init [] []
        = some (t1, d1, [BaseTransform.ChainCall.add
            [(Name.BaseConfig_kHttp, Json.object [(Name.Http_kHost, Json.str h)])],
          BaseTransform.ChainCall.addFile file] ++ mid) := by
      rw [← hloop]
      simp [BaseTransform.loadLoop, BaseTransform.transform, BaseTransform.set_objKey,
        BaseTransform.withState, BaseTransform.set_obj, HasMember,
        FindMember, AddMember, assign, BaseTransform.init]
    obtain ⟨log, hload⟩ := load_of_loadLoop F P argv0 _ nonOption _ t1 d1 dl _ h1 hfin
    exact ⟨t1, mid ++ [BaseTransform.ChainCall.add dl], log, by simpa using hload⟩

end xmrig
